import Mathlib

/-!
# Verification of the monospace-ART digit-simulation core

A shallow embedding of the particle-society simulation:
entities ("digits") that move, age, bond, reproduce and die.

Modelling conventions:
* JS objects live in one global array `state.digits`; object identity is
  modelled by a numeric `id` field, and `SimState.nextId` supplies fresh ids
  (each `createDigit` call allocates a new object).
* JS numbers are modelled as real numbers `ℝ`; digit names ("1".."9",
  stored as strings in JS and converted with `parseInt` at use sites)
  are modelled by their numeric value `ℕ`.
* `Math.random()` results are modelled by an explicit stream `Rand : ℕ → ℝ`
  together with a cursor that is threaded through every function in the
  order in which the source draws random values.
* `lastRepro` is initialised to `-Infinity` in the source and later set to
  `state.tick`; it is modelled as `Option ℕ` with `none` for `-Infinity`.
-/

set_option linter.unusedVariables false

namespace ART

open Real

open scoped Classical

noncomputable section

/-- Sex of a digit: the source uses the strings "M" and "F". -/
inductive Sex where
  | M : Sex
  | F : Sex
deriving DecidableEq, Repr

/-- The configuration surface (`CONFIG` in `config.js`), restricted to the
fields the simulation core reads.  Age thresholds are in frame units (the
source derives them from seconds × FPS).  `innerWidth`/`innerHeight` model
the browser viewport `window.innerWidth`/`window.innerHeight`. -/
structure Config where
  speed : ℝ
  maxAge : ℝ
  maxAgeVariation : ℝ
  adolescenceAge : ℝ
  matureAge : ℝ
  oldAge : ℝ
  attractionRadius : ℝ
  mateDistance : ℝ
  gestation : ℝ
  POP_CAP : ℕ
  digitSize : ℝ
  newbornOffset : ℝ
  newbornSpeedFactor : ℝ
  bondedOffset : ℝ
  springK : ℝ
  springDamping : ℝ
  bondedJitter : ℝ
  jitterYoung : ℝ
  jitterOld : ℝ
  directionJitter : ℝ
  velocityJitter : ℝ
  enableAttractor : Bool
  attractorRadius : ℝ
  attractorStrength : ℝ
  innerWidth : ℝ
  innerHeight : ℝ

/-- One simulated entity (`createDigit` in `digit.js` lists the fields).
`scale` appears here because the collision resolver reads `A.scale`; the
source never assigns a `scale` property to a digit object, so the field is
`none` at creation and stays `none` through every operation. -/
structure Digit where
  id : ℕ
  name : ℕ
  sex : Sex
  x : ℝ
  y : ℝ
  dx : ℝ
  dy : ℝ
  age : ℝ
  maxAge : ℝ
  lastRepro : Option ℕ
  bondedTo : Option ℕ
  gestationTimer : ℝ
  mother : Option ℕ
  father : Option ℕ
  children : List ℕ
  attractionTarget : Option ℕ
  orbitAngle : Option ℝ
  target : Option (ℝ × ℝ)
  scale : Option ℝ

/-- The mutable global simulation state (`state.js`), restricted to the
fields the core reads/writes.  `nextId` is the model's fresh-identity
counter standing for JS object allocation. -/
structure SimState where
  digits : List Digit
  tick : ℕ
  nextId : ℕ

/-- A stream of `Math.random()` results (each call consumes one index). -/
def Rand : Type := ℕ → ℝ

/-- `Math.random()` always returns a value in `[0, 1)`. -/
def ValidRand (r : Rand) : Prop := ∀ i, 0 ≤ r i ∧ r i < 1

/-- Look up the digit object with a given id in the live array. -/
def findById (digits : List Digit) (i : ℕ) : Option Digit :=
  digits.find? (fun d => d.id = i)

/-- Mutate, through its id, the digit object a JS reference points at. -/
def updateById (digits : List Digit) (i : ℕ) (f : Digit → Digit) : List Digit :=
  digits.map (fun d => if d.id = i then f d else d)

/-- `isAlive` (`validation.js`): a digit reference is alive when the object
is still a member of `state.digits`. -/
def isAlive (digits : List Digit) (i : ℕ) : Bool :=
  digits.any (fun d => d.id = i)

-- ============================================================
-- utils/helpers.js
-- ============================================================

/-- `distance(a, b) = Math.hypot(a.x - b.x, a.y - b.y)`. -/
def distance (a b : Digit) : ℝ :=
  Real.sqrt ((a.x - b.x) ^ 2 + (a.y - b.y) ^ 2)

/-- Sum of the decimal digits of `n`
(`sum.toString().split('').reduce((acc, d) => acc + parseInt(d), 0)`). -/
def digitSum (n : ℕ) : ℕ := (Nat.digits 10 n).sum

/-- The `while (sum > 9)` loop body of `crossSum`, iterated to a fixpoint
(the digit sum of a number above 9 is strictly smaller, so the loop
terminates). -/
def crossSumLoop (sum : ℕ) : ℕ :=
  if h : 9 < sum then crossSumLoop (digitSum sum) else sum
decreasing_by
  have hd : Nat.digits 10 sum = sum % 10 :: Nat.digits 10 (sum / 10) :=
    Nat.digits_def' (by omega : 1 < 10) (by omega : 0 < sum)
  have hrec : (Nat.digits 10 (sum / 10)).sum ≤ sum / 10 := Nat.digit_sum_le 10 (sum / 10)
  have hq : 1 ≤ sum / 10 := Nat.one_le_div_iff (by omega) |>.mpr (by omega)
  have hmod : sum % 10 + 10 * (sum / 10) = sum := Nat.mod_add_div sum 10
  simp only [digitSum, hd, List.sum_cons]
  omega

/-- `crossSum(a, b)` (`utils/helpers.js`): start from `a + b`, repeatedly
replace the value by its decimal digit sum while it exceeds 9. -/
def crossSum (a b : ℕ) : ℕ := crossSumLoop (a + b)

/-- JS `Math.atan2(y, x)` (sign conventions of the standard library;
the `±0` distinctions of IEEE floats collapse to a single zero in `ℝ`). -/
def atan2 (y x : ℝ) : ℝ :=
  if 0 < x then Real.arctan (y / x)
  else if x < 0 then
    (if 0 ≤ y then Real.arctan (y / x) + Real.pi else Real.arctan (y / x) - Real.pi)
  else if 0 < y then Real.pi / 2
  else if y < 0 then -(Real.pi / 2)
  else 0

/-- `applySpringPhysics` (`utils/helpers.js`).  Every call site uses the
default `offset = 0`, for which the `if (offset)` branch is skipped, so the
offset parameter is omitted here. -/
def applySpringPhysics (d : Digit) (targetX targetY spring damp maxSpeed : ℝ) : Digit :=
  let dx := (d.dx + (targetX - d.x) * spring) * damp
  let dy := (d.dy + (targetY - d.y) * spring) * damp
  let speed := Real.sqrt (dx ^ 2 + dy ^ 2)
  if speed > maxSpeed then
    { d with dx := dx / speed * maxSpeed, dy := dy / speed * maxSpeed }
  else
    { d with dx := dx, dy := dy }

-- ============================================================
-- model/movement.js : constants
-- ============================================================

/-- `ORBIT` constants in `movement.js`. -/
def ORBIT_childSpeed : ℝ := 0.01
def ORBIT_maleSpeed : ℝ := 0.008
def ORBIT_childRadiusMin : ℝ := 0.8
def ORBIT_childRadiusMax : ℝ := 0.2
def ORBIT_maleRadiusMin : ℝ := 0.85
def ORBIT_maleRadiusMax : ℝ := 0.15
def ORBIT_jitter : ℝ := 0.1

/-- `SEEK` constants in `movement.js`. -/
def SEEK_blendDefault : ℝ := 0.08
def SEEK_blendAggressive : ℝ := 0.15
def SEEK_speedDefault : ℝ := 0.7
def SEEK_speedAggressive : ℝ := 1.0

/-- `WALL` constants in `movement.js`. -/
def WALL_margin : ℝ := 5
def WALL_topMargin : ℝ := 40
def WALL_bounceDamping : ℝ := 0.8

/-- `JITTER` constants in `movement.js`. -/
def JITTER_baseSpeed : ℝ := 0.2
def JITTER_maxSpeed : ℝ := 1.2

/-- Viewport boundaries accounting for digit size (`calculateBounds`). -/
structure Bounds where
  left : ℝ
  right : ℝ
  top : ℝ
  bottom : ℝ

/-- `calculateBounds(radius)` in `movement.js`. -/
def calculateBounds (cfg : Config) (radius : ℝ) : Bounds :=
  { left := radius + WALL_margin
    right := cfg.innerWidth - radius - WALL_margin
    top := WALL_topMargin + radius + WALL_margin
    bottom := cfg.innerHeight - radius - WALL_margin }

-- ============================================================
-- render/render.js : the age-derived scale used by the renderer
-- ============================================================

/-- `calculateScale` (`render/render.js`): visual scale grows linearly with
age from 30% at birth to 100% at full maturity. -/
def calculateScale (cfg : Config) (d : Digit) : ℝ :=
  let maturityRatio := min (d.age / cfg.matureAge) 1
  0.3 + maturityRatio * 0.7

-- ============================================================
-- movement.js : orbital movement
-- ============================================================

/-- JS truthiness of the `orbitAngle` field: `!d.orbitAngle` is true both
for an absent property and for the number 0. -/
def orbitAngleFalsy (d : Digit) : Prop :=
  d.orbitAngle = none ∨ d.orbitAngle = some 0

/-- `initializeOrbit(d)`: set `target` to the digit's position if unset and
draw a random initial `orbitAngle` if unset (or 0, by JS falsiness). -/
def initializeOrbit (r : Rand) (k : ℕ) (d : Digit) : Digit × ℕ :=
  let d1 := if d.target = none then { d with target := some (d.x, d.y) } else d
  if orbitAngleFalsy d1 then
    ({ d1 with orbitAngle := some (r k * (2 * Real.pi)) }, k + 1)
  else (d1, k)

/-- `updateOrbit(d, center, angularSpeed, radiusMin, radiusMax,
speedMultiplier, addJitter)`.  As in the source, `speedMultiplier` is a
parameter that the body never reads. -/
def updateOrbit (cfg : Config) (r : Rand) (k : ℕ) (d : Digit) (cx cy : ℝ)
    (angularSpeed radiusMin radiusMax _speedMultiplier : ℝ) (addJitter : Bool) :
    Digit × ℕ :=
  let angle := d.orbitAngle.getD 0 + angularSpeed
  let radius := cfg.bondedOffset * (radiusMin + r k * radiusMax)
  let tx := cx + Real.cos angle * radius
  let ty := cy + Real.sin angle * radius
  let d1 := { d with orbitAngle := some angle, target := some (tx, ty) }
  let d2 := applySpringPhysics d1 tx ty (cfg.springK * 2.0) (cfg.springDamping * 0.7)
    (cfg.speed * 1.5)
  if addJitter then
    ({ d2 with dx := d2.dx + (r (k + 1) - 0.5) * ORBIT_jitter,
               dy := d2.dy + (r (k + 2) - 0.5) * ORBIT_jitter }, k + 3)
  else (d2, k + 1)

/-- `handleChildMovement(d)`: applies when the digit has a (non-null)
`mother` reference and `age < CONFIG.adolescenceAge`; returns `none` when
the branch is not taken.  The source reads the mother object through the
reference; here it is looked up by id, which agrees with the source
whenever the reference is not dangling (the validation pass of §4.6 runs
before every movement pass and clears dead `mother` references). -/
def handleChildMovement (cfg : Config) (r : Rand) (k : ℕ) (digits : List Digit)
    (d : Digit) : Option (Digit × ℕ) :=
  match d.mother with
  | none => none
  | some mid =>
    if d.age ≥ cfg.adolescenceAge then none
    else
      match findById digits mid with
      | some mom =>
        let p := initializeOrbit r k d
        some (updateOrbit cfg r p.2 p.1 mom.x mom.y ORBIT_childSpeed ORBIT_childRadiusMin
          ORBIT_childRadiusMax cfg.bondedJitter true)
      | none => some (d, k)

/-- `handleBondedMaleMovement(d)`: applies to a male with a (non-null)
`bondedTo` reference; same dangling-reference caveat as for the mother. -/
def handleBondedMaleMovement (cfg : Config) (r : Rand) (k : ℕ) (digits : List Digit)
    (d : Digit) : Option (Digit × ℕ) :=
  if d.sex ≠ Sex.M ∨ d.bondedTo = none then none
  else
    match d.bondedTo.bind (findById digits) with
    | some mate =>
      let p := initializeOrbit r k d
      some (updateOrbit cfg r p.2 p.1 mate.x mate.y ORBIT_maleSpeed ORBIT_maleRadiusMin
        ORBIT_maleRadiusMax cfg.bondedJitter false)
    | none => some (d, k)

-- ============================================================
-- movement.js : seeking and mating
-- ============================================================

/-- `isValidMatingTarget(female)`: female, mature but not old, not
gestating, currently unbonded. -/
def isValidMatingTarget (cfg : Config) (female : Digit) : Prop :=
  female.sex = Sex.F ∧ female.age ≥ cfg.matureAge ∧ female.age < cfg.oldAge ∧
    female.gestationTimer = 0 ∧ female.bondedTo = none

/-- `findNearestFemale(male)`: linear scan of all digits; the closest valid
target strictly within the attraction radius wins, first-seen on ties. -/
def findNearestFemale (cfg : Config) (digits : List Digit) (male : Digit) :
    Option Digit :=
  (digits.foldl
    (fun (acc : ℝ × Option Digit) female =>
      if isValidMatingTarget cfg female ∧ distance male female < acc.1 then
        (distance male female, some female)
      else acc)
    (cfg.attractionRadius, none)).2

/-- `createBond(male, female)`: link both sides and start gestation. -/
def createBond (cfg : Config) (male female : Digit) : Digit × Digit :=
  ({ male with bondedTo := some female.id },
   { female with bondedTo := some male.id, gestationTimer := cfg.gestation })

/-- `moveTowardTarget(d, target, dist)`.  The target is the digit's
`d.target` scratch object, which carries only `x` and `y`; `tGest` models
reading `target.gestationTimer` from it (`none` = property absent, so the
`=== 0` comparison is false).  `dist` is accepted but, as in the source,
only used by the commented-out approach factor. -/
def moveTowardTarget (cfg : Config) (d : Digit) (tx ty : ℝ) (tGest : Option ℝ)
    (dist : ℝ) : Digit :=
  let targetAngle := atan2 (ty - d.y) (tx - d.x)
  let currentAngle := atan2 d.dy d.dx
  let isAggressive := d.sex = Sex.M ∧ d.bondedTo = none ∧ tGest = some 0
  let blend := if isAggressive then SEEK_blendAggressive else SEEK_blendDefault
  let speedFactor := if isAggressive then SEEK_speedAggressive else SEEK_speedDefault
  let angle := currentAngle * (1 - blend) + targetAngle * blend
  let approachFactor : ℝ := 1
  let speed := cfg.speed * speedFactor * approachFactor
  { d with dx := Real.cos angle * speed, dy := Real.sin angle * speed }

/-- `handleSeekingMaleMovement(d)`: applies to every male with
`matureAge ≤ age < oldAge`.  Returns the updated male, the digit array
(updated when a bond mutated the chosen female), the random cursor —
or `none` when the guard rejects the branch.  Note that the branch is
taken (the source returns `true`) even when no target female exists. -/
def handleSeekingMaleMovement (cfg : Config) (r : Rand) (k : ℕ)
    (digits : List Digit) (d : Digit) : Option (Digit × List Digit × ℕ) :=
  if d.sex ≠ Sex.M ∨ d.age < cfg.matureAge ∨ d.age ≥ cfg.oldAge then none
  else
    match findNearestFemale cfg digits d with
    | some targetFemale =>
      let dist := distance d targetFemale
      let bondNow : Prop :=
        dist ≤ cfg.mateDistance ∧ d.bondedTo = none ∧ targetFemale.gestationTimer = 0
      let d1 := if bondNow then (createBond cfg d targetFemale).1 else d
      let digits1 :=
        if bondNow then
          updateById digits targetFemale.id (fun o => (createBond cfg d o).2)
        else digits
      let d2 := { d1 with target := some (targetFemale.x, targetFemale.y) }
      let d3 := moveTowardTarget cfg d2 targetFemale.x targetFemale.y none dist
      some ({ d3 with attractionTarget := some targetFemale.id }, digits1, k)
    | none =>
      some ({ d with attractionTarget := none }, digits, k)

-- ============================================================
-- movement.js : jitter, velocity constraint, integration, walls
-- ============================================================

/-- `applyJitterMovement(d)`: random wandering whose intensity depends on
the age ratio (young under 30%, old above 70% of max age). -/
def applyJitterMovement (cfg : Config) (r : Rand) (k : ℕ) (d : Digit) : Digit × ℕ :=
  let ageRatio := d.age / d.maxAge
  let jitterScale :=
    if ageRatio < 0.3 then cfg.jitterYoung
    else if ageRatio < 0.7 then 1.0
    else cfg.jitterOld
  let currentAngle := atan2 d.dy d.dx
  let angle := currentAngle + (r k - 0.5) * cfg.directionJitter * jitterScale
  let speedVariation := (r (k + 1) - 0.5) * cfg.velocityJitter * jitterScale
  let baseSpeed := cfg.speed * JITTER_baseSpeed
  let speed := max baseSpeed (min (cfg.speed * (1 + speedVariation)) (cfg.speed * JITTER_maxSpeed))
  ({ d with dx := Real.cos angle * speed, dy := Real.sin angle * speed }, k + 2)

/-- `constrainVelocity(d, maxSpeed)`: clamp the velocity magnitude. -/
def constrainVelocity (d : Digit) (maxSpeed : ℝ) : Digit :=
  let magnitude := Real.sqrt (d.dx ^ 2 + d.dy ^ 2)
  if magnitude > maxSpeed then
    let s := maxSpeed / magnitude
    { d with dx := d.dx * s, dy := d.dy * s }
  else d

/-- `updatePosition(d)`: integrate position by one step of velocity. -/
def updatePosition (d : Digit) : Digit :=
  { d with x := d.x + d.dx, y := d.y + d.dy }

/-- `bounceOffWalls(d)`: reflect and damp velocity at the viewport edges,
clamping position onto the edge.  The radius uses the cached appearance
scale for the frame, which is `calculateScale` at the digit's current age
(`getCachedAppearance` memoizes `updateDigitAppearance`, whose scale field
is `calculateScale(d)`; the cache is cleared at the start of each tick). -/
def bounceOffWalls (cfg : Config) (d : Digit) : Digit :=
  let radius := cfg.digitSize * calculateScale cfg d / 2
  let bounds := calculateBounds cfg radius
  let d1 :=
    if d.x < bounds.left then { d with x := bounds.left, dx := d.dx * (-WALL_bounceDamping) }
    else if d.x > bounds.right then { d with x := bounds.right, dx := d.dx * (-WALL_bounceDamping) }
    else d
  if d1.y < bounds.top then { d1 with y := bounds.top, dy := d1.dy * (-WALL_bounceDamping) }
  else if d1.y > bounds.bottom then { d1 with y := bounds.bottom, dy := d1.dy * (-WALL_bounceDamping) }
  else d1

-- ============================================================
-- movement.js : per-digit behaviour dispatch
-- ============================================================

/-- The movement behaviour that handled a given update, in the priority
order of `updateDigitPosition`: the source computes
`handleChildMovement(d) || handleBondedMaleMovement(d) ||
handleSeekingMaleMovement(d)` and falls back to jitter when all three
return `false`. -/
inductive Branch where
  | child : Branch
  | bondedMale : Branch
  | seeking : Branch
  | jitter : Branch
deriving DecidableEq, Repr

/-- `updateDigitPosition(d)`: dispatch to the first applicable behaviour,
then clamp velocity to `CONFIG.speed`.  Returns the updated digit, the
digit array (changed only when the seeking branch formed a bond), the
random cursor, and which behaviour ran. -/
def updateDigitPosition (cfg : Config) (r : Rand) (k : ℕ) (digits : List Digit)
    (d : Digit) : Digit × List Digit × ℕ × Branch :=
  match handleChildMovement cfg r k digits d with
  | some (d', k') => (constrainVelocity d' cfg.speed, digits, k', Branch.child)
  | none =>
    match handleBondedMaleMovement cfg r k digits d with
    | some (d', k') => (constrainVelocity d' cfg.speed, digits, k', Branch.bondedMale)
    | none =>
      match handleSeekingMaleMovement cfg r k digits d with
      | some (d', digits', k') =>
        (constrainVelocity d' cfg.speed, digits', k', Branch.seeking)
      | none =>
        let p := applyJitterMovement cfg r k d
        (constrainVelocity p.1 cfg.speed, digits, p.2, Branch.jitter)

-- ============================================================
-- movement/collision.js : hard collision resolution
-- ============================================================

/-- The options object of `resolveDigitCollisions` with its source
defaults. -/
structure CollideOpts where
  bounceFactor : ℝ := 0.8
  minSeparation : ℝ := 0
  maxIterations : ℕ := 2
  applyVelocity : Bool := true

/-- The per-digit radius the collision resolver uses:
`(CONFIG.digitSize * (A.scale || 1)) / 2`.  `A.scale` is a property no
digit object ever receives, so the `||` falls back to 1 (the match also
mirrors that a stored 0 would be falsy). -/
def collisionRadius (cfg : Config) (d : Digit) : ℝ :=
  cfg.digitSize * (match d.scale with
    | some s => if s = 0 then 1 else s
    | none => 1) / 2

/-- The body of the inner pair loop of `resolveDigitCollisions`: push an
overlapping pair apart symmetrically along the contact normal and apply
the optional elastic impulse. -/
def resolvePair (cfg : Config) (opts : CollideOpts) (A B : Digit) : Digit × Digit :=
  let radiusA := collisionRadius cfg A
  let radiusB := collisionRadius cfg B
  let dx := B.x - A.x
  let dy := B.y - A.y
  let dist := Real.sqrt (dx ^ 2 + dy ^ 2)
  let minDist := radiusA + radiusB + opts.minSeparation
  if dist < minDist ∧ dist > 0 then
    let overlap := minDist - dist
    let nx := dx / dist
    let ny := dy / dist
    let A1 := { A with x := A.x - overlap / 2 * nx, y := A.y - overlap / 2 * ny }
    let B1 := { B with x := B.x + overlap / 2 * nx, y := B.y + overlap / 2 * ny }
    if opts.applyVelocity then
      let relVelX := B1.dx - A1.dx
      let relVelY := B1.dy - A1.dy
      let dot := relVelX * nx + relVelY * ny
      let impulse := dot * opts.bounceFactor
      ({ A1 with dx := A1.dx + impulse * nx, dy := A1.dy + impulse * ny },
       { B1 with dx := B1.dx - impulse * nx, dy := B1.dy - impulse * ny })
    else (A1, B1)
  else (A, B)

/-- Resolve the pair at positions `(i, j)` of the array in place. -/
def collidePairStep (cfg : Config) (opts : CollideOpts) (l : List Digit)
    (i j : ℕ) : List Digit :=
  match l.get? i, l.get? j with
  | some A, some B =>
    let p := resolvePair cfg opts A B
    (l.set i p.1).set j p.2
  | _, _ => l

/-- Inner loop over `j = i+1 .. n-1` of `resolveDigitCollisions`. -/
def collideInner (cfg : Config) (opts : CollideOpts) (n i : ℕ) (l : List Digit) :
    List Digit :=
  (List.range' (i + 1) (n - (i + 1))).foldl
    (fun acc j => collidePairStep cfg opts acc i j) l

/-- One full pass over all pairs `i < j`. -/
def collidePass (cfg : Config) (opts : CollideOpts) (n : ℕ) (l : List Digit) :
    List Digit :=
  (List.range n).foldl (fun acc i => collideInner cfg opts n i acc) l

/-- `resolveDigitCollisions(digits, options)`: repeat the pairwise pass
`maxIterations` times (`n` is read once before the loops; the `if (!A)`
null guards of the source never fire because the array holds no nulls). -/
def resolveDigitCollisions (cfg : Config) (opts : CollideOpts) (digits : List Digit) :
    List Digit :=
  let n := digits.length
  (List.range opts.maxIterations).foldl (fun acc _ => collidePass cfg opts n acc) digits

-- ============================================================
-- model/validation.js
-- ============================================================

/-- `validateBonds(d, true)`: clear a dead `bondedTo` or `mother`
reference and filter dead entries out of `children`.  (The source checks
`bondedTo`, `mother` and `children` only; `father` is left untouched.) -/
def validateBonds (digits : List Digit) (d : Digit) : Digit :=
  { d with
    bondedTo :=
      match d.bondedTo with
      | some i => if isAlive digits i then some i else none
      | none => none
    mother :=
      match d.mother with
      | some i => if isAlive digits i then some i else none
      | none => none
    children := d.children.filter (fun c => isAlive digits c) }

-- ============================================================
-- model/digit.js : killDigit
-- ============================================================

/-- The reference-severing loop body of `killDigit(d)` applied to one
other digit: null a `bondedTo` or `mother` reference pointing at the
removed digit and filter it from `children`.  (`father` references are not
touched by the source.) -/
def clearRefsTo (i : ℕ) (o : Digit) : Digit :=
  { o with
    bondedTo := if o.bondedTo = some i then none else o.bondedTo,
    mother := if o.mother = some i then none else o.mother,
    children := o.children.filter (fun c => c ≠ i) }

/-- `killDigit(d)`: sever inbound `bondedTo`/`mother`/`children`
references in every digit (the loop includes `d` itself), then remove `d`
from the live array.  The per-sex/per-name counter update touches only
statistics state, which is outside this model. -/
def killDigit (s : SimState) (d : Digit) : SimState :=
  { s with digits := (s.digits.map (clearRefsTo d.id)).filter (fun x => x.id ≠ d.id) }

-- ============================================================
-- model/digit.js : createDigit
-- ============================================================

/-- `createDigit(name, sex, x, y, speedFactor, mother, father)`.
Draw order: max-age variation, then the initial heading angle (computed
even when a mother is present), then whatever `updateDigitPosition` draws
for the newborn.  The newborn is linked into the parents' `children`
arrays, run through one movement update (velocity/scratch fields only —
the position is untouched), and appended to the live array.
`updateDigitAppearance` and the statistics counters have no effect on the
modelled state and are omitted. -/
def createDigit (cfg : Config) (r : Rand) (k : ℕ) (s : SimState) (name : ℕ)
    (sex : Sex) (x y speedFactor : ℝ) (mother father : Option ℕ) : SimState × ℕ :=
  let variation := cfg.maxAge * cfg.maxAgeVariation
  let delta := (r k * 2 - 1) * variation
  let angle := r (k + 1) * (2 * Real.pi)
  let d : Digit :=
    { id := s.nextId
      name := name
      sex := sex
      x := x
      y := y
      dx := if mother = none then Real.cos angle * cfg.speed * speedFactor else 0
      dy := if mother = none then Real.sin angle * cfg.speed * speedFactor else 0
      age := 0
      maxAge := cfg.maxAge + delta
      lastRepro := none
      bondedTo := none
      gestationTimer := 0
      mother := mother
      father := father
      children := []
      attractionTarget := none
      orbitAngle := none
      target := none
      scale := none }
  let ds1 :=
    match mother with
    | some mid => updateById s.digits mid (fun m => { m with children := m.children ++ [d.id] })
    | none => s.digits
  let ds2 :=
    match father with
    | some fid => updateById ds1 fid (fun f => { f with children := f.children ++ [d.id] })
    | none => ds1
  let u := updateDigitPosition cfg r (k + 2) ds2 d
  ({ s with digits := u.2.1 ++ [u.1], nextId := s.nextId + 1 }, u.2.2.1)

-- ============================================================
-- model/reproduction.js
-- ============================================================

/-- The birth block of `reproduce()` for female `f` (already decremented
to `gestationTimer = 0`) at position `i`, with mate object `m`.  Draw
order: offspring sex, x offset, y offset, then `createDigit`'s draws. -/
def birthStep (cfg : Config) (r : Rand) (k : ℕ) (s : SimState) (f m : Digit) :
    SimState × ℕ :=
  let name := crossSum f.name m.name
  let sex := if r k < 0.5 then Sex.M else Sex.F
  let x := (f.x + m.x) / 2 + (r (k + 1) - 0.5) * cfg.newbornOffset
  let y := (f.y + m.y) / 2 + (r (k + 2) - 0.5) * cfg.newbornOffset
  let c := createDigit cfg r (k + 3) s name sex x y cfg.newbornSpeedFactor
    (some f.id) (some m.id)
  let s2 := c.1
  let digits2 := updateById s2.digits f.id
    (fun o => { o with lastRepro := some s.tick, bondedTo := none })
  let digits3 := updateById digits2 m.id
    (fun o => { o with lastRepro := some s.tick, bondedTo := none })
  ({ s2 with digits := digits3 }, c.2)

/-- The `for (const f of state.digits)` loop of `reproduce()`.  JS array
iteration reads the live array, so digits appended during the loop are
visited too (they are newborns with `gestationTimer = 0` and are skipped
by the guard).  `fuel` bounds the iteration count; every step advances the
index by one and appends at most one digit, and only elements whose timer
was positive can append, so `2 * length + 1` fuel always reaches the end
of the array. -/
def reproduceLoop (cfg : Config) (r : Rand) :
    ℕ → ℕ → SimState → ℕ → SimState × ℕ
  | 0, _, s, k => (s, k)
  | fuel + 1, i, s, k =>
    match s.digits.get? i with
    | none => (s, k)
    | some f =>
      if f.sex = Sex.F ∧ f.gestationTimer > 0 then
        let f1 := { f with gestationTimer := f.gestationTimer - 1 }
        let s1 := { s with digits := s.digits.set i f1 }
        if f1.gestationTimer = 0 ∧ f1.bondedTo ≠ none then
          match f1.bondedTo.bind (findById s1.digits) with
          | some m =>
            let b := birthStep cfg r k s1 f1 m
            reproduceLoop cfg r fuel (i + 1) b.1 b.2
          | none =>
            -- A dangling mate reference cannot reach this point: killDigit
            -- and the validation pass clear dead bondedTo references, and
            -- reproduce itself removes no digit.
            reproduceLoop cfg r fuel (i + 1) s1 k
        else reproduceLoop cfg r fuel (i + 1) s1 k
      else reproduceLoop cfg r fuel (i + 1) s k

/-- `reproduce()`: no-op at or above the population cap, otherwise run the
gestation/birth loop over the live array. -/
def reproduce (cfg : Config) (r : Rand) (s : SimState) (k : ℕ) : SimState × ℕ :=
  if s.digits.length ≥ cfg.POP_CAP then (s, k)
  else reproduceLoop cfg r (2 * s.digits.length + 1) 0 s k

-- ============================================================
-- model/attractor.js : applyAttractor
-- ============================================================

/-- `applyAttractor(digit)` (`attractor.js`).  `att` is the external
pointer input: `some (ax, ay)` when the attractor is active.  Returns the
updated digit and random cursor (two jitter draws, plus one angle draw in
the final zero-velocity safety branch). -/
def applyAttractor (cfg : Config) (att : Option (ℝ × ℝ)) (r : Rand) (k : ℕ)
    (digit : Digit) : Digit × ℕ :=
  if ¬cfg.enableAttractor then (digit, k)
  else
    match att with
    | none => (digit, k)
    | some (ax, ay) =>
      let dx := ax - digit.x
      let dy := ay - digit.y
      let dist := Real.sqrt (dx ^ 2 + dy ^ 2)
      if dist < 0.1 then (digit, k)
      else if cfg.attractorRadius > 0 ∧ dist > cfg.attractorRadius then (digit, k)
      else
        let effectiveRadius := if cfg.attractorRadius > 0 then cfg.attractorRadius else 1000
        let normalizedDist := dist / effectiveRadius
        let distanceFactor := 1 - normalizedDist * normalizedDist
        let spring := if cfg.attractorStrength = 0 then 0.09 else cfg.attractorStrength
        let originalDx := digit.dx
        let originalDy := digit.dy
        let originalSpeed := Real.sqrt (originalDx ^ 2 + originalDy ^ 2)
        let dx1 := (originalDx + dx * spring * distanceFactor + (r k - 0.5) * 0.01) * 0.96
        let dy1 := (originalDy + dy * spring * distanceFactor + (r (k + 1) - 0.5) * 0.01) * 0.96
        let currentSpeed := Real.sqrt (dx1 ^ 2 + dy1 ^ 2)
        let minSpeed := cfg.speed * 0.1
        let dx2 := if currentSpeed < minSpeed ∧ originalSpeed > 0 then dx1 + originalDx * 0.3 else dx1
        let dy2 := if currentSpeed < minSpeed ∧ originalSpeed > 0 then dy1 + originalDy * 0.3 else dy1
        let maxSpeed := cfg.speed * 1.5
        let finalSpeed := Real.sqrt (dx2 ^ 2 + dy2 ^ 2)
        let dx3 := if finalSpeed > maxSpeed then dx2 / finalSpeed * maxSpeed else dx2
        let dy3 := if finalSpeed > maxSpeed then dy2 / finalSpeed * maxSpeed else dy2
        if |dx3| < 0.01 ∧ |dy3| < 0.01 then
          let angle := r (k + 2) * (2 * Real.pi)
          ({ digit with dx := Real.cos angle * minSpeed, dy := Real.sin angle * minSpeed }, k + 3)
        else ({ digit with dx := dx3, dy := dy3 }, k + 2)

-- ============================================================
-- main_DOM.js : digit lifecycle (aging, attractor, death)
-- ============================================================

/-- `updateDigitLifecycle(digit, frameIncrement)` applied to the snapshot
element with the given id: age the digit, apply the attractor force if
enabled, and kill it when its age exceeds its own `maxAge`.  The id lookup
models the JS object reference into the live array (a snapshot element can
only have left the array by its own earlier kill, which never happens —
each element is processed once). -/
def updateDigitLifecycle (cfg : Config) (att : Option (ℝ × ℝ)) (r : Rand)
    (inc : ℝ) (acc : SimState × ℕ) (i : ℕ) : SimState × ℕ :=
  let s := acc.1
  match findById s.digits i with
  | none => acc
  | some d =>
    let d1 := { d with age := d.age + inc }
    let a := if cfg.enableAttractor then applyAttractor cfg att r acc.2 d1 else (d1, acc.2)
    let s1 := { s with digits := updateById s.digits i (fun _ => a.1) }
    if a.1.age > a.1.maxAge then (killDigit s1 a.1, a.2) else (s1, a.2)

/-- The aging/attractor/death loop of `updateAllDigitsLifecycle`: iterate
over a snapshot (`[...state.digits]`, modelled by the id list) so removals
are safe during iteration. -/
def lifecyclePass (cfg : Config) (att : Option (ℝ × ℝ)) (r : Rand) (inc : ℝ)
    (s : SimState) (k : ℕ) : SimState × ℕ :=
  (s.digits.map (fun d => d.id)).foldl (updateDigitLifecycle cfg att r inc) (s, k)

-- ============================================================
-- main_DOM.js : initial seeding and reset
-- ============================================================

/-- `createInitialDigit(name, sex, x, y)`: create a digit (default
`speedFactor = 1`), then overwrite its velocity with a random direction at
`max(CONFIG.speed, 0.5)`.  The `followTimer` field it also sets is never
read anywhere and is omitted from the model. -/
def createInitialDigit (cfg : Config) (r : Rand) (k : ℕ) (s : SimState) (name : ℕ)
    (sex : Sex) (x y : ℝ) : SimState × ℕ :=
  let c := createDigit cfg r k s name sex x y 1 none none
  let angle := r c.2 * (2 * Real.pi)
  let speed := max cfg.speed 0.5
  let ds := updateById c.1.digits s.nextId
    (fun d => { d with dx := Real.cos angle * speed, dy := Real.sin angle * speed })
  ({ c.1 with digits := ds }, c.2 + 1)

/-- `resetSimulation()` (main_DOM variant): clear the live array and seed
a fresh male/female pair named "1" placed `INITIAL_SETUP.spacing = 30`
either side of the viewport centre.  Reset counters and timestamps touch
only statistics state. -/
def resetSimulation (cfg : Config) (r : Rand) (s : SimState) (k : ℕ) : SimState × ℕ :=
  let s0 := { s with digits := [] }
  let cx := cfg.innerWidth / 2
  let cy := cfg.innerHeight / 2
  let a := createInitialDigit cfg r k s0 1 Sex.M (cx - 30) cy
  createInitialDigit cfg r a.2 a.1 1 Sex.F (cx + 30) cy

-- ============================================================
-- movement.js : updateAllDigits (validate, move, collide, integrate)
-- ============================================================

/-- The per-digit movement loop of `updateAllDigits`: iterate the live
array in place, so bonds formed by earlier males are visible to later
digits. -/
def movementPass (cfg : Config) (r : Rand) (digits : List Digit) (k : ℕ) :
    List Digit × ℕ :=
  (List.range digits.length).foldl
    (fun acc i =>
      match acc.1.get? i with
      | some d =>
        let u := updateDigitPosition cfg r acc.2 acc.1 d
        (u.2.1.set i u.1, u.2.2.1)
      | none => acc)
    (digits, k)

/-- The collision options `updateAllDigits` passes in the production
loop. -/
def productionCollideOpts : CollideOpts :=
  { bounceFactor := 0.9, minSeparation := 2, maxIterations := 3, applyVelocity := true }

/-- `updateAllDigits()`: validate relational references, run every digit's
movement behaviour, resolve collisions, then integrate positions and
bounce off the walls. -/
def updateAllDigits (cfg : Config) (r : Rand) (s : SimState) (k : ℕ) :
    SimState × ℕ :=
  let v := s.digits.map (validateBonds s.digits)
  let mp := movementPass cfg r v k
  let c := resolveDigitCollisions cfg productionCollideOpts mp.1
  ({ s with digits := c.map (fun d => bounceOffWalls cfg (updatePosition d)) }, mp.2)

-- ============================================================
-- main_DOM.js : tickSimulation
-- ============================================================

/-- One full simulation tick (`tickSimulation`, un-paused path): bump the
tick counter, run the lifecycle pass (aging, attractor, death), run
reproduction, reseed when the population died out, then run the movement
pass with collision resolution and wall-bounce integration.  `inc` is the
frame increment (wall-clock delta × FPS) and `att` the external attractor
input for this frame; statistics/rendering consumers are outside the
model. -/
def tickSim (cfg : Config) (att : Option (ℝ × ℝ)) (r : Rand) (inc : ℝ)
    (s : SimState) : SimState :=
  let s0 : SimState := { s with tick := s.tick + 1 }
  let lp := lifecyclePass cfg att r inc s0 0
  let rp := reproduce cfg r lp.1 lp.2
  let rs := if rp.1.digits.length = 0 then resetSimulation cfg r rp.1 rp.2 else rp
  (updateAllDigits cfg r rs.1 rs.2).1

/-- The simulation states observable between completed ticks: the seeded
initial state and everything `tickSim` can produce from it, for any frame
increments, random streams and attractor inputs. -/
inductive Reachable (cfg : Config) : SimState → Prop where
  | init (r : Rand) (hr : ValidRand r) :
      Reachable cfg (resetSimulation cfg r ⟨[], 0, 0⟩ 0).1
  | tick (s : SimState) (att : Option (ℝ × ℝ)) (r : Rand) (hr : ValidRand r)
      (inc : ℝ) (hinc : 0 < inc) (hs : Reachable cfg s) :
      Reachable cfg (tickSim cfg att r inc s)

-- ============================================================
-- Execution trace of one tick (instrumentation for the ordering claim)
-- ============================================================

/-- One observable stage event during a tick; per-entity stages carry the
id of the entity being processed. -/
inductive Ev where
  | aging : ℕ → Ev
  | attractorForce : ℕ → Ev
  | deathCheck : ℕ → Ev
  | reproduction : Ev
  | movement : ℕ → Ev
  | collision : Ev
  | integration : ℕ → Ev
deriving DecidableEq, Repr

/-- The position of an event's stage in the claimed seven-stage order. -/
def stageNo : Ev → ℕ
  | Ev.aging _ => 1
  | Ev.attractorForce _ => 2
  | Ev.deathCheck _ => 3
  | Ev.reproduction => 4
  | Ev.movement _ => 5
  | Ev.collision => 6
  | Ev.integration _ => 7

/-- The events the lifecycle loop emits: for each snapshot entity in
order, an age increment, an attractor application (when enabled), and a
death check. -/
def lifecycleEvents (cfg : Config) (ids : List ℕ) : List Ev :=
  ids.foldr
    (fun i evs =>
      [Ev.aging i] ++ (if cfg.enableAttractor then [Ev.attractorForce i] else [])
        ++ [Ev.deathCheck i] ++ evs)
    []

/-- The event trace of one `tickSim`, derived from the same stage
functions on the same intermediate states: the per-snapshot-entity
lifecycle events, the reproduction stage, one movement dispatch per live
digit, the collision-resolution stage, and one position-integration step
per digit.  (The reseed-on-extinction step is not one of the seven staged
operations and emits no event.) -/
def tickTrace (cfg : Config) (att : Option (ℝ × ℝ)) (r : Rand) (inc : ℝ)
    (s : SimState) : List Ev :=
  let s0 : SimState := { s with tick := s.tick + 1 }
  let lp := lifecyclePass cfg att r inc s0 0
  let rp := reproduce cfg r lp.1 lp.2
  let rs := if rp.1.digits.length = 0 then resetSimulation cfg r rp.1 rp.2 else rp
  let v := rs.1.digits.map (validateBonds rs.1.digits)
  let mp := movementPass cfg r v rs.2
  let c := resolveDigitCollisions cfg productionCollideOpts mp.1
  lifecycleEvents cfg (s0.digits.map (fun d => d.id)) ++ [Ev.reproduction]
    ++ (List.range v.length).map Ev.movement ++ [Ev.collision]
    ++ (List.range c.length).map Ev.integration

-- ============================================================
-- Concrete sample data for witnesses and counterexamples
-- ============================================================

/-- A concrete configuration of the kind the config module produces
(age thresholds in frames at 60 FPS, attractor switched off as the UI
allows). -/
def cfgA : Config :=
  { speed := 5
    maxAge := 100
    maxAgeVariation := 0.2
    adolescenceAge := 20
    matureAge := 30
    oldAge := 80
    attractionRadius := 300
    mateDistance := 100
    gestation := 5
    POP_CAP := 60
    digitSize := 30
    newbornOffset := 2
    newbornSpeedFactor := 1
    bondedOffset := 25
    springK := 0.3
    springDamping := 0.2
    bondedJitter := 0.2
    jitterYoung := 0.2
    jitterOld := 0.2
    directionJitter := 0.2
    velocityJitter := 0.6
    enableAttractor := false
    attractorRadius := 250
    attractorStrength := 0.1
    innerWidth := 1000
    innerHeight := 1000 }

/-- A baseline digit value for building concrete states. -/
def mkDigit (i : ℕ) : Digit :=
  { id := i
    name := 1
    sex := Sex.M
    x := 0
    y := 0
    dx := 0
    dy := 0
    age := 0
    maxAge := 100
    lastRepro := none
    bondedTo := none
    gestationTimer := 0
    mother := none
    father := none
    children := []
    attractionTarget := none
    orbitAngle := none
    target := none
    scale := none }

/-- The constant-zero random stream (a valid `Math.random()` run). -/
def randZero : Rand := fun _ => 0

/-- A parent digit as the birth block of `reproduce()` leaves it: the
newborn id appended to `children`, the bond cleared, and the
last-reproduced marker set to the current tick. -/
def parentAfterBirth (p : Digit) (childId tk : ℕ) : Digit :=
  { p with children := p.children ++ [childId], lastRepro := some tk, bondedTo := none }

/-- `b` agrees with `a` on every field except velocity and the
movement-internal scratch fields (`dx`, `dy`, `orbitAngle`, `target`,
`attractionTarget`): the footprint of the non-bonding movement
behaviours. -/
def PresEq (a b : Digit) : Prop :=
  b.id = a.id ∧ b.name = a.name ∧ b.sex = a.sex ∧ b.x = a.x ∧ b.y = a.y ∧
    b.age = a.age ∧ b.maxAge = a.maxAge ∧ b.lastRepro = a.lastRepro ∧
    b.bondedTo = a.bondedTo ∧ b.gestationTimer = a.gestationTimer ∧
    b.mother = a.mother ∧ b.father = a.father ∧ b.children = a.children ∧
    b.scale = a.scale

/-- The invariant that holds from the moment female `fid` has given birth
to newborn `nid` (fathered by `mid`) inside one `reproduce()` call, and is
preserved by the rest of the loop: parents unbonded with updated
last-reproduced markers, the newborn carrying the claimed name and spawn
position, no other new digit mothered by `fid`, and nobody bonded to any
of the three. -/
def postBirthInv (origNext fid mid tk nid nm : ℕ) (midX midY off : ℝ)
    (st : SimState) : Prop :=
  (st.digits.map Digit.id).Nodup ∧
  (∀ d ∈ st.digits, d.id < st.nextId) ∧
  nid < st.nextId ∧
  (∃ e ∈ st.digits, e.id = fid ∧ e.sex = Sex.F ∧ e.bondedTo = none ∧
    e.lastRepro = some tk ∧ e.gestationTimer = 0) ∧
  (∃ e ∈ st.digits, e.id = mid ∧ e.sex = Sex.M ∧ e.bondedTo = none ∧
    e.lastRepro = some tk) ∧
  (∃ c ∈ st.digits, c.id = nid ∧ c.mother = some fid ∧ c.father = some mid ∧
    c.name = nm ∧ c.bondedTo = none ∧ c.gestationTimer = 0 ∧
    |c.x - midX| ≤ off ∧ |c.y - midY| ≤ off) ∧
  (∀ c ∈ st.digits, c.mother = some fid → origNext ≤ c.id → c.id = nid) ∧
  (∀ g ∈ st.digits, g.bondedTo ≠ some fid ∧ g.bondedTo ≠ some mid ∧ g.bondedTo ≠ some nid)

/-- A digit that carries every kind of relational reference to id 0. -/
def refsToZero : Digit :=
  { mkDigit 1 with bondedTo := some 0, mother := some 0, father := some 0, children := [0] }

/-- `refsToZero` after `killDigit` severed the references the source
clears: `bondedTo`, `mother` and the `children` entry — but not
`father`. -/
def refsToZeroCleared : Digit :=
  { mkDigit 1 with bondedTo := none, mother := none, father := some 0, children := [] }

/-- A two-digit state: digit 0, and digit 1 referencing digit 0 through
every relational field. -/
def stateRefs : SimState :=
  { digits := [mkDigit 0, refsToZero], tick := 0, nextId := 2 }

/-- A gestating female (named 7), one frame from giving birth, bonded to
digit 1. -/
def digitFgest : Digit :=
  { mkDigit 0 with sex := Sex.F, name := 7, gestationTimer := 1, bondedTo := some 1 }

/-- Her mate: a male named 8 at (4, 0), bonded back to digit 0. -/
def digitMmate : Digit :=
  { mkDigit 1 with name := 8, x := 4, bondedTo := some 0 }

/-- A two-digit state about to produce a birth on the next `reproduce()`
call. -/
def stateGest : SimState :=
  { digits := [digitFgest, digitMmate], tick := 3, nextId := 2 }

/-- Bond symmetry: every (id-modelled) `bondedTo` reference points at a
live digit that is bonded right back. -/
def BondSym (ds : List Digit) : Prop :=
  ∀ a ∈ ds, ∀ j, a.bondedTo = some j → ∃ b ∈ ds, b.id = j ∧ b.bondedTo = some a.id

/-- The inductive strengthening of bond symmetry: the partner is live,
bonded back, and of the opposite sex (bonds only ever form male-female,
which rules out self-bonds). -/
def BondSymX (ds : List Digit) : Prop :=
  ∀ a ∈ ds, ∀ j, a.bondedTo = some j →
    ∃ b ∈ ds, b.id = j ∧ b.bondedTo = some a.id ∧ b.sex ≠ a.sex

/-- Only females ever carry a nonzero gestation timer. -/
def GestFem (ds : List Digit) : Prop :=
  ∀ d ∈ ds, d.gestationTimer ≠ 0 → d.sex = Sex.F

/-- The well-formedness invariant carried through every stage of a tick:
distinct ids, all below the id counter `N`, strengthened bond symmetry,
and gestation only on females. -/
def WFList (N : ℕ) (ds : List Digit) : Prop :=
  (ds.map Digit.id).Nodup ∧ (∀ d ∈ ds, d.id < N) ∧ BondSymX ds ∧ GestFem ds

/-- `WFList` at the state's own id counter. -/
def WFInv (s : SimState) : Prop := WFList s.nextId s.digits

/-- `b` agrees with `a` on the four fields `WFList` observes: id, bond,
sex and gestation timer. -/
def Pres4 (a b : Digit) : Prop :=
  b.id = a.id ∧ b.bondedTo = a.bondedTo ∧ b.sex = a.sex ∧
    b.gestationTimer = a.gestationTimer

-- Concrete two-tick run for the gestation claim ---------------

/-- The constant-one-half random stream (a valid `Math.random()` run). -/
def randHalf : Rand := fun _ => 1 / 2

/-- The seeding stream: the male seed's max-age draw (index 0) and both
seeds' final heading draws (indices 4 and 9) are 0, everything else ½. -/
def randC3 : Rand := fun n => if n = 0 ∨ n = 4 ∨ n = 9 then 0 else 1 / 2

/-- The digit `createInitialDigit(name, sex, x, y)` leaves in the array
when the newborn movement update took the jitter branch: all scratch
fields untouched, the velocity overwritten with the final heading draw at
full speed. -/
def initSeed (cfg : Config) (r : Rand) (k nid name : ℕ) (sex : Sex) (x y : ℝ) :
    Digit :=
  { id := nid, name := name, sex := sex, x := x, y := y,
    dx := Real.cos (r (k + 4) * (2 * Real.pi)) * max cfg.speed 0.5,
    dy := Real.sin (r (k + 4) * (2 * Real.pi)) * max cfg.speed 0.5,
    age := 0, maxAge := cfg.maxAge + (r k * 2 - 1) * (cfg.maxAge * cfg.maxAgeVariation),
    lastRepro := none, bondedTo := none, gestationTimer := 0, mother := none,
    father := none, children := [], attractionTarget := none, orbitAngle := none,
    target := none, scale := none }

/-- The male seed of the `randC3` run: heading (1, 0), max age 80. -/
def dM0 : Digit :=
  { id := 0, name := 1, sex := Sex.M, x := 470, y := 500, dx := 5, dy := 0,
    age := 0, maxAge := 80, lastRepro := none, bondedTo := none,
    gestationTimer := 0, mother := none, father := none, children := [],
    attractionTarget := none, orbitAngle := none, target := none, scale := none }

/-- The female seed: heading (1, 0), max age 100. -/
def dF0 : Digit := { dM0 with id := 1, sex := Sex.F, x := 530, maxAge := 100 }

/-- The state `resetSimulation` seeds under `randC3`. -/
def stateSeed : SimState := { digits := [dM0, dF0], tick := 0, nextId := 2 }

/-- The intermediate state after the male seed only. -/
def stateHalf : SimState := { digits := [dM0], tick := 0, nextId := 1 }

def dM35 : Digit := { dM0 with age := 35 }

def dF35 : Digit := { dF0 with age := 35 }

/-- The female right after the tick-1 bond: gestating, bonded to the
male. -/
def dFb : Digit := { dF35 with bondedTo := some 0, gestationTimer := 5 }

/-- The male after his tick-1 seeking update: bonded, heading for his
mate at seek speed. -/
def dMmv : Digit :=
  { dM35 with
    dx := 3.5
    bondedTo := some 1
    attractionTarget := some 1
    target := some (530, 500) }

def dM1 : Digit := { dMmv with x := 473.5 }

def dF1 : Digit := { dFb with x := 535 }

/-- The state after tick 1 (frame increment 35): the pair is bonded and
the female's gestation timer is running. -/
def stateT1 : SimState := { digits := [dM1, dF1], tick := 1, nextId := 2 }

/-- The widow after the male's death in tick 2: her bond was severed by
`killDigit`, her gestation timer was not. -/
def dF85 : Digit := { dF1 with bondedTo := none, age := 85 }

def dF4 : Digit := { dF85 with gestationTimer := 4 }

def dFfin : Digit := { dF4 with x := 540 }

/-- The state after tick 2 (frame increment 50): one unbonded digit with
a nonzero gestation timer. -/
def stateT2 : SimState := { digits := [dFfin], tick := 2, nextId := 2 }

/-- A capped two-digit state whose bonded female is one frame from
giving birth. -/
def stateAtCap : SimState :=
  { digits := [{ mkDigit 0 with sex := Sex.F, gestationTimer := 1, bondedTo := some 1 },
               { mkDigit 1 with bondedTo := some 0 }]
    tick := 3
    nextId := 2 }

/-- Two concretely overlapping digits: centres (0,0) and (3,4), distance
5, well inside the combined collision radius 15 + 15 + 2. -/
def digitAt00 : Digit := { mkDigit 0 with dx := 1, dy := 2 }

def digitAt34 : Digit := { mkDigit 1 with x := 3, y := 4, dx := -1, dy := 0 }

/-- A lone mature male (age 40, between `matureAge = 30` and
`oldAge = 80` of `cfgA`), unbonded, motherless, with no female anywhere. -/
def loneMale : Digit := { mkDigit 0 with age := 40, dx := 3, dy := 0 }

-- ============================================================
-- Theorems
-- ============================================================

-- C7 helpers -------------------------------------------------

theorem crossSumLoop_of_le (n : ℕ) (h : n ≤ 9) : crossSumLoop n = n := by
  rw [crossSumLoop]
  simp only [dif_neg (by omega : ¬9 < n)]

theorem digitSum_teen (n : ℕ) (h1 : 10 ≤ n) (h2 : n ≤ 18) : digitSum n = n - 9 := by
  have hd : Nat.digits 10 n = n % 10 :: Nat.digits 10 (n / 10) :=
    Nat.digits_def' (by omega : 1 < 10) (by omega : 0 < n)
  have hq : n / 10 = 1 := by omega
  have h1d : Nat.digits 10 1 = [1] := by simp
  simp only [digitSum, hd, hq, h1d, List.sum_cons, List.sum_nil]
  omega

theorem crossSumLoop_teen (n : ℕ) (h1 : 10 ≤ n) (h2 : n ≤ 18) :
    crossSumLoop n = n - 9 := by
  rw [crossSumLoop]
  simp only [dif_pos (by omega : 9 < n), digitSum_teen n h1 h2]
  exact crossSumLoop_of_le _ (by omega)

/-- C7: for single-digit inputs, `crossSum` computes the digital root of
`a + b`: the (total, hence terminating) result is a single digit, is
congruent to `a + b` modulo 9, and is zero exactly when `a + b` is; in
particular `crossSum 7 8 = 6`, `crossSum 9 9 = 9` and `crossSum 0 0 = 0`. -/
theorem crossSum_digitalRoot (a b : ℕ) (ha : a ≤ 9) (hb : b ≤ 9) :
    crossSum a b ≤ 9 ∧ crossSum a b % 9 = (a + b) % 9 ∧
      (crossSum a b = 0 ↔ a + b = 0) ∧
      crossSum 7 8 = 6 ∧ crossSum 9 9 = 9 ∧ crossSum 0 0 = 0 := by
  have h78 : crossSum 7 8 = 6 := by
    have := crossSumLoop_teen 15 (by omega) (by omega)
    simpa [crossSum] using this
  have h99 : crossSum 9 9 = 9 := by
    have := crossSumLoop_teen 18 (by omega) (by omega)
    simpa [crossSum] using this
  have h00 : crossSum 0 0 = 0 := by
    have := crossSumLoop_of_le 0 (by omega)
    simpa [crossSum] using this
  rcases le_or_lt (a + b) 9 with h | h
  · have he : crossSum a b = a + b := crossSumLoop_of_le (a + b) h
    exact ⟨by omega, by omega, by omega, h78, h99, h00⟩
  · have he : crossSum a b = a + b - 9 := crossSumLoop_teen (a + b) (by omega) (by omega)
    exact ⟨by omega, by omega, by omega, h78, h99, h00⟩

theorem crossSum_digitalRoot_witness :
    7 ≤ 9 ∧ 8 ≤ 9 ∧
      (crossSum 7 8 ≤ 9 ∧ crossSum 7 8 % 9 = (7 + 8) % 9 ∧
        (crossSum 7 8 = 0 ↔ 7 + 8 = 0) ∧
        crossSum 7 8 = 6 ∧ crossSum 9 9 = 9 ∧ crossSum 0 0 = 0) :=
  ⟨by omega, by omega, crossSum_digitalRoot 7 8 (by omega) (by omega)⟩

-- C6 ---------------------------------------------------------

/-- C6: when the live population has reached the configured cap, one
reproduction tick is a complete no-op — the state (hence every gestation
timer) and even the random cursor are untouched, whatever the timers are. -/
theorem reproduce_at_cap_noop (cfg : Config) (r : Rand) (s : SimState) (k : ℕ)
    (h : s.digits.length ≥ cfg.POP_CAP) : reproduce cfg r s k = (s, k) := by
  simp only [reproduce, if_pos h]

theorem reproduce_at_cap_noop_witness :
    stateAtCap.digits.length ≥ ({ cfgA with POP_CAP := 2 } : Config).POP_CAP ∧
      reproduce { cfgA with POP_CAP := 2 } randZero stateAtCap 0 = (stateAtCap, 0) :=
  ⟨by simp [stateAtCap], reproduce_at_cap_noop _ randZero stateAtCap 0 (by simp [stateAtCap])⟩

-- C5 ---------------------------------------------------------

/-- C5: the claim fails on the code.  For a newborn (age 0) the renderer
scale `calculateScale` is 0.3, so the radius the claim prescribes is
`digitSize/2 · 0.3 = 4.5`, but the collision resolver computes
`(CONFIG.digitSize * (A.scale || 1)) / 2 = 15`: no digit object ever
receives a `scale` property, so the resolver always falls back to scale 1
and its radius never tracks the age-derived scale that rendering (and
`bounceOffWalls`) use. -/
theorem collisionRadius_ignores_maturity_scale :
    collisionRadius cfgA (mkDigit 0) = 15 ∧
      cfgA.digitSize / 2 * calculateScale cfgA (mkDigit 0) = 4.5 ∧
      collisionRadius cfgA (mkDigit 0) ≠
        cfgA.digitSize / 2 * calculateScale cfgA (mkDigit 0) := by
  have h1 : collisionRadius cfgA (mkDigit 0) = 15 := by
    simp [collisionRadius, cfgA, mkDigit]
    norm_num
  have h2 : cfgA.digitSize / 2 * calculateScale cfgA (mkDigit 0) = 4.5 := by
    simp [calculateScale, cfgA, mkDigit]
    norm_num
  exact ⟨h1, h2, by rw [h1, h2]; norm_num⟩

-- C10 --------------------------------------------------------

/-- C10: for an overlapping pair at strictly positive centre distance,
the hard pair-resolution step of `resolveDigitCollisions` preserves the
midpoint of the two positions and the component-wise sum of the two
velocities, for any bounce factor (and whether or not the velocity
impulse is applied). -/
theorem resolvePair_preserves_midpoint_and_momentum (cfg : Config)
    (opts : CollideOpts) (A B : Digit)
    (hover : Real.sqrt ((B.x - A.x) ^ 2 + (B.y - A.y) ^ 2) <
      collisionRadius cfg A + collisionRadius cfg B + opts.minSeparation)
    (hpos : Real.sqrt ((B.x - A.x) ^ 2 + (B.y - A.y) ^ 2) > 0) :
    ((resolvePair cfg opts A B).1.x + (resolvePair cfg opts A B).2.x) / 2 =
        (A.x + B.x) / 2 ∧
      ((resolvePair cfg opts A B).1.y + (resolvePair cfg opts A B).2.y) / 2 =
        (A.y + B.y) / 2 ∧
      (resolvePair cfg opts A B).1.dx + (resolvePair cfg opts A B).2.dx =
        A.dx + B.dx ∧
      (resolvePair cfg opts A B).1.dy + (resolvePair cfg opts A B).2.dy =
        A.dy + B.dy := by
  unfold resolvePair
  rw [if_pos ⟨hover, hpos⟩]
  by_cases hv : opts.applyVelocity
  · simp only [if_pos hv]
    refine ⟨by ring, by ring, by ring, by ring⟩
  · simp only [if_neg hv]
    refine ⟨by ring, by ring, by ring, by ring⟩

theorem sqrt_dist_digitAt34 :
    Real.sqrt ((digitAt34.x - digitAt00.x) ^ 2 + (digitAt34.y - digitAt00.y) ^ 2) = 5 := by
  have : (digitAt34.x - digitAt00.x) ^ 2 + (digitAt34.y - digitAt00.y) ^ 2 = 5 ^ 2 := by
    simp [digitAt00, digitAt34, mkDigit]
    norm_num
  rw [this, Real.sqrt_sq (by norm_num : (0:ℝ) ≤ 5)]

theorem resolvePair_preserves_witness :
    Real.sqrt ((digitAt34.x - digitAt00.x) ^ 2 + (digitAt34.y - digitAt00.y) ^ 2) <
        collisionRadius cfgA digitAt00 + collisionRadius cfgA digitAt34 +
          productionCollideOpts.minSeparation ∧
      Real.sqrt ((digitAt34.x - digitAt00.x) ^ 2 + (digitAt34.y - digitAt00.y) ^ 2) > 0 ∧
      (((resolvePair cfgA productionCollideOpts digitAt00 digitAt34).1.x +
            (resolvePair cfgA productionCollideOpts digitAt00 digitAt34).2.x) / 2 =
          (digitAt00.x + digitAt34.x) / 2 ∧
        ((resolvePair cfgA productionCollideOpts digitAt00 digitAt34).1.y +
            (resolvePair cfgA productionCollideOpts digitAt00 digitAt34).2.y) / 2 =
          (digitAt00.y + digitAt34.y) / 2 ∧
        (resolvePair cfgA productionCollideOpts digitAt00 digitAt34).1.dx +
            (resolvePair cfgA productionCollideOpts digitAt00 digitAt34).2.dx =
          digitAt00.dx + digitAt34.dx ∧
        (resolvePair cfgA productionCollideOpts digitAt00 digitAt34).1.dy +
            (resolvePair cfgA productionCollideOpts digitAt00 digitAt34).2.dy =
          digitAt00.dy + digitAt34.dy) := by
  have hlt : Real.sqrt ((digitAt34.x - digitAt00.x) ^ 2 + (digitAt34.y - digitAt00.y) ^ 2) <
      collisionRadius cfgA digitAt00 + collisionRadius cfgA digitAt34 +
        productionCollideOpts.minSeparation := by
    rw [sqrt_dist_digitAt34]
    simp [collisionRadius, cfgA, digitAt00, digitAt34, mkDigit, productionCollideOpts]
    norm_num
  have hgt : Real.sqrt ((digitAt34.x - digitAt00.x) ^ 2 + (digitAt34.y - digitAt00.y) ^ 2) > 0 := by
    rw [sqrt_dist_digitAt34]; norm_num
  exact ⟨hlt, hgt,
    resolvePair_preserves_midpoint_and_momentum cfgA productionCollideOpts digitAt00 digitAt34 hlt hgt⟩

-- C1 ---------------------------------------------------------

/-- C1 is false as stated: in the two-digit state `stateRefs`, digit 1
holds a `father` reference to digit 0, and after `killDigit` removes
digit 0 that reference still points at the removed digit — neither
`killDigit` nor `validateBonds` touches `father`. -/
theorem killDigit_father_dangles :
    ¬ (∀ B ∈ (killDigit stateRefs (mkDigit 0)).digits,
        B.bondedTo ≠ some (mkDigit 0).id ∧ B.mother ≠ some (mkDigit 0).id ∧
          B.father ≠ some (mkDigit 0).id ∧ (mkDigit 0).id ∉ B.children) := by
  intro h
  have hmem : refsToZeroCleared ∈ (killDigit stateRefs (mkDigit 0)).digits := by
    simp [killDigit, stateRefs, clearRefsTo, refsToZero, refsToZeroCleared, mkDigit,
      List.filter]
  have := (h refsToZeroCleared hmem).2.2.1
  simp [refsToZeroCleared, mkDigit] at this

/-- C1 (amended): after `killDigit(A)` no surviving digit references `A`
through `bondedTo`, `mother` or `children`, and the per-frame
`validateBonds` pass likewise leaves no dead id in those three fields —
but in both passes `father` references are left untouched and may keep
pointing at the removed entity. -/
theorem killDigit_validateBonds_sever_refs (s : SimState) (a : Digit)
    (digits : List Digit) (d : Digit) :
    (∀ B ∈ (killDigit s a).digits,
        B.bondedTo ≠ some a.id ∧ B.mother ≠ some a.id ∧ a.id ∉ B.children) ∧
      (∀ i, isAlive digits i = false →
        (validateBonds digits d).bondedTo ≠ some i ∧
          (validateBonds digits d).mother ≠ some i ∧
          i ∉ (validateBonds digits d).children) := by
  constructor
  · intro B hB
    have hB' : B ∈ (s.digits.map (clearRefsTo a.id)) := by
      have := List.mem_of_mem_filter hB
      simpa using this
    obtain ⟨o, _, rfl⟩ := List.mem_map.mp hB'
    refine ⟨?_, ?_, ?_⟩
    · simp only [clearRefsTo]
      split
      · simp
      · next hne => exact hne
    · simp only [clearRefsTo]
      split
      · simp
      · next hne => exact hne
    · simp only [clearRefsTo]
      intro hmem
      have := List.of_mem_filter hmem
      simp at this
  · intro i hi
    refine ⟨?_, ?_, ?_⟩
    · simp only [validateBonds]
      cases hb : d.bondedTo with
      | none => simp
      | some j =>
        by_cases hj : isAlive digits j
        · simp only [if_pos hj]
          intro hji
          rw [Option.some.injEq] at hji
          rw [hji] at hj
          rw [hj] at hi
          exact Bool.true_eq_false.mp hi
        · simp [if_neg hj]
    · simp only [validateBonds]
      cases hb : d.mother with
      | none => simp
      | some j =>
        by_cases hj : isAlive digits j
        · simp only [if_pos hj]
          intro hji
          rw [Option.some.injEq] at hji
          rw [hji] at hj
          rw [hj] at hi
          exact Bool.true_eq_false.mp hi
        · simp [if_neg hj]
    · simp only [validateBonds]
      intro hmem
      have := List.of_mem_filter hmem
      rw [this] at hi
      exact Bool.true_eq_false.mp hi

theorem killDigit_validateBonds_sever_refs_witness :
    refsToZeroCleared ∈ (killDigit stateRefs (mkDigit 0)).digits ∧
      (refsToZeroCleared.bondedTo ≠ some (mkDigit 0).id ∧
        refsToZeroCleared.mother ≠ some (mkDigit 0).id ∧
        (mkDigit 0).id ∉ refsToZeroCleared.children) ∧
      isAlive [] 7 = false ∧
      ((validateBonds [] refsToZero).bondedTo ≠ some 7 ∧
        (validateBonds [] refsToZero).mother ≠ some 7 ∧
        7 ∉ (validateBonds [] refsToZero).children) := by
  have hmem : refsToZeroCleared ∈ (killDigit stateRefs (mkDigit 0)).digits := by
    simp [killDigit, stateRefs, clearRefsTo, refsToZero, refsToZeroCleared, mkDigit,
      List.filter]
  refine ⟨hmem, ?_, by simp [isAlive], ?_⟩
  · exact (killDigit_validateBonds_sever_refs stateRefs (mkDigit 0) [] refsToZero).1
      refsToZeroCleared hmem
  · exact (killDigit_validateBonds_sever_refs stateRefs (mkDigit 0) [] refsToZero).2
      7 (by simp [isAlive])

-- C4 ---------------------------------------------------------

theorem findNearestFemale_loneMale :
    findNearestFemale cfgA [loneMale] loneMale = none := by
  simp [findNearestFemale, isValidMatingTarget, loneMale, mkDigit]

/-- C4 is false as stated: a mature, unbonded, motherless male for whom
no valid female target exists is still handled by the seeking branch
(`handleSeekingMaleMovement` returns `true` after clearing
`attractionTarget`), so the update does *not* fall through to the idle
jitter behaviour. -/
theorem seeking_male_no_target_not_jitter :
    ¬ (∀ (cfg : Config) (r : Rand) (k : ℕ) (digits : List Digit) (d : Digit),
        d.sex = Sex.M → cfg.matureAge ≤ d.age → d.age < cfg.oldAge →
        d.bondedTo = none → (d.mother = none ∨ d.age ≥ cfg.adolescenceAge) →
        findNearestFemale cfg digits d = none →
        (updateDigitPosition cfg r k digits d).2.2.2 = Branch.jitter) := by
  intro h
  have hb := h cfgA randZero 0 [loneMale] loneMale
    (by simp [loneMale, mkDigit])
    (by simp [loneMale, mkDigit, cfgA]; norm_num)
    (by simp [loneMale, mkDigit, cfgA]; norm_num)
    (by simp [loneMale, mkDigit])
    (Or.inl (by simp [loneMale, mkDigit]))
    findNearestFemale_loneMale
  rw [updateDigitPosition] at hb
  rw [show handleChildMovement cfgA randZero 0 [loneMale] loneMale = none by
    simp [handleChildMovement, loneMale, mkDigit]] at hb
  rw [show handleBondedMaleMovement cfgA randZero 0 [loneMale] loneMale = none by
    simp [handleBondedMaleMovement, loneMale, mkDigit]] at hb
  rw [show handleSeekingMaleMovement cfgA randZero 0 [loneMale] loneMale =
      some ({ loneMale with attractionTarget := none }, [loneMale], 0) by
    rw [handleSeekingMaleMovement]
    rw [if_neg (by simp [loneMale, mkDigit, cfgA]; norm_num)]
    rw [findNearestFemale_loneMale]] at hb
  simp at hb

/-- C4 (amended): for a mature, unbonded male outside the child-follow
case, a movement update that finds no valid female target is handled by
the *seeking* branch, not idle jitter: it sets `attractionTarget` to
null, draws no random values, leaves the digit array untouched and leaves
the velocity unchanged apart from the uniform maximum-speed clamp. -/
theorem seeking_male_no_target_keeps_velocity (cfg : Config) (r : Rand) (k : ℕ)
    (digits : List Digit) (d : Digit)
    (hsex : d.sex = Sex.M) (hmat : cfg.matureAge ≤ d.age) (hold : d.age < cfg.oldAge)
    (hunbond : d.bondedTo = none)
    (hchild : d.mother = none ∨ d.age ≥ cfg.adolescenceAge)
    (hnone : findNearestFemale cfg digits d = none) :
    updateDigitPosition cfg r k digits d =
      (constrainVelocity { d with attractionTarget := none } cfg.speed, digits, k,
        Branch.seeking) := by
  have hchildnone : handleChildMovement cfg r k digits d = none := by
    rw [handleChildMovement]
    cases hm : d.mother with
    | none => rfl
    | some mid =>
      rcases hchild with hc | hc
      · rw [hm] at hc; exact absurd hc (by simp)
      · simp only [if_pos hc]
  have hbondnone : handleBondedMaleMovement cfg r k digits d = none := by
    rw [handleBondedMaleMovement]
    rw [if_pos (Or.inr hunbond)]
  have hseek : handleSeekingMaleMovement cfg r k digits d =
      some ({ d with attractionTarget := none }, digits, k) := by
    rw [handleSeekingMaleMovement]
    rw [if_neg (by push_neg; exact ⟨hsex, hmat, hold⟩)]
    rw [hnone]
  rw [updateDigitPosition, hchildnone, hbondnone, hseek]

theorem seeking_male_no_target_keeps_velocity_witness :
    loneMale.sex = Sex.M ∧ cfgA.matureAge ≤ loneMale.age ∧ loneMale.age < cfgA.oldAge ∧
      loneMale.bondedTo = none ∧ loneMale.mother = none ∧
      findNearestFemale cfgA [loneMale] loneMale = none ∧
      updateDigitPosition cfgA randZero 0 [loneMale] loneMale =
        (constrainVelocity { loneMale with attractionTarget := none } cfgA.speed,
          [loneMale], 0, Branch.seeking) := by
  refine ⟨by simp [loneMale, mkDigit], by simp [loneMale, mkDigit, cfgA]; norm_num,
    by simp [loneMale, mkDigit, cfgA]; norm_num, by simp [loneMale, mkDigit],
    by simp [loneMale, mkDigit], findNearestFemale_loneMale, ?_⟩
  exact seeking_male_no_target_keeps_velocity cfgA randZero 0 [loneMale] loneMale
    (by simp [loneMale, mkDigit])
    (by simp [loneMale, mkDigit, cfgA]; norm_num)
    (by simp [loneMale, mkDigit, cfgA]; norm_num)
    (by simp [loneMale, mkDigit])
    (Or.inl (by simp [loneMale, mkDigit]))
    findNearestFemale_loneMale

-- List and lookup helpers ------------------------------------

theorem set_of_get?_self {α : Type _} (l : List α) (i : ℕ) (x : α)
    (h : l.get? i = some x) : l.set i x = l := by
  induction l generalizing i with
  | nil => simp at h
  | cons a t ih =>
    cases i with
    | zero =>
      simp only [List.get?_cons_zero, Option.some.injEq] at h
      simp [h]
    | succ n =>
      simp only [List.get?_cons_succ] at h
      simp [ih n h]

theorem mem_set_of_ne {α : Type _} {l : List α} {i : ℕ} {x f e : α} (he : e ∈ l)
    (hf : l.get? i = some f) (hne : e ≠ f) : e ∈ l.set i x := by
  induction l generalizing i with
  | nil => simp at he
  | cons a t ih =>
    cases i with
    | zero =>
      simp only [List.get?_cons_zero, Option.some.injEq] at hf
      rcases List.mem_cons.mp he with rfl | he'
      · exact absurd hf hne
      · simp [List.set_cons_zero, he']
    | succ n =>
      simp only [List.get?_cons_succ] at hf
      rcases List.mem_cons.mp he with rfl | he'
      · simp [List.set_cons_succ]
      · simp [List.set_cons_succ, ih he' hf]

theorem findById_mem {digits : List Digit} {i : ℕ} {m : Digit}
    (h : findById digits i = some m) : m ∈ digits ∧ m.id = i := by
  refine ⟨List.mem_of_find?_eq_some h, ?_⟩
  have := List.find?_some h
  simpa using this

theorem findById_of_nodup {digits : List Digit} (hnd : (digits.map Digit.id).Nodup)
    {d : Digit} (hd : d ∈ digits) : findById digits d.id = some d := by
  induction digits with
  | nil => simp at hd
  | cons a t ih =>
    simp only [List.map_cons, List.nodup_cons] at hnd
    rcases List.mem_cons.mp hd with rfl | hd'
    · simp [findById]
    · have hne : ¬a.id = d.id := by
        intro he
        exact hnd.1 (he ▸ List.mem_map_of_mem Digit.id hd')
      rw [findById, List.find?_cons_of_neg _ (by simpa using hne)]
      exact ih hnd.2 hd'

theorem updateById_map_id {l : List Digit} {i : ℕ} {f : Digit → Digit}
    (hf : ∀ d, (f d).id = d.id) : (updateById l i f).map Digit.id = l.map Digit.id := by
  simp only [updateById, List.map_map]
  apply List.map_congr_left
  intro d _
  by_cases h : d.id = i <;> simp [h, hf, Function.comp]

theorem updateById_length (l : List Digit) (i : ℕ) (f : Digit → Digit) :
    (updateById l i f).length = l.length := by
  simp [updateById]

theorem mem_updateById_of_ne {l : List Digit} {i : ℕ} {f : Digit → Digit} {e : Digit}
    (he : e ∈ l) (hne : e.id ≠ i) : e ∈ updateById l i f := by
  rw [updateById]
  have := List.mem_map_of_mem (fun d => if d.id = i then f d else d) he
  simp only at this
  rwa [if_neg hne] at this

theorem mem_updateById_self {l : List Digit} {i : ℕ} {f : Digit → Digit} {e : Digit}
    (he : e ∈ l) (hi : e.id = i) : f e ∈ updateById l i f := by
  rw [updateById]
  have := List.mem_map_of_mem (fun d => if d.id = i then f d else d) he
  simp only at this
  rwa [if_pos hi] at this

theorem of_mem_updateById {l : List Digit} {i : ℕ} {f : Digit → Digit} {e' : Digit}
    (h : e' ∈ updateById l i f) : ∃ e ∈ l, e' = if e.id = i then f e else e := by
  simpa [updateById, List.mem_map, eq_comm] using h

theorem get?_updateById (l : List Digit) (i : ℕ) (f : Digit → Digit) (j : ℕ) :
    (updateById l i f).get? j = (l.get? j).map (fun d => if d.id = i then f d else d) := by
  simp [updateById]

theorem eq_of_mem_of_id_nodup {l : List Digit} (hnd : (l.map Digit.id).Nodup)
    {a b : Digit} (ha : a ∈ l) (hb : b ∈ l) (hid : a.id = b.id) : a = b :=
  List.inj_on_of_nodup_map hnd ha hb hid

theorem get?_set_ne' {α : Type _} (l : List α) {i j : ℕ} (x : α) (h : i ≠ j) :
    (l.set i x).get? j = l.get? j := by
  simp [List.getElem?_set_ne h]

theorem id_ne_of_get?_of_nodup {l : List Digit} (hnd : (l.map Digit.id).Nodup)
    {i j : ℕ} {a b : Digit} (ha : l.get? i = some a) (hb : l.get? j = some b)
    (hij : i ≠ j) : a.id ≠ b.id := by
  intro hid
  have heq : a = b := eq_of_mem_of_id_nodup hnd (List.get?_mem ha) (List.get?_mem hb) hid
  subst heq
  have hia : i < l.length := (List.get?_eq_some.mp ha).1
  have hjb : j < l.length := (List.get?_eq_some.mp hb).1
  have hgi : l.get ⟨i, hia⟩ = a := by
    have := List.get?_eq_get hia
    rw [ha] at this
    exact (Option.some.injEq _ _ ▸ this).symm
  have hgj : l.get ⟨j, hjb⟩ = a := by
    have := List.get?_eq_get hjb
    rw [hb] at this
    exact (Option.some.injEq _ _ ▸ this).symm
  have hndl : l.Nodup := List.Nodup.of_map Digit.id hnd
  have := List.Nodup.get_inj_iff hndl (i := ⟨i, hia⟩) (j := ⟨j, hjb⟩)
  exact hij (congrArg Fin.val (this.mp (hgi.trans hgj.symm)))

-- PresEq plumbing --------------------------------------------

theorem presEq_refl (d : Digit) : PresEq d d := by
  simp [PresEq]

theorem presEq_trans {a b c : Digit} (h1 : PresEq a b) (h2 : PresEq b c) : PresEq a c := by
  obtain ⟨e1, e2, e3, e4, e5, e6, e7, e8, e9, e10, e11, e12, e13, e14⟩ := h1
  obtain ⟨g1, g2, g3, g4, g5, g6, g7, g8, g9, g10, g11, g12, g13, g14⟩ := h2
  exact ⟨g1.trans e1, g2.trans e2, g3.trans e3, g4.trans e4, g5.trans e5, g6.trans e6,
    g7.trans e7, g8.trans e8, g9.trans e9, g10.trans e10, g11.trans e11, g12.trans e12,
    g13.trans e13, g14.trans e14⟩

theorem presEq_applySpringPhysics (d : Digit) (a b c e f : ℝ) :
    PresEq d (applySpringPhysics d a b c e f) := by
  rw [applySpringPhysics]
  split <;> simp [PresEq]

theorem presEq_constrainVelocity (d : Digit) (m : ℝ) : PresEq d (constrainVelocity d m) := by
  rw [constrainVelocity]
  split <;> simp [PresEq]

theorem presEq_initializeOrbit (r : Rand) (k : ℕ) (d : Digit) :
    PresEq d (initializeOrbit r k d).1 := by
  rw [initializeOrbit]
  split <;> split <;> simp [PresEq]

theorem presEq_updateOrbit (cfg : Config) (r : Rand) (k : ℕ) (d : Digit)
    (cx cy a b c sm : ℝ) (j : Bool) :
    PresEq d (updateOrbit cfg r k d cx cy a b c sm j).1 := by
  unfold updateOrbit applySpringPhysics
  dsimp only
  split <;> split <;> simp [PresEq]

theorem presEq_applyJitterMovement (cfg : Config) (r : Rand) (k : ℕ) (d : Digit) :
    PresEq d (applyJitterMovement cfg r k d).1 := by
  rw [applyJitterMovement]
  simp [PresEq]

theorem presEq_handleChildMovement (cfg : Config) (r : Rand) (k : ℕ)
    (digits : List Digit) (d : Digit) {p : Digit × ℕ}
    (h : handleChildMovement cfg r k digits d = some p) : PresEq d p.1 := by
  rw [handleChildMovement] at h
  cases hm : d.mother with
  | none => rw [hm] at h; exact absurd h (by simp)
  | some mid =>
    rw [hm] at h
    dsimp only at h
    by_cases ha : d.age ≥ cfg.adolescenceAge
    · rw [if_pos ha] at h; exact absurd h (by simp)
    · rw [if_neg ha] at h
      cases hid : findById digits mid with
      | none =>
        rw [hid] at h
        simp only [Option.some.injEq] at h
        rw [← h]
        exact presEq_refl d
      | some mom =>
        rw [hid] at h
        dsimp only at h
        simp only [Option.some.injEq] at h
        rw [← h]
        exact presEq_trans (presEq_initializeOrbit r k d) (presEq_updateOrbit ..)

theorem presEq_handleBondedMaleMovement (cfg : Config) (r : Rand) (k : ℕ)
    (digits : List Digit) (d : Digit) {p : Digit × ℕ}
    (h : handleBondedMaleMovement cfg r k digits d = some p) : PresEq d p.1 := by
  rw [handleBondedMaleMovement] at h
  by_cases hg : d.sex ≠ Sex.M ∨ d.bondedTo = none
  · rw [if_pos hg] at h; exact absurd h (by simp)
  · rw [if_neg hg] at h
    cases hid : d.bondedTo.bind (findById digits) with
    | none =>
      rw [hid] at h
      simp only [Option.some.injEq] at h
      rw [← h]
      exact presEq_refl d
    | some mate =>
      rw [hid] at h
      dsimp only at h
      simp only [Option.some.injEq] at h
      rw [← h]
      exact presEq_trans (presEq_initializeOrbit r k d) (presEq_updateOrbit ..)

/-- A digit that cannot enter the seeking branch (in particular any
female, or any digit younger than `matureAge`, such as a newborn) has its
movement handled without touching the digit array, without forming bonds,
and without changing any field outside velocity/orbit scratch state. -/
theorem updateDigitPosition_nonseek (cfg : Config) (r : Rand) (k : ℕ)
    (digits : List Digit) (d : Digit)
    (h : d.sex ≠ Sex.M ∨ d.age < cfg.matureAge ∨ d.age ≥ cfg.oldAge) :
    (updateDigitPosition cfg r k digits d).2.1 = digits ∧
      PresEq d (updateDigitPosition cfg r k digits d).1 := by
  rw [updateDigitPosition]
  cases hc : handleChildMovement cfg r k digits d with
  | some p =>
    exact ⟨rfl, presEq_trans (presEq_handleChildMovement cfg r k digits d hc)
      (presEq_constrainVelocity _ _)⟩
  | none =>
    cases hb : handleBondedMaleMovement cfg r k digits d with
    | some p =>
      exact ⟨rfl, presEq_trans (presEq_handleBondedMaleMovement cfg r k digits d hb)
        (presEq_constrainVelocity _ _)⟩
    | none =>
      have hs : handleSeekingMaleMovement cfg r k digits d = none := by
        rw [handleSeekingMaleMovement]
        rw [if_pos (by tauto)]
      rw [hs]
      exact ⟨rfl, presEq_trans (presEq_applyJitterMovement cfg r k d)
        (presEq_constrainVelocity _ _)⟩

-- The effect of createDigit and of one birth on the state ----

/-- Creating a digit with both parents present: the parents' `children`
arrays receive the newborn id, and the newborn object is appended with the
given name, position, parents, no bond, zero gestation timer and age 0 —
the movement update `createDigit` runs on it only touches velocity/orbit
scratch fields (it cannot seek or bond at age 0 while `matureAge` is
positive). -/
theorem createDigit_spec (cfg : Config) (r : Rand) (k : ℕ) (s : SimState)
    (name : ℕ) (sex : Sex) (x y sf : ℝ) (fid mid : ℕ) (hmat : 0 < cfg.matureAge) :
    ∃ nb : Digit,
      (createDigit cfg r k s name sex x y sf (some fid) (some mid)).1.digits =
        updateById
          (updateById s.digits fid (fun o => { o with children := o.children ++ [s.nextId] }))
          mid (fun o => { o with children := o.children ++ [s.nextId] }) ++ [nb] ∧
      (createDigit cfg r k s name sex x y sf (some fid) (some mid)).1.nextId = s.nextId + 1 ∧
      (createDigit cfg r k s name sex x y sf (some fid) (some mid)).1.tick = s.tick ∧
      nb.id = s.nextId ∧ nb.mother = some fid ∧ nb.father = some mid ∧ nb.name = name ∧
      nb.bondedTo = none ∧ nb.gestationTimer = 0 ∧ nb.age = 0 ∧ nb.x = x ∧ nb.y = y := by
  rw [createDigit]
  dsimp only
  rw [if_neg (by simp : ¬(some fid = none)), if_neg (by simp : ¬(some fid = none))]
  set U := updateById
      (updateById s.digits fid (fun o => { o with children := o.children ++ [s.nextId] }))
      mid (fun o => { o with children := o.children ++ [s.nextId] }) with hU
  set d0 : Digit :=
    { id := s.nextId, name := name, sex := sex, x := x, y := y, dx := 0, dy := 0,
      age := 0, maxAge := cfg.maxAge + (r k * 2 - 1) * (cfg.maxAge * cfg.maxAgeVariation),
      lastRepro := none, bondedTo := none, gestationTimer := 0,
      mother := some fid, father := some mid, children := [],
      attractionTarget := none, orbitAngle := none, target := none, scale := none } with hd0
  have h := updateDigitPosition_nonseek cfg r (k + 2) U d0
    (Or.inr (Or.inl (by rw [hd0]; simpa using hmat)))
  obtain ⟨e1, e2, e3, e4, e5, e6, e7, e8, e9, e10, e11, e12, e13, e14⟩ := h.2
  refine ⟨(updateDigitPosition cfg r (k + 2) U d0).1, ?_, by simp, by simp,
    ?_, ?_, ?_, ?_, ?_, ?_, ?_, ?_, ?_⟩
  · rw [h.1]
  · rw [e1, hd0]
  · rw [e11, hd0]
  · rw [e12, hd0]
  · rw [e2, hd0]
  · rw [e9, hd0]
  · rw [e10, hd0]
  · rw [e6, hd0]
  · rw [e4, hd0]
  · rw [e5, hd0]

/-- A reusable unfolding of `birthStep` on top of `createDigit_spec`:
the digit array after a birth is the old array with the child id pushed
onto both parents' `children`, both parents' bonds cleared and
last-reproduced markers set, plus the appended newborn. -/
theorem birthStep_digits (cfg : Config) (r : Rand) (k : ℕ) (s : SimState) (f m : Digit)
    (hmat : 0 < cfg.matureAge) (hfId : f.id ≠ s.nextId) (hmId : m.id ≠ s.nextId) :
    ∃ nb : Digit,
      (birthStep cfg r k s f m).1.digits =
        updateById (updateById
          (updateById
            (updateById s.digits f.id (fun o => { o with children := o.children ++ [s.nextId] }))
            m.id (fun o => { o with children := o.children ++ [s.nextId] }))
          f.id (fun o => { o with lastRepro := some s.tick, bondedTo := none }))
          m.id (fun o => { o with lastRepro := some s.tick, bondedTo := none }) ++ [nb] ∧
      (birthStep cfg r k s f m).1.nextId = s.nextId + 1 ∧
      (birthStep cfg r k s f m).1.tick = s.tick ∧
      nb.id = s.nextId ∧ nb.mother = some f.id ∧ nb.father = some m.id ∧
      nb.name = crossSum f.name m.name ∧ nb.bondedTo = none ∧
      nb.gestationTimer = 0 ∧ nb.age = 0 ∧
      nb.x = (f.x + m.x) / 2 + (r (k + 1) - 0.5) * cfg.newbornOffset ∧
      nb.y = (f.y + m.y) / 2 + (r (k + 2) - 0.5) * cfg.newbornOffset := by
  obtain ⟨nb, hdig, hnext, htick, hid, hmo, hfa, hna, hbo, hge, hag, hx, hy⟩ :=
    createDigit_spec cfg r (k + 3) s (crossSum f.name m.name)
      (if r k < 0.5 then Sex.M else Sex.F)
      ((f.x + m.x) / 2 + (r (k + 1) - 0.5) * cfg.newbornOffset)
      ((f.y + m.y) / 2 + (r (k + 2) - 0.5) * cfg.newbornOffset)
      cfg.newbornSpeedFactor f.id m.id hmat
  rw [birthStep]
  dsimp only
  refine ⟨nb, ?_, hnext, htick, hid, hmo, hfa, hna, hbo, hge, hag, hx, hy⟩
  rw [hdig]
  rw [updateById, updateById, List.map_append, List.map_append]
  simp only [List.map_cons, List.map_nil]
  have h1 : ¬(s.nextId = f.id) := fun h => hfId h.symm
  have h2 : ¬(s.nextId = m.id) := fun h => hmId h.symm
  simp only [hid, h1, h2, if_false]
  rfl

theorem birthStep_map_id (cfg : Config) (r : Rand) (k : ℕ) (s : SimState) (f m : Digit)
    (hmat : 0 < cfg.matureAge) (hfId : f.id ≠ s.nextId) (hmId : m.id ≠ s.nextId) :
    (birthStep cfg r k s f m).1.digits.map Digit.id = s.digits.map Digit.id ++ [s.nextId] := by
  obtain ⟨nb, hdig, _, _, hid, _⟩ := birthStep_digits cfg r k s f m hmat hfId hmId
  rw [hdig, List.map_append]
  rw [updateById_map_id (by intro d; rfl), updateById_map_id (by intro d; rfl),
    updateById_map_id (by intro d; rfl), updateById_map_id (by intro d; rfl)]
  simp [hid]

theorem birthStep_newborn (cfg : Config) (r : Rand) (k : ℕ) (s : SimState) (f m : Digit)
    (hmat : 0 < cfg.matureAge) (hfId : f.id ≠ s.nextId) (hmId : m.id ≠ s.nextId)
    (hvr : ValidRand r) (hoff : 0 ≤ cfg.newbornOffset) :
    ∃ nb ∈ (birthStep cfg r k s f m).1.digits, nb.id = s.nextId ∧
      nb.mother = some f.id ∧ nb.father = some m.id ∧
      nb.name = crossSum f.name m.name ∧ nb.bondedTo = none ∧
      nb.gestationTimer = 0 ∧ nb.age = 0 ∧
      |nb.x - (f.x + m.x) / 2| ≤ cfg.newbornOffset ∧
      |nb.y - (f.y + m.y) / 2| ≤ cfg.newbornOffset := by
  obtain ⟨nb, hdig, _, _, hid, hmo, hfa, hna, hbo, hge, hag, hx, hy⟩ :=
    birthStep_digits cfg r k s f m hmat hfId hmId
  have hb1 : |(r (k + 1) - 0.5) * cfg.newbornOffset| ≤ cfg.newbornOffset := by
    rw [abs_mul, abs_of_nonneg hoff]
    have h1 := (hvr (k + 1)).1
    have h2 := (hvr (k + 1)).2
    have : |r (k + 1) - 0.5| ≤ 1 := abs_le.mpr ⟨by linarith, by linarith⟩
    nlinarith [abs_nonneg (r (k + 1) - 0.5)]
  have hb2 : |(r (k + 2) - 0.5) * cfg.newbornOffset| ≤ cfg.newbornOffset := by
    rw [abs_mul, abs_of_nonneg hoff]
    have h1 := (hvr (k + 2)).1
    have h2 := (hvr (k + 2)).2
    have : |r (k + 2) - 0.5| ≤ 1 := abs_le.mpr ⟨by linarith, by linarith⟩
    nlinarith [abs_nonneg (r (k + 2) - 0.5)]
  refine ⟨nb, ?_, hid, hmo, hfa, hna, hbo, hge, hag, ?_, ?_⟩
  · rw [hdig]
    exact List.mem_append_right _ (List.mem_singleton.mpr rfl)
  · rw [hx]
    simpa using hb1
  · rw [hy]
    simpa using hb2

theorem birthStep_mem_untouched (cfg : Config) (r : Rand) (k : ℕ) (s : SimState)
    (f m : Digit) (hmat : 0 < cfg.matureAge) (hfId : f.id ≠ s.nextId)
    (hmId : m.id ≠ s.nextId) {e : Digit} (he : e ∈ s.digits)
    (h1 : e.id ≠ f.id) (h2 : e.id ≠ m.id) :
    e ∈ (birthStep cfg r k s f m).1.digits := by
  obtain ⟨nb, hdig, _⟩ := birthStep_digits cfg r k s f m hmat hfId hmId
  rw [hdig]
  refine List.mem_append_left _ ?_
  exact mem_updateById_of_ne (mem_updateById_of_ne
    (mem_updateById_of_ne (mem_updateById_of_ne he h1) h2) h1) h2

theorem birthStep_origin (cfg : Config) (r : Rand) (k : ℕ) (s : SimState)
    (f m : Digit) (hmat : 0 < cfg.matureAge) (hfId : f.id ≠ s.nextId)
    (hmId : m.id ≠ s.nextId) {e' : Digit}
    (he' : e' ∈ (birthStep cfg r k s f m).1.digits) (hne : e'.id ≠ s.nextId) :
    ∃ e ∈ s.digits, e'.id = e.id ∧ e'.mother = e.mother ∧ e'.sex = e.sex ∧
      e'.gestationTimer = e.gestationTimer ∧
      (e'.bondedTo = e.bondedTo ∨ e'.bondedTo = none) := by
  obtain ⟨nb, hdig, _, _, hid, _⟩ := birthStep_digits cfg r k s f m hmat hfId hmId
  rw [hdig] at he'
  rcases List.mem_append.mp he' with h | h
  · obtain ⟨e2, he2, he2e⟩ := of_mem_updateById h
    obtain ⟨e3, he3, he3e⟩ := of_mem_updateById he2
    obtain ⟨e4, he4, he4e⟩ := of_mem_updateById he3
    obtain ⟨e5, he5, he5e⟩ := of_mem_updateById he4
    refine ⟨e5, he5, ?_⟩
    subst he2e he3e he4e he5e
    by_cases c1 : e5.id = f.id <;> by_cases c2 : e5.id = m.id
    · have c3 : f.id = m.id := c1 ▸ c2
      simp [c1, c2, c3]
    · have c3 : ¬(f.id = m.id) := fun h => c2 (c1.trans h)
      simp [c1, c2, c3]
    · have c3 : ¬(m.id = f.id) := fun h => c1 (c2.trans h)
      simp [c1, c2, c3]
    · simp [c1, c2]
  · rw [List.mem_singleton.mp h, hid] at hne
    exact absurd rfl hne

theorem birthStep_get? (cfg : Config) (r : Rand) (k : ℕ) (s : SimState)
    (f m : Digit) (hmat : 0 < cfg.matureAge) (hfId : f.id ≠ s.nextId)
    (hmId : m.id ≠ s.nextId) {p : ℕ} {e : Digit}
    (hp : s.digits.get? p = some e) (h1 : e.id ≠ f.id) (h2 : e.id ≠ m.id) :
    (birthStep cfg r k s f m).1.digits.get? p = some e := by
  obtain ⟨nb, hdig, _⟩ := birthStep_digits cfg r k s f m hmat hfId hmId
  rw [hdig]
  have hV : (updateById (updateById
      (updateById
        (updateById s.digits f.id (fun o => { o with children := o.children ++ [s.nextId] }))
        m.id (fun o => { o with children := o.children ++ [s.nextId] }))
      f.id (fun o => { o with lastRepro := some s.tick, bondedTo := none }))
      m.id (fun o => { o with lastRepro := some s.tick, bondedTo := none })).get? p = some e := by
    rw [get?_updateById, get?_updateById, get?_updateById, get?_updateById, hp]
    simp only [Option.map_some']
    rw [if_neg h1]
    rw [if_neg h2]
    rw [if_neg h1]
    rw [if_neg h2]
  rw [List.get?_append]
  · exact hV
  · have := List.get?_eq_some.mp hV
    exact this.1

theorem birthStep_parents (cfg : Config) (r : Rand) (k : ℕ) (s : SimState)
    (f m : Digit) (hmat : 0 < cfg.matureAge) (hfId : f.id ≠ s.nextId)
    (hmId : m.id ≠ s.nextId) (hf : f ∈ s.digits) (hm : m ∈ s.digits)
    (hfm : f.id ≠ m.id) :
    parentAfterBirth f s.nextId s.tick ∈ (birthStep cfg r k s f m).1.digits ∧
      parentAfterBirth m s.nextId s.tick ∈ (birthStep cfg r k s f m).1.digits := by
  obtain ⟨nb, hdig, _⟩ := birthStep_digits cfg r k s f m hmat hfId hmId
  rw [hdig]
  constructor
  · refine List.mem_append_left _ ?_
    have s1 := mem_updateById_self hf rfl
      (f := fun o => ({ o with children := o.children ++ [s.nextId] } : Digit))
    have s2 := mem_updateById_of_ne s1 (by simpa using hfm)
      (f := fun o => ({ o with children := o.children ++ [s.nextId] } : Digit))
    have s3 := mem_updateById_self s2 rfl
      (f := fun o => ({ o with lastRepro := some s.tick, bondedTo := none } : Digit))
    have s4 := mem_updateById_of_ne s3 (by simpa using hfm)
      (f := fun o => ({ o with lastRepro := some s.tick, bondedTo := none } : Digit))
    exact s4
  · refine List.mem_append_left _ ?_
    have s1 := mem_updateById_of_ne hm (fun h => hfm h.symm)
      (f := fun o => ({ o with children := o.children ++ [s.nextId] } : Digit))
    have s2 := mem_updateById_self s1 rfl
      (f := fun o => ({ o with children := o.children ++ [s.nextId] } : Digit))
    have s3 := mem_updateById_of_ne s2 (by simpa using fun h => hfm h.symm)
      (f := fun o => ({ o with lastRepro := some s.tick, bondedTo := none } : Digit))
    have s4 := mem_updateById_self s3 rfl
      (f := fun o => ({ o with lastRepro := some s.tick, bondedTo := none } : Digit))
    exact s4

-- Preservation of the post-birth invariant by the rest of the loop -----

theorem postBirthInv_dec (origNext fid mid tk nid nm : ℕ) (midX midY off : ℝ)
    {st : SimState} {i : ℕ} {g : Digit}
    (hJ : postBirthInv origNext fid mid tk nid nm midX midY off st)
    (hget : st.digits.get? i = some g) (hgsex : g.sex = Sex.F)
    (hgt : g.gestationTimer > 0) :
    postBirthInv origNext fid mid tk nid nm midX midY off
      { st with digits := st.digits.set i { g with gestationTimer := g.gestationTimer - 1 } } := by
  obtain ⟨hnd, hfr, hnid, hfE, hmE, hnb, huniq, hnp⟩ := hJ
  have hmemg : g ∈ st.digits := List.get?_mem hget
  have hmap : (st.digits.set i { g with gestationTimer := g.gestationTimer - 1 }).map Digit.id
      = st.digits.map Digit.id := by
    rw [List.map_set]
    exact set_of_get?_self _ i _ (by rw [List.get?_map, hget]; rfl)
  refine ⟨by rw [hmap]; exact hnd, ?_, hnid, ?_, ?_, ?_, ?_, ?_⟩
  · intro d hd
    rcases List.mem_or_eq_of_mem_set hd with hd' | rfl
    · exact hfr d hd'
    · exact hfr g hmemg
  · obtain ⟨e, he, h1, h2, h3, h4, h5⟩ := hfE
    have hne : e ≠ g := fun h => by rw [h] at h5; exact absurd (h5 ▸ hgt) (lt_irrefl 0)
    exact ⟨e, mem_set_of_ne he hget hne, h1, h2, h3, h4, h5⟩
  · obtain ⟨e, he, h1, h2, h3, h4⟩ := hmE
    have hne : e ≠ g := fun h => by rw [h, hgsex] at h2; exact Sex.noConfusion h2
    exact ⟨e, mem_set_of_ne he hget hne, h1, h2, h3, h4⟩
  · obtain ⟨c, hc, h1, h2, h3, h4, h5, h6, h7, h8⟩ := hnb
    have hne : c ≠ g := fun h => by rw [h] at h6; exact absurd (h6 ▸ hgt) (lt_irrefl 0)
    exact ⟨c, mem_set_of_ne hc hget hne, h1, h2, h3, h4, h5, h6, h7, h8⟩
  · intro c hc hmo hle
    rcases List.mem_or_eq_of_mem_set hc with hc' | rfl
    · exact huniq c hc' hmo hle
    · exact huniq g hmemg hmo hle
  · intro g' hg'
    rcases List.mem_or_eq_of_mem_set hg' with h | rfl
    · exact hnp g' h
    · exact hnp g hmemg

theorem postBirthInv_birth (cfg : Config) (r : Rand) (k : ℕ)
    (hmat : 0 < cfg.matureAge)
    (origNext fid mid tk nid nm : ℕ) (midX midY off : ℝ)
    {s' : SimState} {g m' : Digit}
    (hJ : postBirthInv origNext fid mid tk nid nm midX midY off s')
    (hgmem : g ∈ s'.digits) (hm'mem : m' ∈ s'.digits)
    (hgbond : g.bondedTo = some m'.id) :
    postBirthInv origNext fid mid tk nid nm midX midY off
      (birthStep cfg r k s' g m').1 := by
  obtain ⟨hnd, hfr, hnid, hfE, hmE, hnb, huniq, hnp⟩ := hJ
  have hgId : g.id ≠ s'.nextId := ne_of_lt (hfr g hgmem)
  have hmId : m'.id ≠ s'.nextId := ne_of_lt (hfr m' hm'mem)
  -- the processed female and her mate are none of the three protected digits
  have hgfid : g.id ≠ fid := by
    intro h
    obtain ⟨e, he, h1, h2, h3, h4, h5⟩ := hfE
    have : g = e := eq_of_mem_of_id_nodup hnd hgmem he (h.trans h1.symm)
    rw [this, h3] at hgbond
    exact Option.noConfusion hgbond
  have hgmid : g.id ≠ mid := by
    intro h
    obtain ⟨e, he, h1, h2, h3, h4⟩ := hmE
    have : g = e := eq_of_mem_of_id_nodup hnd hgmem he (h.trans h1.symm)
    rw [this, h3] at hgbond
    exact Option.noConfusion hgbond
  have hgnid : g.id ≠ nid := by
    intro h
    obtain ⟨c, hc, h1, h2, h3, h4, h5, h6, h7, h8⟩ := hnb
    have : g = c := eq_of_mem_of_id_nodup hnd hgmem hc (h.trans h1.symm)
    rw [this, h5] at hgbond
    exact Option.noConfusion hgbond
  have hm'fid : m'.id ≠ fid := fun h => (hnp g hgmem).1 (by rw [hgbond, h])
  have hm'mid : m'.id ≠ mid := fun h => (hnp g hgmem).2.1 (by rw [hgbond, h])
  have hm'nid : m'.id ≠ nid := fun h => (hnp g hgmem).2.2 (by rw [hgbond, h])
  obtain ⟨nb, hdig, hnext, htick, hid, hmo, hfa, hna, hbo, hge, hag, hx, hy⟩ :=
    birthStep_digits cfg r k s' g m' hmat hgId hmId
  have hmapid := birthStep_map_id cfg r k s' g m' hmat hgId hmId
  have hndnew : ((birthStep cfg r k s' g m').1.digits.map Digit.id).Nodup := by
    rw [hmapid]
    rw [List.nodup_append]
    refine ⟨hnd, List.nodup_singleton _, ?_⟩
    intro a ha
    simp only [List.mem_singleton]
    intro haeq
    obtain ⟨d, hd, rfl⟩ := List.mem_map.mp ha
    exact absurd (haeq ▸ hfr d hd) (lt_irrefl _)
  have hfrnew : ∀ d ∈ (birthStep cfg r k s' g m').1.digits,
      d.id < (birthStep cfg r k s' g m').1.nextId := by
    intro d hd
    have : d.id ∈ (birthStep cfg r k s' g m').1.digits.map Digit.id :=
      List.mem_map_of_mem Digit.id hd
    rw [hmapid] at this
    rw [hnext]
    rcases List.mem_append.mp this with h | h
    · obtain ⟨e, he, heq⟩ := List.mem_map.mp h
      exact lt_trans (heq ▸ hfr e he) (Nat.lt_succ_self _)
    · rw [List.mem_singleton.mp h]
      exact Nat.lt_succ_self _
  refine ⟨hndnew, hfrnew, by rw [hnext]; exact lt_trans hnid (Nat.lt_succ_self _),
    ?_, ?_, ?_, ?_, ?_⟩
  · obtain ⟨e, he, h1, h2, h3, h4, h5⟩ := hfE
    exact ⟨e, birthStep_mem_untouched cfg r k s' g m' hmat hgId hmId he
      (fun h => hgfid (h1 ▸ h).symm) (fun h => hm'fid (h1 ▸ h).symm), h1, h2, h3, h4, h5⟩
  · obtain ⟨e, he, h1, h2, h3, h4⟩ := hmE
    exact ⟨e, birthStep_mem_untouched cfg r k s' g m' hmat hgId hmId he
      (fun h => hgmid (h1 ▸ h).symm) (fun h => hm'mid (h1 ▸ h).symm), h1, h2, h3, h4⟩
  · obtain ⟨c, hc, h1, h2, h3, h4, h5, h6, h7, h8⟩ := hnb
    exact ⟨c, birthStep_mem_untouched cfg r k s' g m' hmat hgId hmId hc
      (fun h => hgnid (h1 ▸ h).symm) (fun h => hm'nid (h1 ▸ h).symm),
      h1, h2, h3, h4, h5, h6, h7, h8⟩
  · intro c hc hcmo hcle
    by_cases hcid : c.id = s'.nextId
    · have hcnb : c = nb := by
        refine eq_of_mem_of_id_nodup hndnew hc ?_ (hcid.trans hid.symm)
        rw [hdig]
        exact List.mem_append_right _ (List.mem_singleton.mpr rfl)
      rw [hcnb, hmo] at hcmo
      exact absurd (Option.some.injEq _ _ ▸ hcmo) (by simpa using fun h => hgfid h)
    · obtain ⟨e, he, h1, h2, h3, h4, h5⟩ :=
        birthStep_origin cfg r k s' g m' hmat hgId hmId hc hcid
      exact h1 ▸ huniq e he (h2 ▸ hcmo) (h1 ▸ hcle)
  · intro g' hg'
    by_cases hgid' : g'.id = s'.nextId
    · have : g' = nb := by
        refine eq_of_mem_of_id_nodup hndnew hg' ?_ (hgid'.trans hid.symm)
        rw [hdig]
        exact List.mem_append_right _ (List.mem_singleton.mpr rfl)
      rw [this, hbo]
      exact ⟨Option.noConfusion, Option.noConfusion, Option.noConfusion⟩
    · obtain ⟨e, he, h1, h2, h3, h4, h5⟩ :=
        birthStep_origin cfg r k s' g m' hmat hgId hmId hg' hgid'
      rcases h5 with h5 | h5
      · rw [h5]
        exact hnp e he
      · rw [h5]
        exact ⟨Option.noConfusion, Option.noConfusion, Option.noConfusion⟩

/-- Once the post-birth invariant holds, the remainder of the
`reproduce()` loop preserves it regardless of fuel or starting index. -/
theorem reproduceLoop_preserves_postBirth (cfg : Config) (r : Rand)
    (hmat : 0 < cfg.matureAge)
    (origNext fid mid tk nid nm : ℕ) (midX midY off : ℝ) :
    ∀ fuel i st k, postBirthInv origNext fid mid tk nid nm midX midY off st →
      postBirthInv origNext fid mid tk nid nm midX midY off
        (reproduceLoop cfg r fuel i st k).1 := by
  intro fuel
  induction fuel with
  | zero =>
    intro i st k hJ
    exact hJ
  | succ fuel ih =>
    intro i st k hJ
    rw [reproduceLoop]
    cases hget : st.digits.get? i with
    | none => exact hJ
    | some g =>
      dsimp only
      by_cases hg : g.sex = Sex.F ∧ g.gestationTimer > 0
      · rw [if_pos hg]
        have hJ1 := postBirthInv_dec origNext fid mid tk nid nm midX midY off
          hJ hget hg.1 hg.2
        by_cases hb : ({ g with gestationTimer := g.gestationTimer - 1 } : Digit).gestationTimer = 0 ∧
            ({ g with gestationTimer := g.gestationTimer - 1 } : Digit).bondedTo ≠ none
        · rw [if_pos hb]
          cases hmm : ({ g with gestationTimer := g.gestationTimer - 1 } : Digit).bondedTo.bind
              (findById { st with
                digits := st.digits.set i { g with gestationTimer := g.gestationTimer - 1 } }.digits) with
          | none => exact ih (i + 1) _ _ hJ1
          | some m' =>
            obtain ⟨j, hbo⟩ := Option.ne_none_iff_exists'.mp hb.2
            nth_rewrite 1 [hbo] at hmm
            rw [Option.some_bind] at hmm
            obtain ⟨hm'mem, hm'id⟩ := findById_mem hmm
            have hglen : i < st.digits.length := by
              by_contra hcon
              rw [List.get?_eq_none.mpr (le_of_not_lt hcon)] at hget
              exact Option.noConfusion hget
            have hg1mem : ({ g with gestationTimer := g.gestationTimer - 1 } : Digit) ∈
                st.digits.set i { g with gestationTimer := g.gestationTimer - 1 } :=
              List.get?_mem (List.get?_set_eq_of_lt _ hglen)
            have hg1bond : ({ g with gestationTimer := g.gestationTimer - 1 } : Digit).bondedTo
                = some m'.id := by
              show g.bondedTo = some m'.id
              rw [hbo, hm'id]
            exact ih (i + 1) _ _
              (postBirthInv_birth cfg r k hmat origNext fid mid tk nid nm midX midY off
                hJ1 hg1mem hm'mem hg1bond)
        · rw [if_neg hb]
          exact ih (i + 1) _ _ hJ1
      · rw [if_neg hg]
        exact ih (i + 1) st k hJ

/-- Walking the `reproduce()` loop towards a bonded female whose timer is
about to hit zero: when the loop reaches her (and the fuel suffices to get
there, which `reproduce`'s `2·length + 1` always does), she gives birth and
the post-birth invariant holds for the rest of the loop. -/
theorem reproduceLoop_births (cfg : Config) (r : Rand)
    (hmat : 0 < cfg.matureAge) (hvr : ValidRand r) (hoff : 0 ≤ cfg.newbornOffset)
    (f m : Digit) (origNext tk : ℕ)
    (hfsex : f.sex = Sex.F) (htimer : f.gestationTimer = 1)
    (hbond : f.bondedTo = some m.id) (hmsex : m.sex = Sex.M) :
    ∀ fuel pos i st k,
      i ≤ pos → pos - i < fuel →
      st.digits.get? pos = some f →
      m ∈ st.digits →
      (st.digits.map Digit.id).Nodup →
      (∀ d ∈ st.digits, d.id < st.nextId) →
      origNext ≤ st.nextId →
      st.tick = tk →
      (∀ g ∈ st.digits, g.bondedTo = some f.id → g.id = m.id) →
      (∀ g ∈ st.digits, g.bondedTo = some m.id → g.id = f.id) →
      (∀ g ∈ st.digits, ∀ j, g.bondedTo = some j → j < st.nextId) →
      (∀ c ∈ st.digits, c.mother = some f.id → c.id < origNext) →
      ∃ nid, origNext ≤ nid ∧
        postBirthInv origNext f.id m.id tk nid (crossSum f.name m.name)
          ((f.x + m.x) / 2) ((f.y + m.y) / 2) cfg.newbornOffset
          (reproduceLoop cfg r fuel i st k).1 := by
  have hfm : f ≠ m := fun h => by rw [h, hmsex] at hfsex; exact Sex.noConfusion hfsex
  intro fuel
  induction fuel with
  | zero =>
    intro pos i st k hip hreach
    exact absurd hreach (by omega)
  | succ fuel ih =>
    intro pos i st k hip hreach hgetpos hmmem hnd hfr horig htick hOnlyF hOnlyM hbLt hnoch
    have hfmem : f ∈ st.digits := List.get?_mem hgetpos
    have hfmid : f.id ≠ m.id := fun h => hfm (eq_of_mem_of_id_nodup hnd hfmem hmmem h)
    have hposlen : pos < st.digits.length := (List.get?_eq_some.mp hgetpos).1
    rw [reproduceLoop]
    rcases eq_or_lt_of_le hip with rfl | hlt
    · -- the loop has reached the female: she gives birth here
      rw [hgetpos]
      dsimp only
      rw [if_pos ⟨hfsex, by rw [htimer]; norm_num⟩]
      have hjt : ({ f with gestationTimer := f.gestationTimer - 1 } : Digit).gestationTimer = 0 ∧
          ({ f with gestationTimer := f.gestationTimer - 1 } : Digit).bondedTo ≠ none := by
        constructor
        · show f.gestationTimer - 1 = 0
          rw [htimer]; norm_num
        · show f.bondedTo ≠ none
          rw [hbond]; exact Option.noConfusion
      rw [if_pos hjt]
      set f1 : Digit := { f with gestationTimer := f.gestationTimer - 1 } with hf1
      set s1 : SimState := { st with digits := st.digits.set i f1 } with hs1
      have hmaps1 : s1.digits.map Digit.id = st.digits.map Digit.id := by
        rw [hs1]
        dsimp only
        rw [List.map_set]
        exact set_of_get?_self _ i _ (by rw [List.get?_map, hgetpos]; rfl)
      have hms1 : m ∈ s1.digits := mem_set_of_ne hmmem hgetpos (fun h => hfm h.symm)
      have hnds1 : (s1.digits.map Digit.id).Nodup := by
        rw [hmaps1]; exact hnd
      have hbind : f1.bondedTo.bind (findById s1.digits) = some m := by
        show f.bondedTo.bind _ = some m
        rw [hbond, Option.some_bind]
        exact findById_of_nodup hnds1 hms1
      rw [hbind]
      dsimp only
      -- establish the post-birth invariant at the state right after the birth
      have hf1mem : f1 ∈ s1.digits := List.get?_mem (List.get?_set_eq_of_lt _ hposlen)
      have hfId1 : f1.id ≠ s1.nextId := ne_of_lt (hfr f hfmem)
      have hmId1 : m.id ≠ s1.nextId := ne_of_lt (hfr m hmmem)
      obtain ⟨nb, hdig, hnext, htick2, hidnb, hmonb, hfanb, hnanb, hbonb, hgenb, hagnb,
        hxnb, hynb⟩ := birthStep_digits cfg r k s1 f1 m hmat hfId1 hmId1
      have hmapid := birthStep_map_id cfg r k s1 f1 m hmat hfId1 hmId1
      have hnd' : ((birthStep cfg r k s1 f1 m).1.digits.map Digit.id).Nodup := by
        rw [hmapid, hmaps1, List.nodup_append]
        refine ⟨hnd, List.nodup_singleton _, ?_⟩
        intro a ha
        simp only [List.mem_singleton]
        intro haeq
        obtain ⟨d, hd, rfl⟩ := List.mem_map.mp ha
        exact absurd (haeq ▸ hfr d hd) (lt_irrefl _)
      have hfr' : ∀ d ∈ (birthStep cfg r k s1 f1 m).1.digits,
          d.id < (birthStep cfg r k s1 f1 m).1.nextId := by
        intro d hd
        have hin : d.id ∈ (birthStep cfg r k s1 f1 m).1.digits.map Digit.id :=
          List.mem_map_of_mem Digit.id hd
        rw [hmapid, hmaps1] at hin
        rw [hnext]
        rcases List.mem_append.mp hin with h | h
        · obtain ⟨e, he, heq⟩ := List.mem_map.mp h
          exact lt_trans (heq ▸ hfr e he) (Nat.lt_succ_self _)
        · rw [List.mem_singleton.mp h]
          exact Nat.lt_succ_self _
      obtain ⟨hpf, hpm⟩ := birthStep_parents cfg r k s1 f1 m hmat hfId1 hmId1 hf1mem hms1
        (by simpa using hfmid)
      have hnbmem : nb ∈ (birthStep cfg r k s1 f1 m).1.digits := by
        rw [hdig]
        exact List.mem_append_right _ (List.mem_singleton.mpr rfl)
      have hb1 : |(r (k + 1) - 0.5) * cfg.newbornOffset| ≤ cfg.newbornOffset := by
        rw [abs_mul, abs_of_nonneg hoff]
        have h1 := (hvr (k + 1)).1
        have h2 := (hvr (k + 1)).2
        have : |r (k + 1) - 0.5| ≤ 1 := abs_le.mpr ⟨by linarith, by linarith⟩
        nlinarith [abs_nonneg (r (k + 1) - 0.5)]
      have hb2 : |(r (k + 2) - 0.5) * cfg.newbornOffset| ≤ cfg.newbornOffset := by
        rw [abs_mul, abs_of_nonneg hoff]
        have h1 := (hvr (k + 2)).1
        have h2 := (hvr (k + 2)).2
        have : |r (k + 2) - 0.5| ≤ 1 := abs_le.mpr ⟨by linarith, by linarith⟩
        nlinarith [abs_nonneg (r (k + 2) - 0.5)]
      have hJ : postBirthInv origNext f.id m.id tk s1.nextId (crossSum f.name m.name)
          ((f.x + m.x) / 2) ((f.y + m.y) / 2) cfg.newbornOffset
          (birthStep cfg r k s1 f1 m).1 := by
        refine ⟨hnd', hfr', by rw [hnext]; exact Nat.lt_succ_self _, ?_, ?_, ?_, ?_, ?_⟩
        · exact ⟨parentAfterBirth f1 s1.nextId s1.tick, hpf, rfl, hfsex, rfl,
            by show some st.tick = some tk; rw [htick],
            by show f.gestationTimer - 1 = 0; rw [htimer]; norm_num⟩
        · exact ⟨parentAfterBirth m s1.nextId s1.tick, hpm, rfl, hmsex, rfl,
            by show some st.tick = some tk; rw [htick]⟩
        · refine ⟨nb, hnbmem, hidnb, hmonb, hfanb, hnanb, hbonb, hgenb, ?_, ?_⟩
          · rw [hxnb]
            show |(f.x + m.x) / 2 + (r (k + 1) - 0.5) * cfg.newbornOffset -
              (f.x + m.x) / 2| ≤ cfg.newbornOffset
            simpa using hb1
          · rw [hynb]
            show |(f.y + m.y) / 2 + (r (k + 2) - 0.5) * cfg.newbornOffset -
              (f.y + m.y) / 2| ≤ cfg.newbornOffset
            simpa using hb2
        · intro c hc hcmo hcle
          by_cases hcid : c.id = s1.nextId
          · rw [show s1.nextId = nb.id from hidnb.symm] at hcid
            rw [eq_of_mem_of_id_nodup hnd' hc hnbmem hcid, hidnb]
          · obtain ⟨e, he, h1, h2, h3, h4, h5⟩ :=
              birthStep_origin cfg r k s1 f1 m hmat hfId1 hmId1 hc hcid
            rcases List.mem_or_eq_of_mem_set he with he' | rfl
            · exact absurd (h1 ▸ hcle) (not_le.mpr (hnoch e he' (h2 ▸ hcmo)))
            · have : f.mother = some f.id := h2 ▸ hcmo
              have := hnoch f hfmem this
              exact absurd (h1 ▸ hcle) (not_le.mpr this)
        · intro g' hg'
          by_cases hgid' : g'.id = s1.nextId
          · rw [show s1.nextId = nb.id from hidnb.symm] at hgid'
            rw [eq_of_mem_of_id_nodup hnd' hg' hnbmem hgid', hbonb]
            exact ⟨Option.noConfusion, Option.noConfusion, Option.noConfusion⟩
          · obtain ⟨e, he, h1, h2, h3, h4, h5⟩ :=
              birthStep_origin cfg r k s1 f1 m hmat hfId1 hmId1 hg' hgid'
            rcases h5 with h5 | h5
            · rw [h5]
              rcases List.mem_or_eq_of_mem_set he with he' | rfl
              · refine ⟨?_, ?_, ?_⟩
                · intro hEq
                  have := hOnlyF e he' hEq
                  have hgm : g' = parentAfterBirth m s1.nextId s1.tick := by
                    refine eq_of_mem_of_id_nodup hnd' hg' hpm (h1.trans (this.trans ?_))
                    rfl
                  rw [hgm] at h5
                  have : (parentAfterBirth m s1.nextId s1.tick).bondedTo = none := rfl
                  rw [this] at h5
                  rw [← h5] at hEq
                  exact Option.noConfusion hEq
                · intro hEq
                  have := hOnlyM e he' hEq
                  have hgm : g' = parentAfterBirth f1 s1.nextId s1.tick := by
                    refine eq_of_mem_of_id_nodup hnd' hg' hpf (h1.trans (this.trans ?_))
                    rfl
                  rw [hgm] at h5
                  have : (parentAfterBirth f1 s1.nextId s1.tick).bondedTo = none := rfl
                  rw [this] at h5
                  rw [← h5] at hEq
                  exact Option.noConfusion hEq
                · intro hEq
                  have := hbLt e he' s1.nextId hEq
                  exact absurd this (lt_irrefl _)
              · -- e is the female herself: her surviving entry was cleared, so
                -- the left disjunct of the origin lemma is impossible here
                exfalso
                have hgid : g'.id = f.id := h1
                have hgm2 : g' = parentAfterBirth f1 s1.nextId s1.tick :=
                  eq_of_mem_of_id_nodup hnd' hg' hpf hgid
                rw [hgm2] at h5
                have h5' : (none : Option ℕ) = some m.id := by
                  rw [← hbond]
                  exact h5
                exact Option.noConfusion h5'
            · rw [h5]
              exact ⟨Option.noConfusion, Option.noConfusion, Option.noConfusion⟩
      exact ⟨s1.nextId, horig,
        reproduceLoop_preserves_postBirth cfg r hmat origNext f.id m.id tk s1.nextId
          (crossSum f.name m.name) ((f.x + m.x) / 2) ((f.y + m.y) / 2) cfg.newbornOffset
          fuel (i + 1) _ _ hJ⟩
    · -- still before the female's position: one step preserves the approach invariant
      cases hget : st.digits.get? i with
      | none =>
        have hlen : st.digits.length ≤ i := List.get?_eq_none.mp hget
        exact absurd hlen (by omega)
      | some g =>
        dsimp only
        have higne : i ≠ pos := ne_of_lt hlt
        by_cases hg : g.sex = Sex.F ∧ g.gestationTimer > 0
        · rw [if_pos hg]
          set g1 : Digit := { g with gestationTimer := g.gestationTimer - 1 } with hg1def
          set s1 : SimState := { st with digits := st.digits.set i g1 } with hs1def
          have hgmem : g ∈ st.digits := List.get?_mem hget
          have hgm : g ≠ m := fun h => by
            rw [h, hmsex] at hg
            exact Sex.noConfusion hg.1
          have hgf : g.id ≠ f.id := id_ne_of_get?_of_nodup hnd hget hgetpos higne
          have hgmid : g.id ≠ m.id := fun h =>
            hgm (eq_of_mem_of_id_nodup hnd hgmem hmmem h)
          have hmaps1 : s1.digits.map Digit.id = st.digits.map Digit.id := by
            rw [hs1def]
            dsimp only
            rw [List.map_set]
            exact set_of_get?_self _ i _ (by rw [List.get?_map, hget]; rfl)
          -- the approach invariant transfers to the decremented state
          have hq_get : s1.digits.get? pos = some f := by
            show (st.digits.set i g1).get? pos = some f
            rw [get?_set_ne' _ _ higne]
            exact hgetpos
          have hq_m : m ∈ s1.digits :=
            mem_set_of_ne hmmem hget (fun h => hgm h.symm)
          have hq_nd : (s1.digits.map Digit.id).Nodup := by
            rw [hmaps1]; exact hnd
          have hmemcases : ∀ d ∈ s1.digits, d ∈ st.digits ∨ d = g1 := fun d hd =>
            List.mem_or_eq_of_mem_set hd
          have hq_fr : ∀ d ∈ s1.digits, d.id < s1.nextId := by
            intro d hd
            rcases hmemcases d hd with hd' | rfl
            · exact hfr d hd'
            · exact hfr g hgmem
          have hq_OnlyF : ∀ g' ∈ s1.digits, g'.bondedTo = some f.id → g'.id = m.id := by
            intro g' hg' hEq
            rcases hmemcases g' hg' with h | rfl
            · exact hOnlyF g' h hEq
            · exact hOnlyF g hgmem hEq
          have hq_OnlyM : ∀ g' ∈ s1.digits, g'.bondedTo = some m.id → g'.id = f.id := by
            intro g' hg' hEq
            rcases hmemcases g' hg' with h | rfl
            · exact hOnlyM g' h hEq
            · exact hOnlyM g hgmem hEq
          have hq_bLt : ∀ g' ∈ s1.digits, ∀ j, g'.bondedTo = some j → j < s1.nextId := by
            intro g' hg' j hEq
            rcases hmemcases g' hg' with h | rfl
            · exact hbLt g' h j hEq
            · exact hbLt g hgmem j hEq
          have hq_noch : ∀ c ∈ s1.digits, c.mother = some f.id → c.id < origNext := by
            intro c hc hEq
            rcases hmemcases c hc with h | rfl
            · exact hnoch c h hEq
            · exact hnoch g hgmem hEq
          by_cases hb : g1.gestationTimer = 0 ∧ g1.bondedTo ≠ none
          · rw [if_pos hb]
            cases hmm : g1.bondedTo.bind (findById s1.digits) with
            | none =>
              exact ih pos (i + 1) s1 k (by omega) (by omega) hq_get hq_m hq_nd hq_fr horig
                htick hq_OnlyF hq_OnlyM hq_bLt hq_noch
            | some m' =>
              obtain ⟨j, hbo⟩ := Option.ne_none_iff_exists'.mp hb.2
              rw [hbo, Option.some_bind] at hmm
              obtain ⟨hm'mem, hm'id⟩ := findById_mem hmm
              have hilen : i < st.digits.length := by omega
              have hg1mem : g1 ∈ s1.digits :=
                List.get?_mem (List.get?_set_eq_of_lt _ hilen)
              have hg1bond : g1.bondedTo = some m'.id := by
                rw [hm'id]
                exact hbo
              have hm'f : m'.id ≠ f.id := fun h => by
                have := hq_OnlyF _ hg1mem (by rw [hg1bond, h])
                exact hgmid this
              have hm'm : m'.id ≠ m.id := fun h => by
                have := hq_OnlyM _ hg1mem (by rw [hg1bond, h])
                exact hgf this
              have hg1Id : g1.id ≠ s1.nextId := ne_of_lt (hfr g hgmem)
              have hm'Id : m'.id ≠ s1.nextId := ne_of_lt (hq_fr m' hm'mem)
              -- effect of the foreign birth on the approach invariant
              obtain ⟨nb, hdig, hnext, htick2, hidnb, hmonb, hfanb, hnanb, hbonb, hgenb,
                hagnb, hxnb, hynb⟩ := birthStep_digits cfg r k s1 g1 m' hmat hg1Id hm'Id
              have hmapid := birthStep_map_id cfg r k s1 g1 m' hmat hg1Id hm'Id
              have hnbmem : nb ∈ (birthStep cfg r k s1 g1 m').1.digits := by
                rw [hdig]
                exact List.mem_append_right _ (List.mem_singleton.mpr rfl)
              have hnd' : ((birthStep cfg r k s1 g1 m').1.digits.map Digit.id).Nodup := by
                rw [hmapid, hmaps1, List.nodup_append]
                refine ⟨hnd, List.nodup_singleton _, ?_⟩
                intro a ha
                simp only [List.mem_singleton]
                intro haeq
                obtain ⟨d, hd, rfl⟩ := List.mem_map.mp ha
                exact absurd (haeq ▸ hfr d hd) (lt_irrefl _)
              have hfr' : ∀ d ∈ (birthStep cfg r k s1 g1 m').1.digits,
                  d.id < (birthStep cfg r k s1 g1 m').1.nextId := by
                intro d hd
                have hin := List.mem_map_of_mem Digit.id hd
                rw [hmapid, hmaps1] at hin
                rw [hnext]
                rcases List.mem_append.mp hin with h | h
                · obtain ⟨e, he, heq⟩ := List.mem_map.mp h
                  exact lt_trans (heq ▸ hfr e he) (Nat.lt_succ_self _)
                · rw [List.mem_singleton.mp h]
                  exact Nat.lt_succ_self _
              refine ih pos (i + 1) _ _ (by omega) (by omega) ?_ ?_ hnd' hfr' ?_ ?_ ?_ ?_ ?_ ?_
              · exact birthStep_get? cfg r k s1 g1 m' hmat hg1Id hm'Id hq_get
                  (fun h => hgf h.symm) (fun h => hm'f h.symm)
              · exact birthStep_mem_untouched cfg r k s1 g1 m' hmat hg1Id hm'Id hq_m
                  (fun h => hgmid h.symm) (fun h => hm'm h.symm)
              · rw [hnext]
                exact le_trans horig (Nat.le_succ _)
              · rw [htick2]
                exact htick
              · intro g' hg' hEq
                by_cases hgid' : g'.id = s1.nextId
                · have : g' = nb := eq_of_mem_of_id_nodup hnd' hg' hnbmem (hgid'.trans hidnb.symm)
                  rw [this, hbonb] at hEq
                  exact absurd hEq Option.noConfusion
                · obtain ⟨e, he, h1, h2, h3, h4, h5⟩ :=
                    birthStep_origin cfg r k s1 g1 m' hmat hg1Id hm'Id hg' hgid'
                  rcases h5 with h5 | h5
                  · rw [h1]
                    exact hq_OnlyF e he (h5 ▸ hEq)
                  · rw [h5] at hEq
                    exact absurd hEq Option.noConfusion
              · intro g' hg' hEq
                by_cases hgid' : g'.id = s1.nextId
                · have : g' = nb := eq_of_mem_of_id_nodup hnd' hg' hnbmem (hgid'.trans hidnb.symm)
                  rw [this, hbonb] at hEq
                  exact absurd hEq Option.noConfusion
                · obtain ⟨e, he, h1, h2, h3, h4, h5⟩ :=
                    birthStep_origin cfg r k s1 g1 m' hmat hg1Id hm'Id hg' hgid'
                  rcases h5 with h5 | h5
                  · rw [h1]
                    exact hq_OnlyM e he (h5 ▸ hEq)
                  · rw [h5] at hEq
                    exact absurd hEq Option.noConfusion
              · intro g' hg' j' hEq
                rw [hnext]
                by_cases hgid' : g'.id = s1.nextId
                · have : g' = nb := eq_of_mem_of_id_nodup hnd' hg' hnbmem (hgid'.trans hidnb.symm)
                  rw [this, hbonb] at hEq
                  exact absurd hEq Option.noConfusion
                · obtain ⟨e, he, h1, h2, h3, h4, h5⟩ :=
                    birthStep_origin cfg r k s1 g1 m' hmat hg1Id hm'Id hg' hgid'
                  rcases h5 with h5 | h5
                  · exact lt_trans (hq_bLt e he j' (h5 ▸ hEq)) (Nat.lt_succ_self _)
                  · rw [h5] at hEq
                    exact absurd hEq Option.noConfusion
              · intro c hc hEq
                by_cases hcid : c.id = s1.nextId
                · have hcnb : c = nb := eq_of_mem_of_id_nodup hnd' hc hnbmem (hcid.trans hidnb.symm)
                  rw [hcnb, hmonb] at hEq
                  exact absurd (Option.some.inj hEq) hgf
                · obtain ⟨e, he, h1, h2, h3, h4, h5⟩ :=
                    birthStep_origin cfg r k s1 g1 m' hmat hg1Id hm'Id hc hcid
                  rw [h1]
                  exact hq_noch e he (h2 ▸ hEq)
          · rw [if_neg hb]
            exact ih pos (i + 1) s1 k (by omega) (by omega) hq_get hq_m hq_nd hq_fr horig
              htick hq_OnlyF hq_OnlyM hq_bLt hq_noch
        · rw [if_neg hg]
          exact ih pos (i + 1) st k (by omega) (by omega) hgetpos hmmem hnd hfr horig htick
            hOnlyF hOnlyM hbLt hnoch

/-- C2: one `reproduce()` call, entered below the population cap on a
well-formed state (distinct fresh ids, the pair bonded only to each
other, bond targets below the id counter, no existing child of the
female at or above the counter), takes a bonded female whose gestation
timer reaches exactly zero during the call and produces exactly one new
digit mothered by her: its name is `crossSum` of the parents' names
(the digital root of their sum), its spawn position is within the
configured newborn offset of the parents' midpoint in each axis, and in
the same step both parents' `bondedTo` become null and both their
last-reproduced markers are set to the current tick — all still true of
the state the call returns. -/
theorem reproduce_gestation_birth (cfg : Config) (r : Rand)
    (hmat : 0 < cfg.matureAge) (hvr : ValidRand r) (hoff : 0 ≤ cfg.newbornOffset)
    (st : SimState) (k pos : ℕ) (f m : Digit)
    (hcap : st.digits.length < cfg.POP_CAP)
    (hgetpos : st.digits.get? pos = some f)
    (hmmem : m ∈ st.digits)
    (hfsex : f.sex = Sex.F) (htimer : f.gestationTimer = 1)
    (hbond : f.bondedTo = some m.id) (hmsex : m.sex = Sex.M)
    (hnd : (st.digits.map Digit.id).Nodup)
    (hfr : ∀ d ∈ st.digits, d.id < st.nextId)
    (hOnlyF : ∀ g ∈ st.digits, g.bondedTo = some f.id → g.id = m.id)
    (hOnlyM : ∀ g ∈ st.digits, g.bondedTo = some m.id → g.id = f.id)
    (hbLt : ∀ g ∈ st.digits, ∀ j, g.bondedTo = some j → j < st.nextId)
    (hnoch : ∀ c ∈ st.digits, c.mother = some f.id → c.id < st.nextId) :
    ∃ nid, st.nextId ≤ nid ∧
      postBirthInv st.nextId f.id m.id st.tick nid (crossSum f.name m.name)
        ((f.x + m.x) / 2) ((f.y + m.y) / 2) cfg.newbornOffset
        (reproduce cfg r st k).1 := by
  rw [reproduce, if_neg (not_le.mpr hcap)]
  have hposlen : pos < st.digits.length := (List.get?_eq_some.mp hgetpos).1
  exact reproduceLoop_births cfg r hmat hvr hoff f m st.nextId st.tick hfsex htimer hbond
    hmsex (2 * st.digits.length + 1) pos 0 st k (Nat.zero_le _) (by omega) hgetpos hmmem
    hnd hfr (le_refl _) rfl hOnlyF hOnlyM hbLt hnoch

theorem reproduce_gestation_birth_witness :
    ∃ nid, stateGest.nextId ≤ nid ∧
      postBirthInv stateGest.nextId digitFgest.id digitMmate.id stateGest.tick nid
        (crossSum digitFgest.name digitMmate.name)
        ((digitFgest.x + digitMmate.x) / 2) ((digitFgest.y + digitMmate.y) / 2)
        cfgA.newbornOffset (reproduce cfgA randZero stateGest 0).1 :=
  reproduce_gestation_birth cfgA randZero
    (by norm_num [cfgA])
    (by intro i; constructor <;> norm_num [randZero])
    (by norm_num [cfgA])
    stateGest 0 0 digitFgest digitMmate
    (by norm_num [stateGest, cfgA])
    rfl
    (by simp [stateGest])
    rfl rfl rfl rfl
    (by simp [stateGest, digitFgest, digitMmate, mkDigit])
    (by intro d hd; fin_cases hd <;> norm_num [stateGest, digitFgest, digitMmate, mkDigit])
    (by intro g hg hb; fin_cases hg <;>
      simp_all [stateGest, digitFgest, digitMmate, mkDigit])
    (by intro g hg hb; fin_cases hg <;>
      simp_all [stateGest, digitFgest, digitMmate, mkDigit])
    (by intro g hg j hb; fin_cases hg <;>
      simp_all [stateGest, digitFgest, digitMmate, mkDigit] <;> omega)
    (by intro c hc hm; fin_cases hc <;>
      simp_all [stateGest, digitFgest, digitMmate, mkDigit])

-- C9 ---------------------------------------------------------

theorem lifecycleEvents_stage_le (cfg : Config) (ids : List ℕ) :
    ∀ e ∈ lifecycleEvents cfg ids, stageNo e ≤ 3 := by
  induction ids with
  | nil => intro e he; exact absurd he (List.not_mem_nil e)
  | cons i ids ih =>
    intro e he
    simp only [lifecycleEvents, List.foldr_cons] at he
    rcases List.mem_append.mp he with h | h
    · rcases List.mem_append.mp h with h | h
      · rcases List.mem_append.mp h with h | h
        · rw [List.mem_singleton.mp h]; exact le_of_lt (by norm_num [stageNo])
        · by_cases ha : cfg.enableAttractor
          · rw [if_pos ha] at h
            rw [List.mem_singleton.mp h]; exact le_of_lt (by norm_num [stageNo])
          · rw [if_neg ha] at h
            exact absurd h (List.not_mem_nil e)
      · rw [List.mem_singleton.mp h]; exact le_refl _
    · exact ih e h

/-- C9: the claim fails on the code.  `updateAllDigitsLifecycle` runs
aging, attractor force and the death check entity by entity, so with two
live digits the tick's event trace begins `aging 0, deathCheck 0,
aging 1, …`: the death check of entity 0 (stage 3) runs before the aging
of entity 1 (stage 1), and the trace is not ordered by stage number. -/
theorem tickTrace_not_stage_ordered :
    (tickTrace cfgA none randZero 1 stateGest).take 3
        = [Ev.aging 0, Ev.deathCheck 0, Ev.aging 1] ∧
      ¬ (tickTrace cfgA none randZero 1 stateGest).Pairwise
        (fun a b => stageNo a ≤ stageNo b) := by
  have htake : (tickTrace cfgA none randZero 1 stateGest).take 3
      = [Ev.aging 0, Ev.deathCheck 0, Ev.aging 1] := by
    show (lifecycleEvents cfgA (stateGest.digits.map (fun d => d.id)) ++ _).take 3 = _
    have hids : stateGest.digits.map (fun d => d.id) = [0, 1] := by
      simp [stateGest, digitFgest, digitMmate, mkDigit]
    rw [hids]
    have hev : lifecycleEvents cfgA [0, 1]
        = [Ev.aging 0, Ev.deathCheck 0, Ev.aging 1, Ev.deathCheck 1] := by
      simp [lifecycleEvents, cfgA]
    rw [hev]
    rfl
  refine ⟨htake, fun hsorted => ?_⟩
  have hsub : ((tickTrace cfgA none randZero 1 stateGest).take 3).Pairwise
      (fun a b => stageNo a ≤ stageNo b) :=
    hsorted.sublist (List.take_sublist 3 _)
  rw [htake] at hsub
  have := (List.pairwise_cons.mp (List.pairwise_cons.mp hsub).2).1
  have h31 : stageNo (Ev.deathCheck 0) ≤ stageNo (Ev.aging 1) :=
    this (Ev.aging 1) (List.mem_cons_self _ _)
  norm_num [stageNo] at h31

/-- C9 (amended): the seven stages are ordered only blockwise.  The whole
lifecycle pass (whose per-entity blocks interleave aging, attractor force
and death culling, each block internally in that order) precedes
reproduction, which precedes every movement dispatch, then collision
resolution, then every position-integration step; but within the
lifecycle pass a later-stage event for one entity runs before an
earlier-stage event for the next. -/
theorem tickTrace_blockwise_order (cfg : Config) (att : Option (ℝ × ℝ))
    (r : Rand) (inc : ℝ) (s : SimState) :
    ∃ L1 L2 L3 : List Ev,
      tickTrace cfg att r inc s
          = L1 ++ [Ev.reproduction] ++ L2 ++ [Ev.collision] ++ L3 ∧
        L1 = lifecycleEvents cfg (s.digits.map (fun d => d.id)) ∧
        (∀ e ∈ L1, stageNo e ≤ 3) ∧
        (∀ e ∈ L2, stageNo e = 5) ∧
        (∀ e ∈ L3, stageNo e = 7) ∧
        (∀ i, (lifecycleEvents cfg [i]).Pairwise
          (fun a b => stageNo a ≤ stageNo b)) ∧
        (∀ i ids, lifecycleEvents cfg (i :: ids)
          = lifecycleEvents cfg [i] ++ lifecycleEvents cfg ids) := by
  refine ⟨_, _, _, rfl, rfl, lifecycleEvents_stage_le cfg _, ?_, ?_, ?_, ?_⟩
  · intro e he
    obtain ⟨n, _, rfl⟩ := List.mem_map.mp he
    rfl
  · intro e he
    obtain ⟨n, _, rfl⟩ := List.mem_map.mp he
    rfl
  · intro i
    by_cases ha : cfg.enableAttractor <;>
      simp [lifecycleEvents, ha, stageNo]
  · intro i ids
    by_cases ha : cfg.enableAttractor <;>
      simp [lifecycleEvents, ha]

-- C8/C3: the well-formedness invariant and its preservation ---

theorem pres4_refl (d : Digit) : Pres4 d d := ⟨rfl, rfl, rfl, rfl⟩

theorem pres4_of_presEq {a b : Digit} (h : PresEq a b) : Pres4 a b := by
  obtain ⟨h1, h2, h3, h4, h5, h6, h7, h8, h9, h10, h11, h12, h13, h14⟩ := h
  exact ⟨h1, h9, h3, h10⟩

theorem wfList_set {N : ℕ} {ds : List Digit} {i : ℕ} {d d' : Digit}
    (hwf : WFList N ds) (hget : ds.get? i = some d)
    (hid : d'.id = d.id) (hbo : d'.bondedTo = d.bondedTo) (hsex : d'.sex = d.sex)
    (hgf : d'.gestationTimer ≠ 0 → d'.sex = Sex.F) :
    WFList N (ds.set i d') := by
  obtain ⟨hnd, hfr, hbs, hge⟩ := hwf
  have hdm : d ∈ ds := List.get?_mem hget
  have hlen : i < ds.length := (List.get?_eq_some.mp hget).1
  have hd'm : d' ∈ ds.set i d' := List.get?_mem (List.get?_set_eq_of_lt _ hlen)
  have hmap : (ds.set i d').map Digit.id = ds.map Digit.id := by
    rw [List.map_set]
    refine set_of_get?_self _ i _ ?_
    rw [List.get?_map, hget, Option.map_some', hid]
  refine ⟨by rw [hmap]; exact hnd, ?_, ?_, ?_⟩
  · intro e he
    rcases List.mem_or_eq_of_mem_set he with h | rfl
    · exact hfr e h
    · exact hid ▸ hfr d hdm
  · intro a ha j hj
    rcases List.mem_or_eq_of_mem_set ha with ha' | rfl
    · obtain ⟨b, hb, hb1, hb2, hb3⟩ := hbs a ha' j hj
      by_cases hbd : b = d
      · subst hbd
        exact ⟨d', hd'm, hid.trans hb1, hbo.trans hb2, fun h => hb3 (hsex ▸ h)⟩
      · exact ⟨b, mem_set_of_ne hb hget hbd, hb1, hb2, hb3⟩
    · have hj' : d.bondedTo = some j := hbo ▸ hj
      obtain ⟨b, hb, hb1, hb2, hb3⟩ := hbs d hdm j hj'
      by_cases hbd : b = d
      · subst hbd
        exact absurd rfl hb3
      · refine ⟨b, mem_set_of_ne hb hget hbd, hb1, ?_, ?_⟩
        · rw [hb2, hid]
        · rw [hsex]; exact hb3
  · intro e he hne
    rcases List.mem_or_eq_of_mem_set he with h | rfl
    · exact hge e h hne
    · exact hgf hne

theorem wfList_map {N : ℕ} {ds : List Digit} {f : Digit → Digit}
    (hf : ∀ d ∈ ds, Pres4 d (f d)) (hwf : WFList N ds) : WFList N (ds.map f) := by
  obtain ⟨hnd, hfr, hbs, hge⟩ := hwf
  have hmap : (ds.map f).map Digit.id = ds.map Digit.id := by
    rw [List.map_map]
    refine List.map_congr_left ?_
    intro d hd
    exact (hf d hd).1
  refine ⟨by rw [hmap]; exact hnd, ?_, ?_, ?_⟩
  · intro e he
    obtain ⟨d, hd, rfl⟩ := List.mem_map.mp he
    exact (hf d hd).1 ▸ hfr d hd
  · intro a ha j hj
    obtain ⟨d, hd, rfl⟩ := List.mem_map.mp ha
    have hj' : d.bondedTo = some j := (hf d hd).2.1 ▸ hj
    obtain ⟨b, hb, hb1, hb2, hb3⟩ := hbs d hd j hj'
    refine ⟨f b, List.mem_map_of_mem f hb, (hf b hb).1.trans hb1, ?_, ?_⟩
    · rw [(hf b hb).2.1, hb2, (hf d hd).1]
    · rw [(hf b hb).2.2.1, (hf d hd).2.2.1]
      exact hb3
  · intro e he hne
    obtain ⟨d, hd, rfl⟩ := List.mem_map.mp he
    rw [(hf d hd).2.2.1]
    exact hge d hd (fun h => hne ((hf d hd).2.2.2.trans h))

theorem wfList_updateById {N : ℕ} {ds : List Digit} {i : ℕ} {f : Digit → Digit}
    (hf : ∀ d ∈ ds, d.id = i → Pres4 d (f d)) (hwf : WFList N ds) :
    WFList N (updateById ds i f) := by
  rw [updateById]
  refine wfList_map ?_ hwf
  intro d hd
  by_cases h : d.id = i
  · simp only [if_pos h]
    exact hf d hd h
  · simp only [if_neg h]
    exact pres4_refl d

theorem wfList_append_fresh {N : ℕ} {ds : List Digit} (hwf : WFList N ds)
    {nb : Digit} (hid : nb.id = N) (hbo : nb.bondedTo = none)
    (hge : nb.gestationTimer = 0) : WFList (N + 1) (ds ++ [nb]) := by
  obtain ⟨hnd, hfr, hbs, hgf⟩ := hwf
  refine ⟨?_, ?_, ?_, ?_⟩
  · rw [List.map_append, List.nodup_append]
    refine ⟨hnd, by simp, ?_⟩
    intro a ha
    simp only [List.map_cons, List.map_nil, List.mem_singleton]
    intro haeq
    obtain ⟨d, hd, rfl⟩ := List.mem_map.mp ha
    rw [hid] at haeq
    exact absurd (haeq ▸ hfr d hd) (lt_irrefl _)
  · intro e he
    rcases List.mem_append.mp he with h | h
    · exact lt_trans (hfr e h) (Nat.lt_succ_self _)
    · rw [List.mem_singleton.mp h, hid]
      exact Nat.lt_succ_self _
  · intro a ha j hj
    rcases List.mem_append.mp ha with h | h
    · obtain ⟨b, hb, hb1, hb2, hb3⟩ := hbs a h j hj
      exact ⟨b, List.mem_append_left _ hb, hb1, hb2, hb3⟩
    · rw [List.mem_singleton.mp h, hbo] at hj
      exact absurd hj Option.noConfusion
  · intro e he hne
    rcases List.mem_append.mp he with h | h
    · exact hgf e h hne
    · rw [List.mem_singleton.mp h, hge] at hne
      exact absurd rfl hne

theorem pres4_trans {a b c : Digit} (h1 : Pres4 a b) (h2 : Pres4 b c) : Pres4 a c :=
  ⟨h2.1.trans h1.1, h2.2.1.trans h1.2.1, h2.2.2.1.trans h1.2.2.1,
    h2.2.2.2.trans h1.2.2.2⟩

theorem isAlive_of_mem {ds : List Digit} {e : Digit} (he : e ∈ ds) :
    isAlive ds e.id = true := by
  rw [isAlive, List.any_eq_true]
  exact ⟨e, he, by simp⟩

theorem clearRefsTo_bondedTo (i : ℕ) (o : Digit) :
    (clearRefsTo i o).bondedTo = if o.bondedTo = some i then none else o.bondedTo := rfl

theorem wfList_killDigit {N : ℕ} {ds : List Digit} (hwf : WFList N ds) (i : ℕ) :
    WFList N ((ds.map (clearRefsTo i)).filter (fun x => x.id ≠ i)) := by
  obtain ⟨hnd, hfr, hbs, hgf⟩ := hwf
  have hidf : ∀ o : Digit, (clearRefsTo i o).id = o.id := fun o => rfl
  have hsub : List.Sublist
      (((ds.map (clearRefsTo i)).filter (fun x => x.id ≠ i)).map Digit.id)
      (ds.map Digit.id) := by
    have h1 : List.Sublist ((ds.map (clearRefsTo i)).filter (fun x => x.id ≠ i))
        (ds.map (clearRefsTo i)) := List.filter_sublist _
    have h2 := h1.map Digit.id
    rwa [List.map_map, show Digit.id ∘ clearRefsTo i = Digit.id from rfl] at h2
  have hmemc : ∀ a, a ∈ (ds.map (clearRefsTo i)).filter (fun x => x.id ≠ i) →
      ∃ e ∈ ds, a = clearRefsTo i e ∧ a.id ≠ i := by
    intro a ha
    obtain ⟨ham, hap⟩ := List.mem_filter.mp ha
    obtain ⟨e, he, rfl⟩ := List.mem_map.mp ham
    exact ⟨e, he, rfl, by simpa using hap⟩
  refine ⟨hnd.sublist hsub, ?_, ?_, ?_⟩
  · intro a ha
    obtain ⟨e, he, rfl, _⟩ := hmemc a ha
    exact hfr e he
  · intro a ha j hj
    obtain ⟨e, he, rfl, hane⟩ := hmemc a ha
    rw [clearRefsTo_bondedTo] at hj
    by_cases hcase : e.bondedTo = some i
    · rw [if_pos hcase] at hj
      exact absurd hj Option.noConfusion
    · rw [if_neg hcase] at hj
      have hji : j ≠ i := fun h => hcase (h ▸ hj)
      obtain ⟨b, hb, hb1, hb2, hb3⟩ := hbs e he j hj
      refine ⟨clearRefsTo i b, ?_, hb1, ?_, hb3⟩
      · rw [List.mem_filter]
        refine ⟨List.mem_map_of_mem _ hb, ?_⟩
        simp only [hidf, hb1]
        simpa using hji
      · rw [clearRefsTo_bondedTo, hb2]
        rw [if_neg (by simpa using fun h => hane h)]
        rfl
  · intro e he hne
    obtain ⟨e0, he0, rfl, _⟩ := hmemc e he
    exact hgf e0 he0 hne

theorem wfInv_killDigit {s : SimState} (hwf : WFInv s) (d : Digit) :
    WFInv (killDigit s d) :=
  wfList_killDigit hwf d.id

theorem wfList_validateBonds {N : ℕ} {ds : List Digit} (hwf : WFList N ds) :
    WFList N (ds.map (validateBonds ds)) := by
  obtain ⟨hnd, hfr, hbs, hgf⟩ := hwf
  have hvb : ∀ e : Digit, (validateBonds ds e).id = e.id ∧
      (validateBonds ds e).sex = e.sex ∧
      (validateBonds ds e).gestationTimer = e.gestationTimer := fun e => ⟨rfl, rfl, rfl⟩
  have hmap : (ds.map (validateBonds ds)).map Digit.id = ds.map Digit.id := by
    rw [List.map_map]
    exact List.map_congr_left (fun e _ => (hvb e).1)
  refine ⟨by rw [hmap]; exact hnd, ?_, ?_, ?_⟩
  · intro a ha
    obtain ⟨e, he, rfl⟩ := List.mem_map.mp ha
    exact (hvb e).1 ▸ hfr e he
  · intro a ha j hj
    obtain ⟨e, he, rfl⟩ := List.mem_map.mp ha
    have hvbbo : ∀ g : Digit, (validateBonds ds g).bondedTo =
        match g.bondedTo with
        | some i => if isAlive ds i then some i else none
        | none => none := fun g => rfl
    have hj' : e.bondedTo = some j := by
      rw [hvbbo] at hj
      cases hcase : e.bondedTo with
      | none =>
        simp only [hcase] at hj
        exact absurd hj Option.noConfusion
      | some i0 =>
        simp only [hcase] at hj
        by_cases hal : isAlive ds i0
        · rw [if_pos hal] at hj
          exact hj
        · rw [if_neg hal] at hj
          exact absurd hj Option.noConfusion
    obtain ⟨b, hb, hb1, hb2, hb3⟩ := hbs e he j hj'
    refine ⟨validateBonds ds b, List.mem_map_of_mem _ hb, (hvb b).1.trans hb1, ?_, ?_⟩
    · rw [hvbbo]
      simp only [hb2]
      rw [if_pos (isAlive_of_mem he)]
      rw [(hvb e).1]
    · rw [(hvb b).2.1, (hvb e).2.1]
      exact hb3
  · intro a ha hne
    obtain ⟨e, he, rfl⟩ := List.mem_map.mp ha
    rw [(hvb e).2.1]
    exact hgf e he (fun h => hne ((hvb e).2.2.trans h))

theorem pres4_dxdy (d : Digit) (a b : ℝ) : Pres4 d { d with dx := a, dy := b } :=
  ⟨rfl, rfl, rfl, rfl⟩

theorem pres4_ite (d : Digit) (c : Prop) [Decidable c] (x y : Digit × ℕ)
    (hx : Pres4 d x.1) (hy : Pres4 d y.1) : Pres4 d (if c then x else y).1 := by
  by_cases h : c
  · rw [if_pos h]
    exact hx
  · rw [if_neg h]
    exact hy

set_option maxHeartbeats 1000000 in
theorem pres4_applyAttractor (cfg : Config) (att : Option (ℝ × ℝ)) (r : Rand)
    (k : ℕ) (digit : Digit) : Pres4 digit (applyAttractor cfg att r k digit).1 := by
  unfold applyAttractor
  split
  · exact pres4_refl digit
  · cases att with
    | none => exact pres4_refl digit
    | some p =>
      dsimp only
      split
      · exact pres4_refl digit
      · split
        · exact pres4_refl digit
        · exact pres4_ite digit _ _ _ (pres4_dxdy digit _ _) (pres4_dxdy digit _ _)

theorem wfInv_update_one {s : SimState} (hwf : WFInv s) {i : ℕ} {d : Digit}
    (hfd : findById s.digits i = some d) {d' : Digit} (hp : Pres4 d d') :
    WFInv { s with digits := updateById s.digits i (fun _ => d') } := by
  refine wfList_updateById ?_ hwf
  intro e he hei
  obtain ⟨hdm, hdi⟩ := findById_mem hfd
  have hed : e = d := eq_of_mem_of_id_nodup hwf.1 he hdm (hei.trans hdi.symm)
  rw [hed]
  exact hp

theorem wfInv_updateDigitLifecycle (cfg : Config) (att : Option (ℝ × ℝ)) (r : Rand)
    (inc : ℝ) (acc : SimState × ℕ) (i : ℕ) (hwf : WFInv acc.1) :
    WFInv (updateDigitLifecycle cfg att r inc acc i).1 := by
  rw [updateDigitLifecycle]
  cases hfd : findById acc.1.digits i with
  | none => exact hwf
  | some d =>
    dsimp only
    have hp2 : Pres4 d (if cfg.enableAttractor then
        applyAttractor cfg att r acc.2 { d with age := d.age + inc }
        else ({ d with age := d.age + inc }, acc.2)).1 := by
      split
      · exact pres4_trans ⟨rfl, rfl, rfl, rfl⟩ (pres4_applyAttractor cfg att r acc.2 _)
      · exact ⟨rfl, rfl, rfl, rfl⟩
    revert hp2
    generalize (if cfg.enableAttractor = true then
        applyAttractor cfg att r acc.2 { d with age := d.age + inc }
        else ({ d with age := d.age + inc }, acc.2)) = a
    intro hp2
    have hs1 := wfInv_update_one hwf hfd hp2
    split
    · exact wfInv_killDigit hs1 _
    · exact hs1

theorem wfInv_lifecyclePass (cfg : Config) (att : Option (ℝ × ℝ)) (r : Rand)
    (inc : ℝ) (s : SimState) (k : ℕ) (hwf : WFInv s) :
    WFInv (lifecyclePass cfg att r inc s k).1 := by
  rw [lifecyclePass]
  generalize (s.digits.map (fun d => d.id)) = ids
  suffices h : ∀ acc : SimState × ℕ, WFInv acc.1 →
      WFInv ((ids.foldl (updateDigitLifecycle cfg att r inc) acc)).1 from h (s, k) hwf
  induction ids with
  | nil =>
    intro acc h
    exact h
  | cons i ids ih =>
    intro acc h
    rw [List.foldl_cons]
    exact ih _ (wfInv_updateDigitLifecycle cfg att r inc acc i h)

theorem wfList_birthStep (cfg : Config) (r : Rand) (k : ℕ)
    (hmat : 0 < cfg.matureAge) {s : SimState} {f m : Digit}
    (hwf : WFInv s) (hf : f ∈ s.digits) (hm : m ∈ s.digits)
    (hfb : f.bondedTo = some m.id) (hmb : m.bondedTo = some f.id)
    (hsexfm : m.sex ≠ f.sex) :
    WFInv (birthStep cfg r k s f m).1 := by
  obtain ⟨hnd, hfr, hbs, hgf⟩ := hwf
  have hfm : f ≠ m := fun h => hsexfm (h ▸ rfl)
  have hfmid : f.id ≠ m.id := fun h => hfm (eq_of_mem_of_id_nodup hnd hf hm h)
  have hfId : f.id ≠ s.nextId := ne_of_lt (hfr f hf)
  have hmId : m.id ≠ s.nextId := ne_of_lt (hfr m hm)
  obtain ⟨nb, hdig, hnext, htick, hid, hmo, hfa, hna, hbo, hge, hag, hx, hy⟩ :=
    birthStep_digits cfg r k s f m hmat hfId hmId
  have hmapid := birthStep_map_id cfg r k s f m hmat hfId hmId
  have hndnew : ((birthStep cfg r k s f m).1.digits.map Digit.id).Nodup := by
    rw [hmapid, List.nodup_append]
    refine ⟨hnd, List.nodup_singleton _, ?_⟩
    intro a ha
    simp only [List.mem_singleton]
    intro haeq
    obtain ⟨d, hd, rfl⟩ := List.mem_map.mp ha
    exact absurd (haeq ▸ hfr d hd) (lt_irrefl _)
  have hnbmem : nb ∈ (birthStep cfg r k s f m).1.digits := by
    rw [hdig]
    exact List.mem_append_right _ (List.mem_singleton.mpr rfl)
  obtain ⟨hpf, hpm⟩ := birthStep_parents cfg r k s f m hmat hfId hmId hf hm hfmid
  refine ⟨hndnew, ?_, ?_, ?_⟩
  · intro d hd
    have hin := List.mem_map_of_mem Digit.id hd
    rw [hmapid] at hin
    rw [hnext]
    rcases List.mem_append.mp hin with h | h
    · obtain ⟨e, he, heq⟩ := List.mem_map.mp h
      exact lt_trans (heq ▸ hfr e he) (Nat.lt_succ_self _)
    · rw [List.mem_singleton.mp h]
      exact Nat.lt_succ_self _
  · intro a ha j hj
    by_cases haid : a.id = s.nextId
    · have hanb : a = nb := eq_of_mem_of_id_nodup hndnew ha hnbmem (haid.trans hid.symm)
      rw [hanb, hbo] at hj
      exact absurd hj Option.noConfusion
    · by_cases hafid : a.id = f.id
      · have hapf : a = parentAfterBirth f s.nextId s.tick :=
          eq_of_mem_of_id_nodup hndnew ha hpf (by rw [hafid]; rfl)
        rw [hapf] at hj
        have hj' : (none : Option ℕ) = some j := hj
        exact absurd hj' Option.noConfusion
      · by_cases hamid : a.id = m.id
        · have hapm : a = parentAfterBirth m s.nextId s.tick :=
            eq_of_mem_of_id_nodup hndnew ha hpm (by rw [hamid]; rfl)
          rw [hapm] at hj
          have hj' : (none : Option ℕ) = some j := hj
          exact absurd hj' Option.noConfusion
        · obtain ⟨e, he, h1, h2, h3, h4, h5⟩ :=
            birthStep_origin cfg r k s f m hmat hfId hmId ha haid
          rcases h5 with h5 | h5
          · have hje : e.bondedTo = some j := h5 ▸ hj
            obtain ⟨b, hb, hb1, hb2, hb3⟩ := hbs e he j hje
            have hjf : j ≠ f.id := by
              intro hEq
              have hbf : b = f := eq_of_mem_of_id_nodup hnd hb hf (hb1.trans hEq)
              rw [hbf, hfb] at hb2
              exact hamid (h1.trans (Option.some.inj hb2).symm)
            have hjm : j ≠ m.id := by
              intro hEq
              have hbm2 : b = m := eq_of_mem_of_id_nodup hnd hb hm (hb1.trans hEq)
              rw [hbm2, hmb] at hb2
              exact hafid (h1.trans (Option.some.inj hb2).symm)
            refine ⟨b, birthStep_mem_untouched cfg r k s f m hmat hfId hmId hb
              (fun h => hjf (hb1.symm.trans h)) (fun h => hjm (hb1.symm.trans h)),
              hb1, ?_, ?_⟩
            · rw [hb2, h1]
            · rw [h3]
              exact hb3
          · rw [h5] at hj
            exact absurd hj Option.noConfusion
  · intro e he hne
    by_cases heid : e.id = s.nextId
    · have henb : e = nb := eq_of_mem_of_id_nodup hndnew he hnbmem (heid.trans hid.symm)
      rw [henb, hge] at hne
      exact absurd rfl hne
    · obtain ⟨e0, he0, h1, h2, h3, h4, h5⟩ :=
        birthStep_origin cfg r k s f m hmat hfId hmId he heid
      rw [h3]
      exact hgf e0 he0 (fun h => hne (h4.trans h))

theorem wfInv_reproduceLoop (cfg : Config) (r : Rand) (hmat : 0 < cfg.matureAge) :
    ∀ fuel i s k, WFInv s → WFInv (reproduceLoop cfg r fuel i s k).1 := by
  intro fuel
  induction fuel with
  | zero =>
    intro i s k h
    exact h
  | succ fuel ih =>
    intro i s k hwf
    rw [reproduceLoop]
    cases hget : s.digits.get? i with
    | none => exact hwf
    | some g =>
      dsimp only
      by_cases hg : g.sex = Sex.F ∧ g.gestationTimer > 0
      · rw [if_pos hg]
        set g1 : Digit := { g with gestationTimer := g.gestationTimer - 1 } with hg1def
        set s1 : SimState := { s with digits := s.digits.set i g1 } with hs1def
        have hwf1 : WFInv s1 := wfList_set hwf hget rfl rfl rfl (fun _ => hg.1)
        by_cases hb : g1.gestationTimer = 0 ∧ g1.bondedTo ≠ none
        · rw [if_pos hb]
          cases hmm : g1.bondedTo.bind (findById s1.digits) with
          | none => exact ih (i + 1) s1 k hwf1
          | some m =>
            obtain ⟨j, hbo⟩ := Option.ne_none_iff_exists'.mp hb.2
            rw [hbo, Option.some_bind] at hmm
            obtain ⟨hmmem, hmid⟩ := findById_mem hmm
            have hilen : i < s.digits.length := by
              by_contra hcon
              rw [List.get?_eq_none.mpr (le_of_not_lt hcon)] at hget
              exact Option.noConfusion hget
            have hg1mem : g1 ∈ s1.digits :=
              List.get?_mem (List.get?_set_eq_of_lt _ hilen)
            have hg1bond : g1.bondedTo = some m.id := by
              rw [hmid]
              exact hbo
            obtain ⟨b, hbm, hb1, hb2, hb3⟩ := hwf1.2.2.1 g1 hg1mem m.id hg1bond
            have hbm' : b = m := eq_of_mem_of_id_nodup hwf1.1 hbm hmmem hb1
            rw [hbm'] at hb2 hb3
            exact ih (i + 1) _ _
              (wfList_birthStep cfg r k hmat hwf1 hg1mem hmmem hg1bond hb2 hb3)
        · rw [if_neg hb]
          exact ih (i + 1) s1 k hwf1
      · rw [if_neg hg]
        exact ih (i + 1) s k hwf

theorem wfInv_reproduce (cfg : Config) (r : Rand) (hmat : 0 < cfg.matureAge)
    (s : SimState) (k : ℕ) (hwf : WFInv s) : WFInv (reproduce cfg r s k).1 := by
  rw [reproduce]
  split
  · exact hwf
  · exact wfInv_reproduceLoop cfg r hmat _ 0 s k hwf

theorem createDigit_none_spec (cfg : Config) (r : Rand) (k : ℕ) (s : SimState)
    (name : ℕ) (sex : Sex) (x y sf : ℝ) (hmat : 0 < cfg.matureAge) :
    ∃ nb : Digit,
      (createDigit cfg r k s name sex x y sf none none).1.digits = s.digits ++ [nb] ∧
      (createDigit cfg r k s name sex x y sf none none).1.nextId = s.nextId + 1 ∧
      (createDigit cfg r k s name sex x y sf none none).1.tick = s.tick ∧
      nb.id = s.nextId ∧ nb.bondedTo = none ∧ nb.gestationTimer = 0 ∧ nb.sex = sex := by
  rw [createDigit]
  dsimp only
  rw [if_pos (rfl : (none : Option ℕ) = none), if_pos (rfl : (none : Option ℕ) = none)]
  set d0 : Digit :=
    { id := s.nextId, name := name, sex := sex, x := x, y := y,
      dx := Real.cos (r (k + 1) * (2 * Real.pi)) * cfg.speed * sf,
      dy := Real.sin (r (k + 1) * (2 * Real.pi)) * cfg.speed * sf,
      age := 0, maxAge := cfg.maxAge + (r k * 2 - 1) * (cfg.maxAge * cfg.maxAgeVariation),
      lastRepro := none, bondedTo := none, gestationTimer := 0,
      mother := none, father := none, children := [],
      attractionTarget := none, orbitAngle := none, target := none, scale := none } with hd0
  have h := updateDigitPosition_nonseek cfg r (k + 2) s.digits d0
    (Or.inr (Or.inl (by rw [hd0]; simpa using hmat)))
  obtain ⟨e1, e2, e3, e4, e5, e6, e7, e8, e9, e10, e11, e12, e13, e14⟩ := h.2
  refine ⟨(updateDigitPosition cfg r (k + 2) s.digits d0).1, ?_, by simp, by simp,
    ?_, ?_, ?_, ?_⟩
  · rw [h.1]
  · rw [e1, hd0]
  · rw [e9, hd0]
  · rw [e10, hd0]
  · rw [e3, hd0]

theorem wfInv_createInitialDigit (cfg : Config) (r : Rand) (k : ℕ) (s : SimState)
    (name : ℕ) (sex : Sex) (x y : ℝ) (hmat : 0 < cfg.matureAge) (hwf : WFInv s) :
    WFInv (createInitialDigit cfg r k s name sex x y).1 := by
  obtain ⟨nb, hdig, hnext, htick, hid, hbo, hge, hsex⟩ :=
    createDigit_none_spec cfg r k s name sex x y 1 hmat
  have hwf2 : WFInv (createDigit cfg r k s name sex x y 1 none none).1 := by
    show WFList (createDigit cfg r k s name sex x y 1 none none).1.nextId
      (createDigit cfg r k s name sex x y 1 none none).1.digits
    rw [hdig, hnext]
    exact wfList_append_fresh hwf hid hbo hge
  rw [createInitialDigit]
  dsimp only
  refine wfList_updateById ?_ hwf2
  intro d hd hdi
  exact ⟨rfl, rfl, rfl, rfl⟩

theorem wfInv_resetSimulation (cfg : Config) (r : Rand) (s : SimState) (k : ℕ)
    (hmat : 0 < cfg.matureAge) : WFInv (resetSimulation cfg r s k).1 := by
  rw [resetSimulation]
  have h0 : WFInv ({ s with digits := [] } : SimState) :=
    ⟨by simp, by simp, fun a ha => absurd ha (List.not_mem_nil a),
      fun a ha => absurd ha (List.not_mem_nil a)⟩
  exact wfInv_createInitialDigit cfg r _ _ 1 Sex.F _ _ hmat
    (wfInv_createInitialDigit cfg r k _ 1 Sex.M _ _ hmat h0)

theorem findNearestFemale_spec (cfg : Config) (digits : List Digit) (male : Digit)
    {fe : Digit} (h : findNearestFemale cfg digits male = some fe) :
    fe ∈ digits ∧ isValidMatingTarget cfg fe := by
  rw [findNearestFemale] at h
  suffices hgen : ∀ (l : List Digit) (acc : ℝ × Option Digit),
      (∀ g, acc.2 = some g → g ∈ digits ∧ isValidMatingTarget cfg g) →
      (∀ x ∈ l, x ∈ digits) →
      ∀ g, (l.foldl (fun (acc : ℝ × Option Digit) female =>
        if isValidMatingTarget cfg female ∧ distance male female < acc.1 then
          (distance male female, some female) else acc) acc).2 = some g →
        g ∈ digits ∧ isValidMatingTarget cfg g by
    exact hgen digits (cfg.attractionRadius, none)
      (fun g hg => absurd hg (by simp)) (fun x hx => hx) fe h
  intro l
  induction l with
  | nil =>
    intro acc hacc hsub g hg
    exact hacc g hg
  | cons a t ih =>
    intro acc hacc hsub g hg
    rw [List.foldl_cons] at hg
    refine ih _ ?_ (fun x hx => hsub x (List.mem_cons_of_mem a hx)) g hg
    intro g' hg'
    by_cases hc : isValidMatingTarget cfg a ∧ distance male a < acc.1
    · rw [if_pos hc] at hg'
      have hg'' : some a = some g' := hg'
      obtain rfl := Option.some.inj hg''
      exact ⟨hsub a (List.mem_cons_self a t), hc.1⟩
    · rw [if_neg hc] at hg'
      exact hacc g' hg'

theorem wfList_createBond {N : ℕ} (cfg : Config) {l : List Digit} {i : ℕ}
    {d fe : Digit} (hwf : WFList N l) (hget : l.get? i = some d) (hfe : fe ∈ l)
    (hdsex : d.sex = Sex.M) (hdbo : d.bondedTo = none)
    (hfesex : fe.sex = Sex.F) (hfebo : fe.bondedTo = none)
    {d' : Digit} (hd'id : d'.id = d.id) (hd'bo : d'.bondedTo = some fe.id)
    (hd'sex : d'.sex = d.sex) (hd'ge : d'.gestationTimer = d.gestationTimer) :
    WFList N ((updateById l fe.id (fun o => (createBond cfg d o).2)).set i d') := by
  obtain ⟨hnd, hfr, hbs, hgf⟩ := hwf
  have hdm : d ∈ l := List.get?_mem hget
  have hdfe : d ≠ fe := fun h => by
    rw [h, hfesex] at hdsex
    exact Sex.noConfusion hdsex
  have hdfeid : d.id ≠ fe.id := fun h => hdfe (eq_of_mem_of_id_nodup hnd hdm hfe h)
  have hcb : ∀ o : Digit, ((createBond cfg d o).2).id = o.id ∧
      ((createBond cfg d o).2).bondedTo = some d.id ∧
      ((createBond cfg d o).2).sex = o.sex ∧
      ((createBond cfg d o).2).gestationTimer = cfg.gestation :=
    fun o => ⟨rfl, rfl, rfl, rfl⟩
  set l1 := updateById l fe.id (fun o => (createBond cfg d o).2) with hl1
  have hl1map : l1.map Digit.id = l.map Digit.id := updateById_map_id (fun o => rfl)
  have hl1get : l1.get? i = some d := by
    rw [hl1, get?_updateById, hget, Option.map_some', if_neg hdfeid]
  have hilen : i < l1.length := (List.get?_eq_some.mp hl1get).1
  have hmem_d' : d' ∈ l1.set i d' := List.get?_mem (List.get?_set_eq_of_lt _ hilen)
  have hfe1 : (createBond cfg d fe).2 ∈ l1 := mem_updateById_self hfe rfl
  have hfe2 : (createBond cfg d fe).2 ∈ l1.set i d' := by
    refine mem_set_of_ne hfe1 hl1get ?_
    intro h
    have hfd : fe.id = d.id := (hcb fe).1.symm.trans (congrArg Digit.id h)
    exact hdfeid hfd.symm
  have hmemc : ∀ a ∈ l1.set i d', a = d' ∨ (∃ e ∈ l, e.id ≠ fe.id ∧ a = e) ∨
      a = (createBond cfg d fe).2 := by
    intro a ha
    rcases List.mem_or_eq_of_mem_set ha with h1 | rfl
    · rcases of_mem_updateById h1 with ⟨e, he, hae⟩
      by_cases hefe : e.id = fe.id
      · have hefe' : e = fe := eq_of_mem_of_id_nodup hnd he hfe hefe
        rw [if_pos hefe] at hae
        right; right
        rw [hae, hefe']
      · rw [if_neg hefe] at hae
        right; left
        exact ⟨e, he, hefe, hae⟩
    · left; rfl
  refine ⟨?_, ?_, ?_, ?_⟩
  · have hm2 : (l1.set i d').map Digit.id = l1.map Digit.id := by
      rw [List.map_set]
      refine set_of_get?_self _ i _ ?_
      rw [List.get?_map, hl1get, Option.map_some', hd'id]
    rw [hm2, hl1map]
    exact hnd
  · intro a ha
    rcases hmemc a ha with rfl | ⟨e, he, _, rfl⟩ | rfl
    · exact hd'id ▸ hfr d hdm
    · exact hfr a he
    · exact (hcb fe).1 ▸ hfr fe hfe
  · intro a ha j hj
    rcases hmemc a ha with rfl | ⟨e, he, hene, rfl⟩ | rfl
    · rw [hd'bo] at hj
      obtain rfl := Option.some.inj hj
      refine ⟨(createBond cfg d fe).2, hfe2, (hcb fe).1, ?_, ?_⟩
      · rw [(hcb fe).2.1, hd'id]
      · rw [(hcb fe).2.2.1, hfesex, hd'sex, hdsex]
        exact fun h => Sex.noConfusion h
    · obtain ⟨b, hb, hb1, hb2, hb3⟩ := hbs a he j hj
      have hbfe : b ≠ fe := fun h => by
        rw [h, hfebo] at hb2
        exact Option.noConfusion hb2
      have hbd : b ≠ d := fun h => by
        rw [h, hdbo] at hb2
        exact Option.noConfusion hb2
      have hbfeid : b.id ≠ fe.id := fun h => hbfe (eq_of_mem_of_id_nodup hnd hb hfe h)
      have hb_l1 : b ∈ l1 := mem_updateById_of_ne hb hbfeid
      exact ⟨b, mem_set_of_ne hb_l1 hl1get hbd, hb1, hb2, hb3⟩
    · rw [(hcb fe).2.1] at hj
      obtain rfl := Option.some.inj hj
      refine ⟨d', hmem_d', hd'id, ?_, ?_⟩
      · rw [hd'bo, (hcb fe).1]
      · rw [hd'sex, hdsex, (hcb fe).2.2.1, hfesex]
        exact fun h => Sex.noConfusion h
  · intro a ha hne
    rcases hmemc a ha with rfl | ⟨e, he, _, rfl⟩ | rfl
    · exfalso
      have hdg : d.gestationTimer ≠ 0 := fun h => hne (hd'ge.trans h)
      have := hgf d hdm hdg
      rw [hdsex] at this
      exact Sex.noConfusion this
    · exact hgf a he hne
    · rw [(hcb fe).2.2.1]
      exact hfesex

theorem wfList_set_pres4 {N : ℕ} {ds : List Digit} {i : ℕ} {d d' : Digit}
    (hwf : WFList N ds) (hget : ds.get? i = some d) (hp : Pres4 d d') :
    WFList N (ds.set i d') := by
  refine wfList_set hwf hget hp.1 hp.2.1 hp.2.2.1 ?_
  intro hne
  rw [hp.2.2.1]
  exact hwf.2.2.2 d (List.get?_mem hget) (fun h => hne (hp.2.2.2.trans h))

theorem wfList_moveStep {N : ℕ} (cfg : Config) (r : Rand) (k : ℕ) {l : List Digit}
    {i : ℕ} {d : Digit} (hwf : WFList N l) (hget : l.get? i = some d) :
    WFList N ((updateDigitPosition cfg r k l d).2.1.set i
      (updateDigitPosition cfg r k l d).1) := by
  rw [updateDigitPosition]
  cases hc : handleChildMovement cfg r k l d with
  | some p =>
    dsimp only
    exact wfList_set_pres4 hwf hget (pres4_of_presEq
      (presEq_trans (presEq_handleChildMovement cfg r k l d hc)
        (presEq_constrainVelocity _ _)))
  | none =>
    cases hb : handleBondedMaleMovement cfg r k l d with
    | some p =>
      dsimp only
      exact wfList_set_pres4 hwf hget (pres4_of_presEq
        (presEq_trans (presEq_handleBondedMaleMovement cfg r k l d hb)
          (presEq_constrainVelocity _ _)))
    | none =>
      cases hs : handleSeekingMaleMovement cfg r k l d with
      | none =>
        dsimp only
        exact wfList_set_pres4 hwf hget (pres4_of_presEq
          (presEq_trans (presEq_applyJitterMovement cfg r k d)
            (presEq_constrainVelocity _ _)))
      | some q =>
        dsimp only
        rw [handleSeekingMaleMovement] at hs
        by_cases hguard : d.sex ≠ Sex.M ∨ d.age < cfg.matureAge ∨ d.age ≥ cfg.oldAge
        · rw [if_pos hguard] at hs
          exact absurd hs (by simp)
        · rw [if_neg hguard] at hs
          push_neg at hguard
          obtain ⟨hdsex, hmat', hold⟩ := hguard
          have hdsex' : d.sex = Sex.M := not_not.mp (by simpa using hdsex)
          cases hfe : findNearestFemale cfg l d with
          | none =>
            rw [hfe] at hs
            simp only [Option.some.injEq] at hs
            rw [← hs]
            exact wfList_set_pres4 hwf hget
              (pres4_trans ⟨rfl, rfl, rfl, rfl⟩
                (pres4_of_presEq (presEq_constrainVelocity _ _)))
          | some fe =>
            rw [hfe] at hs
            dsimp only at hs
            simp only [Option.some.injEq] at hs
            obtain ⟨hfemem, hfevalid⟩ := findNearestFemale_spec cfg l d hfe
            obtain ⟨hfesex, hfemat, hfeold, hfege, hfebo⟩ := hfevalid
            by_cases hbn : distance d fe ≤ cfg.mateDistance ∧ d.bondedTo = none ∧
                fe.gestationTimer = 0
            · rw [if_pos hbn, if_pos hbn] at hs
              rw [← hs]
              dsimp only
              refine wfList_createBond cfg hwf hget hfemem hdsex' hbn.2.1
                hfesex hfebo ?_ ?_ ?_ ?_
              · exact (presEq_constrainVelocity _ _).1
              · rw [(presEq_constrainVelocity _ _).2.2.2.2.2.2.2.2.1]
                rfl
              · exact (presEq_constrainVelocity _ _).2.2.1
              · exact (presEq_constrainVelocity _ _).2.2.2.2.2.2.2.2.2.1
            · rw [if_neg hbn, if_neg hbn] at hs
              rw [← hs]
              dsimp only
              refine wfList_set_pres4 hwf hget ?_
              refine pres4_trans ?_ (pres4_of_presEq (presEq_constrainVelocity _ _))
              exact ⟨rfl, rfl, rfl, rfl⟩

theorem wfList_movementPass {N : ℕ} (cfg : Config) (r : Rand) (digits : List Digit)
    (k : ℕ) (hwf : WFList N digits) : WFList N (movementPass cfg r digits k).1 := by
  rw [movementPass]
  generalize (List.range digits.length) = idxs
  suffices hgen : ∀ acc : List Digit × ℕ, WFList N acc.1 →
      WFList N ((idxs.foldl (fun (acc : List Digit × ℕ) i =>
        match acc.1.get? i with
        | some d =>
          let u := updateDigitPosition cfg r acc.2 acc.1 d
          (u.2.1.set i u.1, u.2.2.1)
        | none => acc) acc)).1 from hgen (digits, k) hwf
  induction idxs with
  | nil =>
    intro acc h
    exact h
  | cons i t ih =>
    intro acc h
    rw [List.foldl_cons]
    refine ih _ ?_
    cases hget : acc.1.get? i with
    | none => exact h
    | some d => exact wfList_moveStep cfg r acc.2 h hget

theorem pres4_resolvePair_fst (cfg : Config) (opts : CollideOpts) (A B : Digit) :
    Pres4 A (resolvePair cfg opts A B).1 := by
  refine ⟨?_, ?_, ?_, ?_⟩ <;>
    (rw [resolvePair]; dsimp only; split_ifs <;> rfl)

theorem pres4_resolvePair_snd (cfg : Config) (opts : CollideOpts) (A B : Digit) :
    Pres4 B (resolvePair cfg opts A B).2 := by
  refine ⟨?_, ?_, ?_, ?_⟩ <;>
    (rw [resolvePair]; dsimp only; split_ifs <;> rfl)

theorem pres4_symm {a b : Digit} (h : Pres4 a b) : Pres4 b a :=
  ⟨h.1.symm, h.2.1.symm, h.2.2.1.symm, h.2.2.2.symm⟩

theorem wfList_collidePairStep {N : ℕ} (cfg : Config) (opts : CollideOpts)
    {l : List Digit} (hwf : WFList N l) (i j : ℕ) :
    WFList N (collidePairStep cfg opts l i j) := by
  rw [collidePairStep]
  cases hA : l.get? i with
  | none => exact hwf
  | some A =>
    cases hB : l.get? j with
    | none => exact hwf
    | some B =>
      dsimp only
      have h1 : WFList N (l.set i (resolvePair cfg opts A B).1) :=
        wfList_set_pres4 hwf hA (pres4_resolvePair_fst cfg opts A B)
      by_cases hij : i = j
      · subst hij
        have hAB : A = B := by
          rw [hA] at hB
          exact Option.some.inj hB
        have hget2 : (l.set i (resolvePair cfg opts A B).1).get? i =
            some (resolvePair cfg opts A B).1 :=
          List.get?_set_eq_of_lt _ ((List.get?_eq_some.mp hA).1)
        refine wfList_set_pres4 h1 hget2 ?_
        exact pres4_trans (pres4_symm (pres4_resolvePair_fst cfg opts A B))
          (hAB ▸ pres4_resolvePair_snd cfg opts A B)
      · have hget2 : (l.set i (resolvePair cfg opts A B).1).get? j = some B := by
          rw [get?_set_ne' _ _ hij]
          exact hB
        exact wfList_set_pres4 h1 hget2 (pres4_resolvePair_snd cfg opts A B)

theorem wfList_collideInner {N : ℕ} (cfg : Config) (opts : CollideOpts) (n i : ℕ)
    {l : List Digit} (hwf : WFList N l) : WFList N (collideInner cfg opts n i l) := by
  rw [collideInner]
  generalize (List.range' (i + 1) (n - (i + 1))) = js
  induction js generalizing l with
  | nil => exact hwf
  | cons j t ih =>
    rw [List.foldl_cons]
    exact ih (wfList_collidePairStep cfg opts hwf i j)

theorem wfList_collidePass {N : ℕ} (cfg : Config) (opts : CollideOpts) (n : ℕ)
    {l : List Digit} (hwf : WFList N l) : WFList N (collidePass cfg opts n l) := by
  rw [collidePass]
  generalize (List.range n) = is
  induction is generalizing l with
  | nil => exact hwf
  | cons i t ih =>
    rw [List.foldl_cons]
    exact ih (wfList_collideInner cfg opts n i hwf)

theorem wfList_resolveDigitCollisions {N : ℕ} (cfg : Config) (opts : CollideOpts)
    {digits : List Digit} (hwf : WFList N digits) :
    WFList N (resolveDigitCollisions cfg opts digits) := by
  rw [resolveDigitCollisions]
  generalize (List.range opts.maxIterations) = its
  generalize digits.length = n
  induction its generalizing digits with
  | nil => exact hwf
  | cons a t ih =>
    rw [List.foldl_cons]
    exact ih (wfList_collidePass cfg opts n hwf)

theorem pres4_bounceOffWalls (cfg : Config) (e : Digit) :
    Pres4 e (bounceOffWalls cfg e) := by
  refine ⟨?_, ?_, ?_, ?_⟩ <;>
    (rw [bounceOffWalls]; split_ifs <;> rfl)

theorem pres4_bounce_integrate (cfg : Config) (d : Digit) :
    Pres4 d (bounceOffWalls cfg (updatePosition d)) :=
  pres4_trans ⟨rfl, rfl, rfl, rfl⟩ (pres4_bounceOffWalls cfg (updatePosition d))

theorem wfInv_updateAllDigits (cfg : Config) (r : Rand) (s : SimState) (k : ℕ)
    (hwf : WFInv s) : WFInv (updateAllDigits cfg r s k).1 := by
  rw [updateAllDigits]
  have h1 : WFList s.nextId (s.digits.map (validateBonds s.digits)) :=
    wfList_validateBonds hwf
  have h2 := wfList_movementPass cfg r _ k h1
  have h3 := wfList_resolveDigitCollisions cfg productionCollideOpts h2
  exact wfList_map (fun d _ => pres4_bounce_integrate cfg d) h3

theorem wfInv_tickSim (cfg : Config) (att : Option (ℝ × ℝ)) (r : Rand) (inc : ℝ)
    (s : SimState) (hmat : 0 < cfg.matureAge) (hwf : WFInv s) :
    WFInv (tickSim cfg att r inc s) := by
  rw [tickSim]
  split
  · exact wfInv_updateAllDigits cfg r _ _ (wfInv_resetSimulation cfg r _ _ hmat)
  · exact wfInv_updateAllDigits cfg r _ _
      (wfInv_reproduce cfg r hmat _ _
        (wfInv_lifecyclePass cfg att r inc _ 0 hwf))

theorem reachable_WF (cfg : Config) (hmat : 0 < cfg.matureAge) {s : SimState}
    (hs : Reachable cfg s) : WFInv s := by
  induction hs with
  | init r hr => exact wfInv_resetSimulation cfg r _ 0 hmat
  | tick s att r hr inc hinc hs ih => exact wfInv_tickSim cfg att r inc s hmat ih

/-- C8: in every reachable simulation state (any positive `matureAge`
configuration), the live bonds are mutual: whenever a live entity's
`bondedTo` holds the id of some entity, that partner is live and bonded
right back.  Bond creation sets both sides together behind guards that
admit only an unbonded male and an unbonded female, a partner's death
clears the survivor's side, and a birth clears both parents' sides, so
the invariant survives every stage of every tick. -/
theorem reachable_bond_symmetry (cfg : Config) (hmat : 0 < cfg.matureAge)
    (s : SimState) (hs : Reachable cfg s) : BondSym s.digits := by
  intro a ha j hj
  obtain ⟨b, hb, hb1, hb2, hb3⟩ := (reachable_WF cfg hmat hs).2.2.1 a ha j hj
  exact ⟨b, hb, hb1, hb2⟩

theorem reachable_bond_symmetry_witness :
    0 < cfgA.matureAge ∧ BondSym (resetSimulation cfgA randZero ⟨[], 0, 0⟩ 0).1.digits :=
  ⟨by norm_num [cfgA],
    reachable_bond_symmetry cfgA (by norm_num [cfgA]) _
      (Reachable.init randZero (by intro i; constructor <;> norm_num [randZero]))⟩

/-- C3 (amended): in every reachable simulation state, every entity with
a nonzero gestation timer is female — but it need not still be bonded:
when the father dies during gestation, `killDigit` clears the widow's
`bondedTo` yet leaves her gestation timer running, so the bonded half of
the original claim fails (see the counterexample). -/
theorem reachable_gestating_female (cfg : Config) (hmat : 0 < cfg.matureAge)
    (s : SimState) (hs : Reachable cfg s) : GestFem s.digits :=
  (reachable_WF cfg hmat hs).2.2.2

theorem reachable_gestating_female_witness :
    0 < cfgA.matureAge ∧ GestFem (resetSimulation cfgA randZero ⟨[], 0, 0⟩ 0).1.digits :=
  ⟨by norm_num [cfgA],
    reachable_gestating_female cfgA (by norm_num [cfgA]) _
      (Reachable.init randZero (by intro i; constructor <;> norm_num [randZero]))⟩

-- Concrete evaluation toolkit for the two-tick run ------------

theorem digit_ext {a b : Digit} (h1 : a.id = b.id) (h2 : a.name = b.name)
    (h3 : a.sex = b.sex) (h4 : a.x = b.x) (h5 : a.y = b.y) (h6 : a.dx = b.dx)
    (h7 : a.dy = b.dy) (h8 : a.age = b.age) (h9 : a.maxAge = b.maxAge)
    (h10 : a.lastRepro = b.lastRepro) (h11 : a.bondedTo = b.bondedTo)
    (h12 : a.gestationTimer = b.gestationTimer) (h13 : a.mother = b.mother)
    (h14 : a.father = b.father) (h15 : a.children = b.children)
    (h16 : a.attractionTarget = b.attractionTarget)
    (h17 : a.orbitAngle = b.orbitAngle) (h18 : a.target = b.target)
    (h19 : a.scale = b.scale) : a = b := by
  cases a
  cases b
  simp_all

theorem simState_ext {a b : SimState} (h1 : a.digits = b.digits)
    (h2 : a.tick = b.tick) (h3 : a.nextId = b.nextId) : a = b := by
  cases a
  cases b
  simp_all

theorem atan2_zero_pos {x : ℝ} (h : 0 < x) : atan2 0 x = 0 := by
  rw [atan2, if_pos h]
  simp

theorem constrainVelocity_of_le {d : Digit} {m : ℝ}
    (h : Real.sqrt (d.dx ^ 2 + d.dy ^ 2) ≤ m) : constrainVelocity d m = d := by
  rw [constrainVelocity]
  dsimp only
  rw [if_neg (not_lt.mpr h)]

theorem jitter_half_eval (k : ℕ) (d : Digit) (hdx : 0 < d.dx) (hdy : d.dy = 0) :
    applyJitterMovement cfgA randHalf k d = ({ d with dx := 5, dy := 0 }, k + 2) := by
  rw [applyJitterMovement]
  have hz : ∀ j, randHalf j - 0.5 = 0 := fun j => by norm_num [randHalf]
  have hang : atan2 d.dy d.dx + (randHalf k - 0.5) * cfgA.directionJitter *
      (if d.age / d.maxAge < 0.3 then cfgA.jitterYoung
       else if d.age / d.maxAge < 0.7 then 1.0 else cfgA.jitterOld) = 0 := by
    rw [hz, zero_mul, zero_mul, add_zero, hdy, atan2_zero_pos hdx]
  have hsp : max (cfgA.speed * JITTER_baseSpeed)
      (min (cfgA.speed * (1 + (randHalf (k + 1) - 0.5) * cfgA.velocityJitter *
        (if d.age / d.maxAge < 0.3 then cfgA.jitterYoung
         else if d.age / d.maxAge < 0.7 then 1.0 else cfgA.jitterOld)))
        (cfgA.speed * JITTER_maxSpeed)) = 5 := by
    rw [hz, zero_mul, zero_mul, add_zero, mul_one]
    norm_num [cfgA, JITTER_baseSpeed, JITTER_maxSpeed]
  rw [hang, hsp]
  rw [Real.cos_zero, Real.sin_zero, one_mul, zero_mul]

theorem bounceOffWalls_inside (cfg : Config) (d : Digit)
    (h1 : ¬(d.x < (calculateBounds cfg (cfg.digitSize * calculateScale cfg d / 2)).left))
    (h2 : ¬(d.x > (calculateBounds cfg (cfg.digitSize * calculateScale cfg d / 2)).right))
    (h3 : ¬(d.y < (calculateBounds cfg (cfg.digitSize * calculateScale cfg d / 2)).top))
    (h4 : ¬(d.y > (calculateBounds cfg (cfg.digitSize * calculateScale cfg d / 2)).bottom)) :
    bounceOffWalls cfg d = d := by
  rw [bounceOffWalls]
  rw [if_neg h1, if_neg h2, if_neg h3, if_neg h4]

theorem resolvePair_far (cfg : Config) (opts : CollideOpts) (A B : Digit)
    (h : ¬(Real.sqrt ((B.x - A.x) ^ 2 + (B.y - A.y) ^ 2) <
        collisionRadius cfg A + collisionRadius cfg B + opts.minSeparation ∧
      Real.sqrt ((B.x - A.x) ^ 2 + (B.y - A.y) ^ 2) > 0)) :
    resolvePair cfg opts A B = (A, B) := by
  rw [resolvePair]
  dsimp only
  rw [if_neg h]

theorem collide_pair_far (cfg : Config) (opts : CollideOpts) (a b : Digit)
    (h : ¬(Real.sqrt ((b.x - a.x) ^ 2 + (b.y - a.y) ^ 2) <
        collisionRadius cfg a + collisionRadius cfg b + opts.minSeparation ∧
      Real.sqrt ((b.x - a.x) ^ 2 + (b.y - a.y) ^ 2) > 0)) :
    resolveDigitCollisions cfg opts [a, b] = [a, b] := by
  have hstep : collidePairStep cfg opts [a, b] 0 1 = [a, b] := by
    rw [collidePairStep]
    have hg0 : ([a, b] : List Digit).get? 0 = some a := rfl
    have hg1 : ([a, b] : List Digit).get? 1 = some b := rfl
    rw [hg0, hg1]
    dsimp only
    rw [resolvePair_far cfg opts a b h]
    rfl
  have hInner0 : collideInner cfg opts 2 0 [a, b] = [a, b] := by
    rw [collideInner, show (2 - (0 + 1)) = 1 from rfl,
      show List.range' (0 + 1) 1 = [1] from rfl, List.foldl_cons, List.foldl_nil, hstep]
  have hInner1 : collideInner cfg opts 2 1 [a, b] = [a, b] := by
    rw [collideInner, show (2 - (1 + 1)) = 0 from rfl,
      show List.range' (1 + 1) 0 = [] from rfl, List.foldl_nil]
  have hpass : collidePass cfg opts 2 [a, b] = [a, b] := by
    rw [collidePass]
    rw [show List.range 2 = [0, 1] from rfl]
    rw [List.foldl_cons, List.foldl_cons, List.foldl_nil]
    rw [hInner0, hInner1]
  rw [resolveDigitCollisions]
  generalize (List.range opts.maxIterations) = its
  induction its with
  | nil => rfl
  | cons x t ih =>
    rw [List.foldl_cons, show ([a, b] : List Digit).length = 2 from rfl, hpass]
    exact ih

theorem jitter_constrain_overwrite (cfg : Config) (r : Rand) (k : ℕ) (d : Digit)
    (A B : ℝ) :
    ({ constrainVelocity (applyJitterMovement cfg r k d).1 cfg.speed with
        dx := A
        dy := B } : Digit) = { d with dx := A, dy := B } := by
  rw [applyJitterMovement]
  dsimp only
  rw [constrainVelocity]
  dsimp only
  split_ifs <;> rfl

theorem createInitialDigit_eval (cfg : Config) (r : Rand) (k : ℕ) (s : SimState)
    (name : ℕ) (sex : Sex) (x y : ℝ) (hmat : 0 < cfg.matureAge)
    (hfr : ∀ d ∈ s.digits, d.id < s.nextId) :
    createInitialDigit cfg r k s name sex x y =
      ({ s with
          digits := s.digits ++ [initSeed cfg r k s.nextId name sex x y]
          nextId := s.nextId + 1 }, k + 5) := by
  rw [createInitialDigit, createDigit]
  dsimp only
  rw [if_pos (rfl : (none : Option ℕ) = none), if_pos (rfl : (none : Option ℕ) = none)]
  set d0 : Digit :=
    { id := s.nextId, name := name, sex := sex, x := x, y := y,
      dx := Real.cos (r (k + 1) * (2 * Real.pi)) * cfg.speed * 1,
      dy := Real.sin (r (k + 1) * (2 * Real.pi)) * cfg.speed * 1,
      age := 0, maxAge := cfg.maxAge + (r k * 2 - 1) * (cfg.maxAge * cfg.maxAgeVariation),
      lastRepro := none, bondedTo := none, gestationTimer := 0,
      mother := none, father := none, children := [],
      attractionTarget := none, orbitAngle := none, target := none, scale := none } with hd0
  have hch : handleChildMovement cfg r (k + 2) s.digits d0 = none := by
    rw [hd0]
    rfl
  have hbm : handleBondedMaleMovement cfg r (k + 2) s.digits d0 = none := by
    rw [handleBondedMaleMovement, if_pos]
    right
    rw [hd0]
  have hsk : handleSeekingMaleMovement cfg r (k + 2) s.digits d0 = none := by
    rw [handleSeekingMaleMovement, if_pos]
    right
    left
    rw [hd0]
    simpa using hmat
  rw [updateDigitPosition, hch, hbm, hsk]
  dsimp only
  set u1 : Digit :=
    constrainVelocity (applyJitterMovement cfg r (k + 2) d0).1 cfg.speed with hu1
  have hpe : PresEq d0 u1 := by
    rw [hu1]
    exact presEq_trans (presEq_applyJitterMovement cfg r (k + 2) d0)
      (presEq_constrainVelocity _ _)
  have hu1id : u1.id = s.nextId := by
    rw [hpe.1, hd0]
  refine Prod.ext ?_ rfl
  refine simState_ext ?_ rfl rfl
  show updateById (s.digits ++ [u1]) s.nextId _ = _
  rw [updateById, List.map_append]
  congr 1
  · refine (List.map_congr_left ?_).trans (List.map_id s.digits)
    intro e he
    rw [if_neg (ne_of_lt (hfr e he))]
    rfl
  · simp only [List.map_cons, List.map_nil]
    rw [if_pos hu1id]
    congr 1
    rw [show (applyJitterMovement cfg r (k + 2) d0).2 = k + 4 from rfl]
    rw [hu1, jitter_constrain_overwrite, hd0]
    rfl

theorem reset_eval : (resetSimulation cfgA randC3 ⟨[], 0, 0⟩ 0).1 = stateSeed := by
  have hA : createInitialDigit cfgA randC3 0
      ({ (⟨[], 0, 0⟩ : SimState) with digits := [] }) 1 Sex.M
      (cfgA.innerWidth / 2 - 30) (cfgA.innerHeight / 2) = (stateHalf, 5) := by
    rw [createInitialDigit_eval cfgA randC3 0 _ 1 Sex.M _ _ (by norm_num [cfgA])
      (fun d hd => absurd hd (List.not_mem_nil d))]
    refine Prod.ext ?_ rfl
    refine simState_ext ?_ rfl rfl
    show [] ++ [_] = [dM0]
    rw [List.nil_append]
    congr 1
    refine digit_ext ?_ ?_ ?_ ?_ ?_ ?_ ?_ ?_ ?_ ?_ ?_ ?_ ?_ ?_ ?_ ?_ ?_ ?_ ?_ <;>
      norm_num [initSeed, dM0, randC3, cfgA, max_def, Real.cos_zero, Real.sin_zero]
  have hB : createInitialDigit cfgA randC3 5 stateHalf 1 Sex.F
      (cfgA.innerWidth / 2 + 30) (cfgA.innerHeight / 2) = (stateSeed, 10) := by
    rw [createInitialDigit_eval cfgA randC3 5 stateHalf 1 Sex.F _ _ (by norm_num [cfgA])
      ?_]
    · refine Prod.ext ?_ rfl
      refine simState_ext ?_ rfl rfl
      show stateHalf.digits ++ [_] = [dM0, dF0]
      rw [show stateHalf.digits = [dM0] from rfl]
      rw [show ([dM0] : List Digit) ++ [initSeed cfgA randC3 5 stateHalf.nextId 1 Sex.F
        (cfgA.innerWidth / 2 + 30) (cfgA.innerHeight / 2)] = [dM0, initSeed cfgA randC3 5
        stateHalf.nextId 1 Sex.F (cfgA.innerWidth / 2 + 30) (cfgA.innerHeight / 2)] from rfl]
      congr 1
      congr 1
      refine digit_ext ?_ ?_ ?_ ?_ ?_ ?_ ?_ ?_ ?_ ?_ ?_ ?_ ?_ ?_ ?_ ?_ ?_ ?_ ?_ <;>
        norm_num [initSeed, dM0, dF0, stateHalf, randC3, cfgA, max_def,
          Real.cos_zero, Real.sin_zero]
    · intro d hd
      rw [show stateHalf.digits = [dM0] from rfl] at hd
      rw [List.mem_singleton.mp hd]
      norm_num [dM0, stateHalf]
  rw [resetSimulation]
  dsimp only
  rw [hA]
  dsimp only
  rw [hB]

theorem lifecycle_step_no_kill (cfg : Config) (r : Rand) (inc : ℝ) (s : SimState)
    (k i : ℕ) (d : Digit) (hfd : findById s.digits i = some d)
    (hatt : ¬(cfg.enableAttractor = true)) (hnk : ¬(d.age + inc > d.maxAge)) :
    updateDigitLifecycle cfg none r inc (s, k) i =
      ({ s with
          digits := updateById s.digits i (fun _ => { d with age := d.age + inc }) },
        k) := by
  rw [updateDigitLifecycle]
  dsimp only
  rw [hfd]
  dsimp only
  rw [if_neg hatt]
  dsimp only
  rw [if_neg hnk]

theorem lifecycle_step_kill (cfg : Config) (r : Rand) (inc : ℝ) (s : SimState)
    (k i : ℕ) (d : Digit) (hfd : findById s.digits i = some d)
    (hatt : ¬(cfg.enableAttractor = true)) (hk : d.age + inc > d.maxAge) :
    updateDigitLifecycle cfg none r inc (s, k) i =
      (killDigit
        { s with
          digits := updateById s.digits i (fun _ => { d with age := d.age + inc }) }
        { d with age := d.age + inc }, k) := by
  rw [updateDigitLifecycle]
  dsimp only
  rw [hfd]
  dsimp only
  rw [if_neg hatt]
  dsimp only
  rw [if_pos hk]

theorem tick1_lifecycle :
    lifecyclePass cfgA none randHalf 35 { stateSeed with tick := stateSeed.tick + 1 } 0
      = ({ digits := [dM35, dF35], tick := 1, nextId := 2 }, 0) := by
  rw [lifecyclePass]
  rw [show ({ stateSeed with tick := stateSeed.tick + 1 } : SimState).digits.map
    (fun d => d.id) = [0, 1] from rfl]
  rw [List.foldl_cons, List.foldl_cons, List.foldl_nil]
  have h0 : updateDigitLifecycle cfgA none randHalf 35
      ({ stateSeed with tick := stateSeed.tick + 1 }, 0) 0
      = ({ digits := [dM35, dF0], tick := 1, nextId := 2 }, 0) := by
    rw [lifecycle_step_no_kill cfgA randHalf 35
      { stateSeed with tick := stateSeed.tick + 1 } 0 0 dM0 rfl
      (by norm_num [cfgA]) (by norm_num [dM0])]
    rw [show updateById ({ stateSeed with tick := stateSeed.tick + 1 } : SimState).digits 0
      (fun _ => { dM0 with age := dM0.age + 35 }) =
      [{ dM0 with age := dM0.age + 35 }, dF0] from rfl]
    rw [show dM0.age + 35 = (35 : ℝ) from by norm_num [dM0]]
    rfl
  rw [h0]
  have h1 : updateDigitLifecycle cfgA none randHalf 35
      (({ digits := [dM35, dF0], tick := 1, nextId := 2 } : SimState), 0) 1
      = ({ digits := [dM35, dF35], tick := 1, nextId := 2 }, 0) := by
    rw [lifecycle_step_no_kill cfgA randHalf 35
      ({ digits := [dM35, dF0], tick := 1, nextId := 2 } : SimState) 0 1 dF0 rfl
      (by norm_num [cfgA]) (by norm_num [dF0, dM0])]
    rw [show updateById ({ digits := [dM35, dF0], tick := 1, nextId := 2 } : SimState).digits 1
      (fun _ => { dF0 with age := dF0.age + 35 }) =
      [dM35, { dF0 with age := dF0.age + 35 }] from rfl]
    rw [show dF0.age + 35 = (35 : ℝ) from by norm_num [dF0, dM0]]
    rfl
  rw [h1]

theorem move_fem_eval (k : ℕ) (l : List Digit) (d : Digit) (hm : d.mother = none)
    (hsex : d.sex = Sex.F) (hdx : d.dx = 5) (hdy : d.dy = 0) :
    updateDigitPosition cfgA randHalf k l d = (d, l, k + 2, Branch.jitter) := by
  have hch : handleChildMovement cfgA randHalf k l d = none := by
    rw [handleChildMovement, hm]
  have hbm : handleBondedMaleMovement cfgA randHalf k l d = none := by
    rw [handleBondedMaleMovement, if_pos]
    left
    rw [hsex]
    exact fun h => Sex.noConfusion h
  have hsk : handleSeekingMaleMovement cfgA randHalf k l d = none := by
    rw [handleSeekingMaleMovement, if_pos]
    left
    rw [hsex]
    exact fun h => Sex.noConfusion h
  rw [updateDigitPosition, hch]
  dsimp only
  rw [hbm]
  dsimp only
  rw [hsk]
  dsimp only
  rw [jitter_half_eval k d (by rw [hdx]; norm_num) hdy]
  dsimp only
  have hd5 : ({ d with dx := 5, dy := 0 } : Digit) = d := by
    refine digit_ext rfl rfl rfl rfl rfl ?_ ?_ rfl rfl rfl rfl rfl rfl rfl rfl rfl rfl
      rfl rfl
    · exact hdx.symm
    · exact hdy.symm
  rw [hd5]
  have hsq : Real.sqrt (d.dx ^ 2 + d.dy ^ 2) ≤ cfgA.speed := by
    rw [hdx, hdy]
    rw [show (5 : ℝ) ^ 2 + (0 : ℝ) ^ 2 = 5 ^ 2 from by norm_num]
    rw [Real.sqrt_sq (by norm_num : (0 : ℝ) ≤ 5)]
    norm_num [cfgA]
  rw [constrainVelocity_of_le hsq]

theorem dist_dM35_dF35 : distance dM35 dF35 = 60 := by
  rw [distance]
  rw [show (dM35.x - dF35.x) ^ 2 + (dM35.y - dF35.y) ^ 2 = (60 : ℝ) ^ 2 from by
    norm_num [dM35, dF35, dM0, dF0]]
  exact Real.sqrt_sq (by norm_num)

theorem moveTowardTarget_eval (d : Digit) (tx ty dist : ℝ)
    (hdy : d.dy = 0) (hdx : d.dx = 5)
    (hty : ty - d.y = 0) (htx : tx - d.x = 60) :
    moveTowardTarget cfgA d tx ty none dist = { d with dx := 3.5, dy := 0 } := by
  rw [moveTowardTarget]
  have hnagg : ¬(d.sex = Sex.M ∧ d.bondedTo = none ∧ (none : Option ℝ) = some 0) :=
    fun h => Option.noConfusion h.2.2
  rw [if_neg hnagg, if_neg hnagg]
  rw [hty, htx, hdy, hdx]
  rw [atan2_zero_pos (by norm_num : (0 : ℝ) < 5),
    atan2_zero_pos (by norm_num : (0 : ℝ) < 60)]
  rw [show (0 : ℝ) * (1 - SEEK_blendDefault) + 0 * SEEK_blendDefault = 0 from by ring]
  rw [Real.cos_zero, Real.sin_zero]
  rw [show (1 : ℝ) * (cfgA.speed * SEEK_speedDefault * 1) = 3.5 from by
    norm_num [cfgA, SEEK_speedDefault]]
  rw [show (0 : ℝ) * (cfgA.speed * SEEK_speedDefault * 1) = 0 from by
    norm_num [cfgA, SEEK_speedDefault]]

theorem tick1_move_male :
    updateDigitPosition cfgA randHalf 0 [dM35, dF35] dM35
      = (dMmv, [dM35, dFb], 0, Branch.seeking) := by
  have hch : handleChildMovement cfgA randHalf 0 [dM35, dF35] dM35 = none := rfl
  have hbm : handleBondedMaleMovement cfgA randHalf 0 [dM35, dF35] dM35 = none := by
    rw [handleBondedMaleMovement, if_pos]
    right
    rfl
  have hvalidF : isValidMatingTarget cfgA dF35 := by
    refine ⟨rfl, ?_, ?_, rfl, rfl⟩
    · norm_num [dF35, dF0, dM0, cfgA]
    · norm_num [dF35, dF0, dM0, cfgA]
  have hmi : ¬(isValidMatingTarget cfgA dM35 ∧
      distance dM35 dM35 < cfgA.attractionRadius) :=
    fun h => Sex.noConfusion h.1.1
  have hpf : isValidMatingTarget cfgA dF35 ∧
      distance dM35 dF35 < cfgA.attractionRadius := by
    refine ⟨hvalidF, ?_⟩
    rw [dist_dM35_dF35]
    norm_num [cfgA]
  have hfnf : findNearestFemale cfgA [dM35, dF35] dM35 = some dF35 := by
    rw [findNearestFemale]
    rw [List.foldl_cons, List.foldl_cons, List.foldl_nil]
    dsimp only
    rw [if_neg hmi, if_pos hpf]
  have hguard : ¬(dM35.sex ≠ Sex.M ∨ dM35.age < cfgA.matureAge ∨
      dM35.age ≥ cfgA.oldAge) := by
    simp only [not_or]
    refine ⟨by simp [dM35, dM0], by norm_num [dM35, dM0, cfgA],
      by norm_num [dM35, dM0, cfgA]⟩
  have hbnow : distance dM35 dF35 ≤ cfgA.mateDistance ∧ dM35.bondedTo = none ∧
      dF35.gestationTimer = 0 := by
    refine ⟨?_, rfl, rfl⟩
    rw [dist_dM35_dF35]
    norm_num [cfgA]
  have hMmv : Real.sqrt (dMmv.dx ^ 2 + dMmv.dy ^ 2) ≤ cfgA.speed := by
    rw [show dMmv.dx = (3.5 : ℝ) from rfl, show dMmv.dy = (0 : ℝ) from rfl]
    rw [show (3.5 : ℝ) ^ 2 + (0 : ℝ) ^ 2 = 3.5 ^ 2 from by norm_num]
    rw [Real.sqrt_sq (by norm_num : (0 : ℝ) ≤ 3.5)]
    norm_num [cfgA]
  rw [updateDigitPosition, hch]
  dsimp only
  rw [hbm]
  dsimp only
  rw [handleSeekingMaleMovement]
  rw [if_neg hguard]
  rw [hfnf]
  dsimp only
  rw [if_pos hbnow, if_pos hbnow]
  rw [moveTowardTarget_eval ({ (createBond cfgA dM35 dF35).1 with
      target := some (dF35.x, dF35.y) }) dF35.x dF35.y (distance dM35 dF35)
    rfl rfl (by norm_num [createBond, dM35, dF35, dM0, dF0])
    (by norm_num [createBond, dM35, dF35, dM0, dF0])]
  refine Prod.ext ?_ ?_
  · show constrainVelocity dMmv cfgA.speed = dMmv
    exact constrainVelocity_of_le hMmv
  · rfl

theorem tick1_movement :
    movementPass cfgA randHalf [dM35, dF35] 0 = ([dMmv, dFb], 2) := by
  rw [movementPass]
  rw [show ([dM35, dF35] : List Digit).length = 2 from rfl]
  rw [show List.range 2 = [0, 1] from rfl]
  rw [List.foldl_cons, List.foldl_cons, List.foldl_nil]
  simp only [List.get?_cons_zero]
  rw [tick1_move_male]
  simp only [List.set_cons_zero, List.get?_cons_succ, List.get?_cons_zero]
  rw [move_fem_eval 0 [dMmv, dFb] dFb rfl rfl rfl rfl]
  rfl

theorem collide_singleton (cfg : Config) (opts : CollideOpts) (a : Digit) :
    resolveDigitCollisions cfg opts [a] = [a] := by
  have hpass : collidePass cfg opts 1 [a] = [a] := by
    rw [collidePass]
    rw [show List.range 1 = [0] from rfl, List.foldl_cons, List.foldl_nil]
    rw [collideInner, show (1 - (0 + 1)) = 0 from rfl,
      show List.range' (0 + 1) 0 = [] from rfl, List.foldl_nil]
  rw [resolveDigitCollisions]
  generalize (List.range opts.maxIterations) = its
  induction its with
  | nil => rfl
  | cons x t ih =>
    rw [List.foldl_cons, show ([a] : List Digit).length = 1 from rfl, hpass]
    exact ih
theorem reproduceLoop_skip (cfg : Config) (r : Rand) (fuel i : ℕ) (s : SimState)
    (k : ℕ) (d : Digit) (hg : s.digits.get? i = some d)
    (hskip : ¬(d.sex = Sex.F ∧ d.gestationTimer > 0)) :
    reproduceLoop cfg r (fuel + 1) i s k = reproduceLoop cfg r fuel (i + 1) s k := by
  rw [reproduceLoop, hg]
  dsimp only
  rw [if_neg hskip]

theorem reproduceLoop_decr (cfg : Config) (r : Rand) (fuel i : ℕ) (s s' : SimState)
    (k : ℕ) (d : Digit) (hg : s.digits.get? i = some d)
    (hges : d.sex = Sex.F ∧ d.gestationTimer > 0)
    (hnb : ¬(d.gestationTimer - 1 = 0 ∧ d.bondedTo ≠ none))
    (hs' : s' = { s with digits := s.digits.set i { d with gestationTimer := d.gestationTimer - 1 } }) :
    reproduceLoop cfg r (fuel + 1) i s k = reproduceLoop cfg r fuel (i + 1) s' k := by
  subst hs'
  rw [reproduceLoop, hg]
  dsimp only
  rw [if_pos hges]
  rw [if_neg hnb]

theorem reproduceLoop_end (cfg : Config) (r : Rand) (fuel i : ℕ) (s : SimState)
    (k : ℕ) (hg : s.digits.get? i = none) :
    reproduceLoop cfg r (fuel + 1) i s k = (s, k) := by
  rw [reproduceLoop, hg]

theorem tick1_reproduce :
    reproduce cfgA randHalf { digits := [dM35, dF35], tick := 1, nextId := 2 } 0 =
      ({ digits := [dM35, dF35], tick := 1, nextId := 2 }, 0) := by
  have hcap : ¬(({ digits := [dM35, dF35], tick := 1, nextId := 2 } : SimState).digits.length ≥
      cfgA.POP_CAP) := by
    norm_num [cfgA]
  rw [reproduce, if_neg hcap]
  rw [show 2 * ({ digits := [dM35, dF35], tick := 1, nextId := 2 } : SimState).digits.length + 1
    = 4 + 1 from rfl]
  rw [reproduceLoop_skip cfgA randHalf 4 0
    { digits := [dM35, dF35], tick := 1, nextId := 2 } 0 dM35 rfl
    (fun h => Sex.noConfusion (show Sex.M = Sex.F from h.1))]
  rw [show (4 : ℕ) = 3 + 1 from rfl]
  rw [reproduceLoop_skip cfgA randHalf 3 (0 + 1)
    { digits := [dM35, dF35], tick := 1, nextId := 2 } 0 dF35 rfl
    (fun h => absurd h.2 (by norm_num [dF35, dF0, dM0]))]
  rw [show (3 : ℕ) = 2 + 1 from rfl]
  rw [reproduceLoop_end cfgA randHalf 2 (0 + 1 + 1)
    { digits := [dM35, dF35], tick := 1, nextId := 2 } 0 rfl]

theorem tick1_updateAll :
    updateAllDigits cfgA randHalf { digits := [dM35, dF35], tick := 1, nextId := 2 } 0 =
      (stateT1, 2) := by
  have hs60 : Real.sqrt ((dFb.x - dMmv.x) ^ 2 + (dFb.y - dMmv.y) ^ 2) = 60 := by
    rw [show dFb.x - dMmv.x = (60 : ℝ) from by norm_num [dFb, dF35, dF0, dMmv, dM35, dM0]]
    rw [show dFb.y - dMmv.y = (0 : ℝ) from by norm_num [dFb, dF35, dF0, dMmv, dM35, dM0]]
    rw [show (60 : ℝ) ^ 2 + 0 ^ 2 = 60 ^ 2 from by norm_num]
    exact Real.sqrt_sq (by norm_num)
  have hfar : ¬(Real.sqrt ((dFb.x - dMmv.x) ^ 2 + (dFb.y - dMmv.y) ^ 2) <
      collisionRadius cfgA dMmv + collisionRadius cfgA dFb + productionCollideOpts.minSeparation ∧
      Real.sqrt ((dFb.x - dMmv.x) ^ 2 + (dFb.y - dMmv.y) ^ 2) > 0) := by
    rw [hs60]
    intro h
    have h1 := h.1
    norm_num [collisionRadius, dMmv, dM35, dM0, dFb, dF35, dF0, cfgA,
      productionCollideOpts] at h1
  have hM : bounceOffWalls cfgA (updatePosition dMmv) = dM1 := by
    rw [bounceOffWalls_inside cfgA (updatePosition dMmv)
      (by norm_num [updatePosition, dMmv, dM35, dM0, calculateBounds, calculateScale, cfgA,
        WALL_margin, WALL_topMargin, min_def])
      (by norm_num [updatePosition, dMmv, dM35, dM0, calculateBounds, calculateScale, cfgA,
        WALL_margin, WALL_topMargin, min_def])
      (by norm_num [updatePosition, dMmv, dM35, dM0, calculateBounds, calculateScale, cfgA,
        WALL_margin, WALL_topMargin, min_def])
      (by norm_num [updatePosition, dMmv, dM35, dM0, calculateBounds, calculateScale, cfgA,
        WALL_margin, WALL_topMargin, min_def])]
    apply digit_ext <;> norm_num [updatePosition, dMmv, dM1, dM35, dM0]
  have hF : bounceOffWalls cfgA (updatePosition dFb) = dF1 := by
    rw [bounceOffWalls_inside cfgA (updatePosition dFb)
      (by norm_num [updatePosition, dFb, dF35, dF0, dM0, calculateBounds, calculateScale, cfgA,
        WALL_margin, WALL_topMargin, min_def])
      (by norm_num [updatePosition, dFb, dF35, dF0, dM0, calculateBounds, calculateScale, cfgA,
        WALL_margin, WALL_topMargin, min_def])
      (by norm_num [updatePosition, dFb, dF35, dF0, dM0, calculateBounds, calculateScale, cfgA,
        WALL_margin, WALL_topMargin, min_def])
      (by norm_num [updatePosition, dFb, dF35, dF0, dM0, calculateBounds, calculateScale, cfgA,
        WALL_margin, WALL_topMargin, min_def])]
    apply digit_ext <;> norm_num [updatePosition, dFb, dF1, dF35, dF0, dM0]
  rw [updateAllDigits]
  dsimp only
  rw [show ([dM35, dF35] : List Digit).map (validateBonds [dM35, dF35]) = [dM35, dF35] from rfl]
  rw [tick1_movement]
  dsimp only
  rw [collide_pair_far cfgA productionCollideOpts dMmv dFb hfar]
  simp only [List.map_cons, List.map_nil]
  rw [hM, hF]
  rfl

theorem tick1_eval : tickSim cfgA none randHalf 35 stateSeed = stateT1 := by
  rw [tickSim]
  rw [tick1_lifecycle]
  dsimp only
  rw [tick1_reproduce]
  dsimp only
  rw [if_neg (show ¬(([dM35, dF35] : List Digit).length = 0) from by norm_num)]
  dsimp only
  rw [tick1_updateAll]

theorem tick2_lifecycle :
    lifecyclePass cfgA none randHalf 50 { digits := [dM1, dF1], tick := 2, nextId := 2 } 0
      = ({ digits := [dF85], tick := 2, nextId := 2 }, 0) := by
  rw [lifecyclePass]
  rw [show ({ digits := [dM1, dF1], tick := 2, nextId := 2 } : SimState).digits.map
    (fun d => d.id) = [0, 1] from rfl]
  rw [List.foldl_cons, List.foldl_cons, List.foldl_nil]
  have h0 : updateDigitLifecycle cfgA none randHalf 50
      (({ digits := [dM1, dF1], tick := 2, nextId := 2 } : SimState), 0) 0
      = (({ digits := [{ dF1 with bondedTo := none }], tick := 2, nextId := 2 } : SimState), 0) := by
    rw [lifecycle_step_kill cfgA randHalf 50
      ({ digits := [dM1, dF1], tick := 2, nextId := 2 } : SimState) 0 0 dM1 rfl
      (by norm_num [cfgA]) (by norm_num [dM1, dMmv, dM35, dM0])]
    rfl
  rw [h0]
  have h1 : updateDigitLifecycle cfgA none randHalf 50
      (({ digits := [{ dF1 with bondedTo := none }], tick := 2, nextId := 2 } : SimState), 0) 1
      = (({ digits := [dF85], tick := 2, nextId := 2 } : SimState), 0) := by
    rw [lifecycle_step_no_kill cfgA randHalf 50
      ({ digits := [{ dF1 with bondedTo := none }], tick := 2, nextId := 2 } : SimState) 0 1
      ({ dF1 with bondedTo := none } : Digit) rfl
      (by norm_num [cfgA]) (by norm_num [dF1, dFb, dF35, dF0, dM0])]
    rw [show ({ dF1 with bondedTo := none } : Digit).age + 50 = (85 : ℝ) from by
      norm_num [dF1, dFb, dF35, dF0, dM0]]
    rfl
  rw [h1]

theorem tick2_reproduce :
    reproduce cfgA randHalf { digits := [dF85], tick := 2, nextId := 2 } 0 =
      ({ digits := [dF4], tick := 2, nextId := 2 }, 0) := by
  have hcap : ¬(({ digits := [dF85], tick := 2, nextId := 2 } : SimState).digits.length ≥
      cfgA.POP_CAP) := by
    norm_num [cfgA]
  rw [reproduce, if_neg hcap]
  rw [show 2 * ({ digits := [dF85], tick := 2, nextId := 2 } : SimState).digits.length + 1
    = 2 + 1 from rfl]
  rw [reproduceLoop_decr cfgA randHalf 2 0
    { digits := [dF85], tick := 2, nextId := 2 }
    { digits := [dF4], tick := 2, nextId := 2 } 0 dF85 rfl
    ⟨rfl, by norm_num [dF85, dF1, dFb, dF35, dF0, dM0]⟩
    (fun h => absurd h.1 (by norm_num [dF85, dF1, dFb, dF35, dF0, dM0]))
    (by
      refine simState_ext ?_ rfl rfl
      show [dF4] = [({ dF85 with gestationTimer := dF85.gestationTimer - 1 } : Digit)]
      congr 1
      apply digit_ext <;> norm_num [dF4, dF85, dF1, dFb, dF35, dF0, dM0])]
  nth_rewrite 1 [show (2 : ℕ) = 1 + 1 from rfl]
  rw [reproduceLoop_end cfgA randHalf 1 (0 + 1)
    { digits := [dF4], tick := 2, nextId := 2 } 0 rfl]

theorem tick2_movement : movementPass cfgA randHalf [dF4] 0 = ([dF4], 2) := by
  rw [movementPass]
  rw [show ([dF4] : List Digit).length = 1 from rfl]
  rw [show List.range 1 = [0] from rfl]
  rw [List.foldl_cons, List.foldl_nil]
  simp only [List.get?_cons_zero]
  rw [move_fem_eval 0 [dF4] dF4 rfl rfl rfl rfl]
  rfl

theorem tick2_updateAll :
    updateAllDigits cfgA randHalf { digits := [dF4], tick := 2, nextId := 2 } 0 =
      (stateT2, 2) := by
  have hF2 : bounceOffWalls cfgA (updatePosition dF4) = dFfin := by
    rw [bounceOffWalls_inside cfgA (updatePosition dF4)
      (by norm_num [updatePosition, dF4, dF85, dF1, dFb, dF35, dF0, dM0, calculateBounds,
        calculateScale, cfgA, WALL_margin, WALL_topMargin, min_def])
      (by norm_num [updatePosition, dF4, dF85, dF1, dFb, dF35, dF0, dM0, calculateBounds,
        calculateScale, cfgA, WALL_margin, WALL_topMargin, min_def])
      (by norm_num [updatePosition, dF4, dF85, dF1, dFb, dF35, dF0, dM0, calculateBounds,
        calculateScale, cfgA, WALL_margin, WALL_topMargin, min_def])
      (by norm_num [updatePosition, dF4, dF85, dF1, dFb, dF35, dF0, dM0, calculateBounds,
        calculateScale, cfgA, WALL_margin, WALL_topMargin, min_def])]
    apply digit_ext <;> norm_num [updatePosition, dFfin, dF4, dF85, dF1, dFb, dF35, dF0, dM0]
  rw [updateAllDigits]
  dsimp only
  rw [show ([dF4] : List Digit).map (validateBonds [dF4]) = [dF4] from rfl]
  rw [tick2_movement]
  dsimp only
  rw [collide_singleton cfgA productionCollideOpts dF4]
  simp only [List.map_cons, List.map_nil]
  rw [hF2]
  rfl

theorem tick2_eval : tickSim cfgA none randHalf 50 stateT1 = stateT2 := by
  rw [tickSim]
  rw [show ({ stateT1 with tick := stateT1.tick + 1 } : SimState)
    = ({ digits := [dM1, dF1], tick := 2, nextId := 2 } : SimState) from rfl]
  rw [tick2_lifecycle]
  dsimp only
  rw [tick2_reproduce]
  dsimp only
  rw [if_neg (show ¬(([dF4] : List Digit).length = 0) from by norm_num)]
  dsimp only
  rw [tick2_updateAll]

/-- C3 (counterexample): the invariant fails.  Starting from the seeded
pair, a tick with frame increment 35 bonds the two (starting her gestation
timer at 5), and a second tick with increment 50 ages the male past his
maximum age, so the lifecycle pass kills him; `killDigit` clears the
widow's `bondedTo` but leaves her gestation timer running, and `reproduce`
merely decrements it to 4.  The resulting reachable state holds an
unbonded digit with a nonzero gestation timer. -/
theorem reachable_unbonded_gestating :
    ∃ s, Reachable cfgA s ∧ ∃ d ∈ s.digits, d.gestationTimer ≠ 0 ∧ d.bondedTo = none := by
  have hrH : ValidRand randHalf := by
    intro i
    constructor <;> norm_num [randHalf]
  have hrC : ValidRand randC3 := by
    intro i
    refine ⟨?_, ?_⟩ <;> simp only [randC3] <;> split_ifs <;> norm_num
  have h0 : Reachable cfgA (resetSimulation cfgA randC3 ⟨[], 0, 0⟩ 0).1 :=
    Reachable.init randC3 hrC
  rw [reset_eval] at h0
  have h1 : Reachable cfgA (tickSim cfgA none randHalf 35 stateSeed) :=
    Reachable.tick stateSeed none randHalf hrH 35 (by norm_num) h0
  rw [tick1_eval] at h1
  have h2 : Reachable cfgA (tickSim cfgA none randHalf 50 stateT1) :=
    Reachable.tick stateT1 none randHalf hrH 50 (by norm_num) h1
  rw [tick2_eval] at h2
  refine ⟨stateT2, h2, dFfin, ?_, ?_, rfl⟩
  · exact List.mem_cons_self dFfin []
  · norm_num [dFfin, dF4, dF85, dF1, dFb, dF35, dF0, dM0]

end

end ART
